import Mathlib

/-!
Verification of the Fallback Generation Pipeline of the writing-prompt
generator service (`prompt-service/app.py`).

The development shallowly embeds the core components:

* the Fair Rotation Sampling logic of `generate_sound_design_prompt`
  (the artist rotation at app.py:1116-1161 and the structurally identical
  book rotation at app.py:1184-1230),
* the content sanitizer `sanitize_ai_content` (app.py:281-375), and
* the four generation entry points around them: the writing-prompt,
  sound-design, chord-progression and drawing-exercise generators with
  their template fallbacks.

Python strings are modelled as `List Char`; machine integers as `Int`/`Nat`;
fallible operations return `Option`.  Randomness (`random.shuffle`,
`random.choice`) is modelled by oracle parameters: a call site that shuffles
receives the permutation it would produce as an argument, and a call site
that picks uniformly receives an arbitrary natural number that is reduced
modulo the pool size.
-/

namespace Rotation

/-- The JSON value persisted under the `...:shuffled` Redis key, as seen by
`json.loads`: either a list of integers, or content on which parsing (or the
later use as a list of indices) raises.  Non-integer list entries, which in
Python would raise only when used as a list index, are modelled by
out-of-range integers, which raise at exactly the same program point. -/
inductive StoredList where
  | ok (xs : List Int)
  | bad
deriving DecidableEq

/-- The value persisted under the `...:position` Redis key, as seen by
`int(redis_client.get(position_key) or 0)`: a parseable integer, an empty
(falsy) value that the `or 0` turns into `0`, or content on which `int()`
raises. -/
inductive StoredPos where
  | ok (n : Int)
  | empty
  | bad
deriving DecidableEq

/-- The persistence state for one rotation category: the two Redis keys
(`none` models an absent key) plus reachability of the store.  When
`reachable` is `false` every Redis operation raises, which models an
unreachable store for the whole call. -/
structure Store where
  shuffled : Option StoredList
  position : Option StoredPos
  reachable : Bool
deriving DecidableEq

/-- Python list indexing `xs[i]`: non-negative indices index from the front,
negative indices from the back, and anything out of range raises
(`none`). -/
def pyIndex (xs : List α) (i : Int) : Option α :=
  if 0 ≤ i then xs.get? i.toNat
  else if 0 ≤ i + xs.length then xs.get? (i + xs.length).toNat
  else none

/-- `random.choice(pool)` with the random draw supplied as the oracle `k`:
any `k` selects a valid element (reduction modulo the pool size), and an
empty pool raises (`none`), exactly as `random.choice([])` does. -/
def pyChoice (pool : List α) (k : Nat) : Option α :=
  if h : pool.length = 0 then none
  else some (pool.get ⟨k % pool.length, Nat.mod_lt _ (Nat.pos_of_ne_zero h)⟩)

/-- The tail of one rotation call after the shuffled list `xs` and the
current position `pos` have been determined (app.py:1150-1156 and
1219-1225): read `xs[pos]`, read `pool[that index]`, then persist
`pos + 1`.  An `IndexError` in either read is caught by the surrounding
`except`, which falls back to `random.choice(pool)` without touching the
store. -/
def afterSelect (pool : List String) (xs : List Int) (pos : Int) (fb : Nat)
    (st : Store) : Option String × Store :=
  match pyIndex xs pos with
  | none => (pyChoice pool fb, st)
  | some idx =>
    match pyIndex pool idx with
    | none => (pyChoice pool fb, st)
    | some entity => (some entity, { st with position := some (.ok (pos + 1)) })

/-- One call of the rotation selection of `generate_sound_design_prompt`
(app.py:1116-1161; the book rotation at 1184-1230 is the same code with a
different pool and key).  `newPerm` is the oracle for the permutation that
`random.shuffle(list(range(len(pool))))` would produce at this call, and
`fb` is the oracle for the `random.choice` fallback draw.

* store unreachable: the first `redis_client.get` raises, the `except`
  returns a uniformly random entity, the store is untouched;
* key absent: create a shuffled permutation, persist it with position 0,
  select through it;
* unparseable list (`json.loads` raises) or unparseable position (`int()`
  raises): caught by the `except`, random fallback, store untouched;
* position ≥ stored length (the position of an absent or empty cursor key
  reading as `0` through the `or 0`): reshuffle, persist with position 0,
  select;
* otherwise select at the stored position. -/
def next (pool : List String) (newPerm : List Int) (fb : Nat) (st : Store) :
    Option String × Store :=
  match st.reachable with
  | false => (pyChoice pool fb, st)
  | true =>
    match st.shuffled with
    | none =>
      afterSelect pool newPerm 0 fb
        { st with shuffled := some (.ok newPerm), position := some (.ok 0) }
    | some .bad => (pyChoice pool fb, st)
    | some (.ok xs) =>
      match st.position with
      | none =>
        if (xs.length : Int) ≤ 0 then
          afterSelect pool newPerm 0 fb
            { st with shuffled := some (.ok newPerm), position := some (.ok 0) }
        else afterSelect pool xs 0 fb st
      | some .empty =>
        if (xs.length : Int) ≤ 0 then
          afterSelect pool newPerm 0 fb
            { st with shuffled := some (.ok newPerm), position := some (.ok 0) }
        else afterSelect pool xs 0 fb st
      | some .bad => (pyChoice pool fb, st)
      | some (.ok p) =>
        if (xs.length : Int) ≤ p then
          afterSelect pool newPerm 0 fb
            { st with shuffled := some (.ok newPerm), position := some (.ok 0) }
        else afterSelect pool xs p fb st

/-- Iterate `next`: one oracle permutation and one fallback draw are consumed
per call (unused oracles are simply ignored by the call).  Returns the list
of selected entities and the final store. -/
def run (pool : List String) (fb : Nat) : Store → List (List Int) →
    List (Option String) × Store
  | st, [] => ([], st)
  | st, p :: ps =>
    let r := next pool p fb st
    let rest := run pool fb r.2 ps
    (r.1 :: rest.1, rest.2)

/-- A store with no persisted rotation state and a reachable backend. -/
def fresh : Store := ⟨none, none, true⟩

/-- `xs` is a permutation of `range n`, as produced by
`random.shuffle(list(range(n)))`. -/
def IsRangePerm (n : Nat) (xs : List Int) : Prop :=
  xs.Perm ((List.range n).map Int.ofNat)

instance (n : Nat) (xs : List Int) : Decidable (IsRangePerm n xs) := by
  unfold IsRangePerm; infer_instance

/-- Every entry of `xs` is a valid (non-negative, in-range) index into
`pool`. -/
def entryValid (pool : List String) (xs : List Int) : Prop :=
  ∀ e ∈ xs, 0 ≤ e ∧ e.toNat < pool.length

/-- The cursor value the call works with, as computed by
`int(redis_client.get(position_key) or 0)`: an absent key or an empty
(falsy) value read as `0`, a stored integer read as itself, and garbage on
which `int()` raises read as `none`. -/
def posRead : Option StoredPos → Option Int
  | none => some 0
  | some .empty => some 0
  | some .bad => none
  | some (.ok p) => some p

/-- The persistence-failure conditions of one rotation call: the store is
unreachable (the first `get` raises), the stored list does not parse
(`json.loads` raises), the stored position does not parse (`int()` raises),
or the non-exhausted cursor leads to an `IndexError` when indexing the
stored list or the pool. -/
def storeFailure (pool : List String) (st : Store) : Prop :=
  st.reachable = false ∨ st.shuffled = some .bad ∨
  (∃ xs, st.shuffled = some (.ok xs) ∧ st.position = some .bad) ∨
  (∃ xs p, st.shuffled = some (.ok xs) ∧ posRead st.position = some p ∧
    ¬ ((xs.length : Int) ≤ p) ∧
    (pyIndex xs p = none ∨ ∃ i, pyIndex xs p = some i ∧ pyIndex pool i = none))

end Rotation

namespace Sanitize

/-- Unicode general category C (`unicodedata.category(ch)[0] == 'C'` at
app.py:289) for the code points this development manipulates: the Cc
controls, the BMP format characters (Cf), the surrogate range (Cs) and the
BMP private-use area (Co).  Unassigned code points (Cn) are not modelled. -/
def isCatC (c : Char) : Bool :=
  c.val < 0x20 || c.val == 0x7F || (0x80 ≤ c.val && c.val ≤ 0x9F) ||
  c.val == 0xAD || (0x600 ≤ c.val && c.val ≤ 0x605) || c.val == 0x61C ||
  c.val == 0x6DD || c.val == 0x70F || c.val == 0x8E2 ||
  (0x200B ≤ c.val && c.val ≤ 0x200F) || (0x202A ≤ c.val && c.val ≤ 0x202E) ||
  (0x2060 ≤ c.val && c.val ≤ 0x2064) || (0x2066 ≤ c.val && c.val ≤ 0x206F) ||
  c.val == 0xFEFF || (0xFFF9 ≤ c.val && c.val ≤ 0xFFFB) ||
  (0xD800 ≤ c.val && c.val ≤ 0xDFFF) || (0xE000 ≤ c.val && c.val ≤ 0xF8FF)

/-- The Unicode whitespace set of `str.strip()` / `str.split()`. -/
def pyWS (c : Char) : Bool :=
  c == ' ' || c == '\t' || c == '\n' || c == '\r' ||
  c.val == 0x0B || c.val == 0x0C || (0x1C ≤ c.val && c.val ≤ 0x1F) ||
  c.val == 0x85 || c.val == 0xA0 || c.val == 0x1680 ||
  (0x2000 ≤ c.val && c.val ≤ 0x200A) || c.val == 0x2028 || c.val == 0x2029 ||
  c.val == 0x202F || c.val == 0x205F || c.val == 0x3000

/-- The Unicode separator categories Zs/Zl/Zp, space included. -/
def isZsep (c : Char) : Bool :=
  c == ' ' || c.val == 0xA0 || c.val == 0x1680 ||
  (0x2000 ≤ c.val && c.val ≤ 0x200A) || c.val == 0x2028 || c.val == 0x2029 ||
  c.val == 0x202F || c.val == 0x205F || c.val == 0x3000

/-- `str.isprintable` per character (app.py:336): everything outside the C
and Z categories, with the plain space printable. -/
def pyPrintable (c : Char) : Bool :=
  c == ' ' || (!isCatC c && !isZsep c)

/-- `str.isupper` on one character (app.py:356); faithful on ASCII and
Latin-1, the scripts reachable in this service's English content. -/
def pyIsUpper (c : Char) : Bool :=
  ('A' ≤ c && c ≤ 'Z') || (0xC0 ≤ c.val && c.val ≤ 0xDE && c.val != 0xD7)

/-- `[0-9A-Fa-f]`. -/
def isHexDigit (c : Char) : Bool :=
  ('0' ≤ c && c ≤ '9') || ('A' ≤ c && c ≤ 'F') || ('a' ≤ c && c ≤ 'f')

/-- Step 1 of the sanitizer (app.py:289): keep a character iff it is not in
category C, or is one of newline, carriage return, tab. -/
def keepChar (c : Char) : Bool :=
  !isCatC c || c == '\n' || c == '\r' || c == '\t'

/-- `s.split(sep)` for a single-character separator: splitting never drops
empty segments and the result is never the empty list (`headI`/`tail` of the
recursive call are its head and tail, since it is never `[]`). -/
def splitOn (sep : Char) : List Char → List (List Char)
  | [] => [[]]
  | c :: cs =>
    if c = sep then [] :: splitOn sep cs
    else (c :: (splitOn sep cs).headI) :: (splitOn sep cs).tail

/-- `s.lstrip()`. -/
def pyStripLeft (s : List Char) : List Char := s.dropWhile pyWS

/-- `s.rstrip()`. -/
def pyStripRight (s : List Char) : List Char :=
  (s.reverse.dropWhile pyWS).reverse

/-- `s.strip()`. -/
def pyStrip (s : List Char) : List Char := pyStripRight (pyStripLeft s)

/-- Match a literal pattern at the head of the input, returning the
remainder after the pattern. -/
def matchLit : List Char → List Char → Option (List Char)
  | [], s => some s
  | _ :: _, [] => none
  | p :: ps, c :: cs => if p = c then matchLit ps cs else none

/-- `len(re.findall(r'\\\\x[0-9A-Fa-f]', line))` (app.py:304): count
non-overlapping occurrences of two literal backslashes, `x`, and one hex
digit. -/
def countHexEsc : List Char → Nat
  | a :: b :: x :: d :: rest =>
    if a = '\\' ∧ b = '\\' ∧ x = 'x' ∧ isHexDigit d then
      1 + countHexEsc rest
    else countHexEsc (b :: x :: d :: rest)
  | _ => 0

/-- The scanning automaton for `re.findall(r'<[^>]*>', line)`: the flag
records an open `<` whose closing `>` has not been seen yet. -/
def countHtmlAux : Bool → List Char → Nat
  | _, [] => 0
  | false, c :: cs =>
    if c = '<' then countHtmlAux true cs else countHtmlAux false cs
  | true, c :: cs =>
    if c = '>' then 1 + countHtmlAux false cs else countHtmlAux true cs

/-- `len(re.findall(r'<[^>]*>', line))` (app.py:305). -/
def countHtml (s : List Char) : Nat := countHtmlAux false s

/-- The alternation
`(file://|ftp://|hidden_params|innerHTML|getElementById)` tried at the
current position, leftmost alternative first. -/
def protoMatch (s : List Char) : Option (List Char) :=
  match matchLit "file://".toList s with
  | some r => some r
  | none =>
    match matchLit "ftp://".toList s with
    | some r => some r
    | none =>
      match matchLit "hidden_params".toList s with
      | some r => some r
      | none =>
        match matchLit "innerHTML".toList s with
        | some r => some r
        | none => matchLit "getElementById".toList s

/-- Non-overlapping scan for `protoMatch`; the fuel starts at the input
length, which `protoGo_stable` below shows is enough. -/
def protoGo : Nat → List Char → Nat
  | 0, _ => 0
  | _ + 1, [] => 0
  | fuel + 1, c :: cs =>
    match protoMatch (c :: cs) with
    | some rest => 1 + protoGo fuel rest
    | none => protoGo fuel cs

/-- `len(re.findall(r'(file://|ftp://|hidden_params|innerHTML|getElementById)', line))`
(app.py:306). -/
def countProtocols (s : List Char) : Nat := protoGo s.length s

/-- The block-drawing character class `[█▓▒░]`. -/
def isBlock (c : Char) : Bool :=
  c == '█' || c == '▓' || c == '▒' || c == '░'

/-- `len(re.findall(r'[█▓▒░]', line))` (app.py:307). -/
def countBlocks (s : List Char) : Nat := s.countP isBlock

/-- The punctuation class of the cluster rule (app.py:308). -/
def isPunct (c : Char) : Bool :=
  (['!', '@', '#', '$', '%', '^', '&', '*', '(', ')', '+', '=', '{', '}',
    '[', ']', '|', '\\', ':', ';', '\"', '<', '>', '?', ',', '.', '/']).contains c

/-- Scanner for `[...]{5,}`: `n` is the length of the punctuation run in
progress; each maximal run of length at least 5 is one match. -/
def punctAux : Nat → List Char → Nat
  | n, [] => if 5 ≤ n then 1 else 0
  | n, c :: cs =>
    if isPunct c then punctAux (n + 1) cs
    else (if 5 ≤ n then 1 else 0) + punctAux 0 cs

/-- `len(re.findall(r'[!@#$%^&*()+={}\[\]|\\:;"<>?,./]{5,}', line))`
(app.py:308). -/
def countPunctRuns (s : List Char) : Nat := punctAux 0 s

/-- The one-character class `[µ°†Δφε☐]` of the code-pattern rule. -/
def isCodeSym (c : Char) : Bool :=
  c == 'µ' || c == '°' || c == '†' || c == 'Δ' || c == 'φ' || c == 'ε' ||
  c == '☐'

/-- The alternation `(\$\(|\.entrySet\(|@@|[µ°†Δφε☐])` tried at the current
position, leftmost alternative first. -/
def codeMatch (s : List Char) : Option (List Char) :=
  match matchLit "$(".toList s with
  | some r => some r
  | none =>
    match matchLit ".entrySet(".toList s with
    | some r => some r
    | none =>
      match matchLit "@@".toList s with
      | some r => some r
      | none =>
        match s with
        | c :: cs => if isCodeSym c then some cs else none
        | [] => none

/-- Non-overlapping scan for `codeMatch` (fuel as in `protoGo`). -/
def codeGo : Nat → List Char → Nat
  | 0, _ => 0
  | _ + 1, [] => 0
  | fuel + 1, c :: cs =>
    match codeMatch (c :: cs) with
    | some rest => 1 + codeGo fuel rest
    | none => codeGo fuel cs

/-- `len(re.findall(r'(\$\(|\.entrySet\(|@@|[µ°†Δφε☐])', line))`
(app.py:309). -/
def countCodePat (s : List Char) : Nat := codeGo s.length s

/-- The weighted corruption score of one line (app.py:312). -/
def corruptionScore (line : List Char) : Nat :=
  3 * countHexEsc line + 2 * countHtml line + 5 * countProtocols line +
  3 * countBlocks line + 2 * countPunctRuns line + 3 * countCodePat line

/-- First alternative of the suspicious-start pattern: `[.=]="<` after
optional whitespace. -/
def susp1 : List Char → Bool
  | c :: d :: e :: f :: _ =>
    (c == '.' || c == '=') && d == '=' && e == '\"' && f == '<'
  | _ => false

/-- Second alternative: `[{\[][@$]` after optional whitespace. -/
def susp2 : List Char → Bool
  | c :: d :: _ => (c == '{' || c == '[') && (d == '@' || d == '$')
  | _ => false

/-- Third alternative: `\\x` (one literal backslash then `x`) after optional
whitespace. -/
def susp3 : List Char → Bool
  | c :: d :: _ => c == '\\' && d == 'x'
  | _ => false

/-- `re.match(r'^\s*[.=]="<|^\s*[{\[][@$]|^\s*\\x', line)` (app.py:320):
each alternative skips leading whitespace and then requires its literal
fragment. -/
def suspiciousStart (line : List Char) : Bool :=
  susp1 (line.dropWhile pyWS) || susp2 (line.dropWhile pyWS) ||
  susp3 (line.dropWhile pyWS)

/-- `re.sub(r'\\\\x[0-9A-Fa-f]{2}', '', line)` (app.py:325): remove each
non-overlapping occurrence of two backslashes, `x`, and two hex digits. -/
def subHex : List Char → List Char
  | a :: b :: x :: d1 :: d2 :: rest =>
    if a = '\\' ∧ b = '\\' ∧ x = 'x' ∧ isHexDigit d1 ∧ isHexDigit d2 then
      subHex rest
    else a :: subHex (b :: x :: d1 :: d2 :: rest)
  | s => s

/-- `re.sub(r'\\\\u[0-9A-Fa-f]{4}', '', line)` (app.py:327). -/
def subUni : List Char → List Char
  | a :: b :: x :: d1 :: d2 :: d3 :: d4 :: rest =>
    if a = '\\' ∧ b = '\\' ∧ x = 'u' ∧ isHexDigit d1 ∧ isHexDigit d2 ∧
        isHexDigit d3 ∧ isHexDigit d4 then
      subUni rest
    else a :: subUni (b :: x :: d1 :: d2 :: d3 :: d4 :: rest)
  | s => s

/-- The three residual-cleanup substitutions applied to a kept line, in
source order (app.py:325-327); `re.sub(r'[█▓▒░]+', '', line)` removes every
block character. -/
def cleanLine (line : List Char) : List Char :=
  subUni ((subHex line).filter (fun c => !isBlock c))

/-- Per-line filtering (app.py:295-329).  Whitespace-only lines are kept
verbatim.  A line is dropped when the stripped length exceeds 10 and the
corruption score strictly exceeds 0.2 times the stripped length — the float
comparison `corruption_score > len(stripped_line) * 0.2` coincides with the
integer comparison `5 * score > len` for every integer score and realistic
length, which is how it is stated here — or when the line starts with a
suspicious pattern.  A kept line receives the residual cleanup. -/
def processLine (line : List Char) : Option (List Char) :=
  if pyStrip line = [] then some line
  else if 10 < (pyStrip line).length ∧
      (pyStrip line).length < 5 * corruptionScore line then none
  else if suspiciousStart line then none
  else some (cleanLine line)

/-- Scanner for `re.sub(r'\n{3,}', '\n\n', content)` (app.py:332): `n`
counts the pending newline run; a run of three or more is emitted as exactly
two newlines. -/
def nlAux : Nat → List Char → List Char
  | n, [] => List.replicate (min n 2) '\n'
  | n, c :: cs =>
    if c = '\n' then nlAux (n + 1) cs
    else List.replicate (min n 2) '\n' ++ c :: nlAux 0 cs

/-- `re.sub(r'\n{3,}', '\n\n', content)` (app.py:332). -/
def collapseNL (s : List Char) : List Char := nlAux 0 s

/-- A character counted as printable by the final gate (app.py:336):
`c.isprintable() or c in '\n\r\t'`. -/
def printableChar (c : Char) : Bool :=
  pyPrintable c || c == '\n' || c == '\r' || c == '\t'

/-- The printability gate (app.py:335-339): texts longer than 50 characters
whose printable fraction is below 0.85 are rejected.  The float comparison
`printable_ratio < 0.85` coincides with the rational comparison
`20 * printable < 17 * length` for all realistic lengths, which is how it
is stated here. -/
def printableOK (content : List Char) : Bool :=
  if 50 < content.length then
    decide (17 * content.length ≤ 20 * content.countP printableChar)
  else true

/-- The marker set of
`line.strip().startswith(('Title:', 'Step', '##', '#', '**', '-'))`
(app.py:345). -/
def headerMarks : List (List Char) :=
  ["Title:", "Step", "##", "#", "**", "-"].map String.toList

/-- A line skipped by the word-salad gate because it looks like a
title/header/list item. -/
def headerLike (line : List Char) : Bool :=
  headerMarks.any (fun p => (matchLit p (pyStrip line)).isSome)

/-- Accumulator-based `s.split()`: `acc` holds the current word reversed. -/
def pyWordsAux : List Char → List Char → List (List Char)
  | acc, [] => if acc = [] then [] else [acc.reverse]
  | acc, c :: cs =>
    if pyWS c then
      (if acc = [] then pyWordsAux [] cs else acc.reverse :: pyWordsAux [] cs)
    else pyWordsAux (c :: acc) cs

/-- `line.split()` (app.py:348): split on whitespace runs, no empty
words. -/
def pyWords (s : List Char) : List (List Char) := pyWordsAux [] s

/-- The punctuation set of `word.strip('.,;:!?()[]')` (app.py:355). -/
def isTrimPunct (c : Char) : Bool :=
  (['.', ',', ';', ':', '!', '?', '(', ')', '[', ']']).contains c

/-- `word.strip('.,;:!?()[]')` (app.py:355). -/
def stripPunctEnds (w : List Char) : List Char :=
  ((w.dropWhile isTrimPunct).reverse.dropWhile isTrimPunct).reverse

/-- Python's substring test `pat in s`. -/
def hasSubstr (pat : List Char) : List Char → Bool
  | [] => decide (pat = [])
  | c :: cs => (matchLit pat (c :: cs)).isSome || hasSubstr pat cs

/-- The proper-noun allow-list of the word-salad gate (app.py:358). -/
def keywords : List (List Char) :=
  ["Serum", "Phase", "Plant", "Vital", "FM", "LFO"].map String.toList

/-- `any(keyword in clean_word for keyword in [...])` (app.py:358). -/
def containsKeyword (w : List Char) : Bool :=
  keywords.any (fun k => hasSubstr k w)

/-- The test `len(clean_word) > 1 and clean_word[0].isupper()` applied to a
token (app.py:356). -/
def capWord (w : List Char) : Bool :=
  match stripPunctEnds w with
  | c :: _ :: _ => pyIsUpper c
  | _ => false

/-- The word-salad loop over the tokens of one line (app.py:351-369),
with `seq` the current run of counted capitalized tokens.  A capitalized
allow-listed token resets the run without flagging it; any other run
terminator (or the end of the line) flags a run of length at least 8. -/
def saladScan : Nat → List (List Char) → Bool
  | seq, [] => decide (8 ≤ seq)
  | seq, w :: rest =>
    if capWord w then
      (if containsKeyword (stripPunctEnds w) then saladScan 0 rest
       else saladScan (seq + 1) rest)
    else decide (8 ≤ seq) || saladScan 0 rest

/-- Whether one line triggers the word-salad rejection (app.py:348-373):
only lines with more than 15 whitespace-separated tokens are examined, and
the first token never counts toward a run. -/
def saladLineReject (line : List Char) : Bool :=
  decide (15 < (pyWords line).length) && saladScan 0 ((pyWords line).drop 1)

/-- The whitespace-normalization step as the amended C9 states it: every
maximal run of three or more newline characters — two or more consecutive
blank lines — becomes exactly two newlines (one blank line), and shorter
newline runs are left unchanged. -/
def specCollapse : List Char → List Char
  | [] => []
  | c :: cs =>
    if c = '\n' then
      List.replicate
          (if 3 ≤ 1 + (cs.takeWhile (fun d => d == '\n')).length then 2
           else 1 + (cs.takeWhile (fun d => d == '\n')).length) '\n' ++
        specCollapse (cs.dropWhile (fun d => d == '\n'))
    else c :: specCollapse cs
termination_by s => s.length
decreasing_by
  · have h := (List.dropWhile_sublist (l := cs) (fun d => d == '\n')).length_le
    simp only [List.length_cons]
    omega
  · simp only [List.length_cons]
    omega

/-- `sep.join(xs)`. -/
def joinSep (sep : Char) : List (List Char) → List Char
  | [] => []
  | [l] => l
  | l :: ls => l ++ sep :: joinSep sep ls

/-- `sanitize_ai_content` (app.py:281-375).  Empty (falsy) input returns
`None`; then control characters are stripped, each line is filtered and
cleaned, blank-line runs are collapsed, and the printability and word-salad
gates may reject the whole text; otherwise the stripped text is returned. -/
def sanitize_ai_content (content : List Char) : Option (List Char) :=
  if content = [] then none
  else
    let joined := collapseNL (joinSep '\n'
      ((splitOn '\n' (content.filter keepChar)).filterMap processLine))
    if printableOK joined = false then none
    else if (splitOn '\n' joined).any
        (fun l => !headerLike l && saladLineReject l) then none
    else some (pyStrip joined)

/-- Scanner for the presence of three consecutive newline characters. -/
def hasTriple : List Char → Bool
  | a :: b :: c :: rest =>
    (a == '\n' && b == '\n' && c == '\n') || hasTriple (b :: c :: rest)
  | _ => false

/-- The effect of `lstrip` on the line decomposition: fully-blank leading
lines are consumed together with their newline, and the first remaining
line loses its leading whitespace. -/
def skipBlank : List (List Char) → List (List Char)
  | [] => []
  | l :: ls =>
    if l.dropWhile pyWS = [] ∧ ls ≠ [] then skipBlank ls
    else (l.dropWhile pyWS) :: ls

/-- Append one character to the last element of a list of lines. -/
def appendLast (a : Char) : List (List Char) → List (List Char)
  | [] => [[a]]
  | [l] => [l ++ [a]]
  | l :: ls => l :: appendLast a ls

/-- Whether the escape pattern of `subHex` matches at the head of the
string. -/
def hexWin : List Char → Bool
  | a :: b :: x :: d1 :: d2 :: _ =>
    decide (a = '\\' ∧ b = '\\' ∧ x = 'x' ∧ isHexDigit d1 = true ∧
      isHexDigit d2 = true)
  | _ => false

/-- No position of the string matches the escape pattern of `subHex`. -/
def hexFree : List Char → Bool
  | [] => true
  | c :: cs => !hexWin (c :: cs) && hexFree cs

/-- Whether the escape pattern of `subUni` matches at the head of the
string. -/
def uniWin : List Char → Bool
  | a :: b :: x :: d1 :: d2 :: d3 :: d4 :: _ =>
    decide (a = '\\' ∧ b = '\\' ∧ x = 'u' ∧ isHexDigit d1 = true ∧
      isHexDigit d2 = true ∧ isHexDigit d3 = true ∧ isHexDigit d4 = true)
  | _ => false

/-- No position of the string matches the escape pattern of `subUni`. -/
def uniFree : List Char → Bool
  | [] => true
  | c :: cs => !uniWin (c :: cs) && uniFree cs

end Sanitize

namespace Strategy
open Sanitize

/-- One fallback writing-prompt template (app.py:184-195 and peers): a
title, a template string with `{slot}` placeholders, and the option lists
for each slot in iteration order. -/
structure Template where
  title : List Char
  template : List Char
  elements : List (List Char × List (List Char))

/-- `PROMPT_TEMPLATES` (app.py:182-257), verbatim. -/
def PROMPT_TEMPLATES : List (List Char × List Template) := [
  ("Fantasy".toList, [⟨"The Last Dragon\x27s Secret".toList,
    "In a world where dragons were thought extinct, \x7bcharacter\x7d discovers \x7bdiscovery\x7d hidden in \x7blocation\x7d. As \x7bconflict\x7d threatens the realm, they must \x7bchallenge\x7d before \x7bdeadline\x7d.".toList,
    [("character".toList, ["a young apprentice mage".toList, "an exiled knight".toList, "a street thief with unusual talents".toList]),
      ("discovery".toList, ["a dragon egg".toList, "an ancient prophecy".toList, "a map to the dragon sanctuary".toList]),
      ("location".toList, ["the royal library\x27s forbidden section".toList, "an abandoned tower".toList, "beneath the city sewers".toList]),
      ("conflict".toList, ["a dark sorcerer\x27s army".toList, "a plague of shadows".toList, "civil war".toList]),
      ("challenge".toList, ["master forbidden magic".toList, "unite warring kingdoms".toList, "awaken the sleeping dragon".toList]),
      ("deadline".toList, ["the blood moon rises".toList, "winter\x27s first snow".toList, "the king\x27s coronation".toList])]⟩]),
  ("Science Fiction".toList, [⟨"Colony Ship Paradox".toList,
    "The generation ship \x7bship_name\x7d has been traveling for \x7bduration\x7d, but \x7bcharacter\x7d discovers \x7brevelation\x7d. With \x7bresource\x7d running low and \x7bthreat\x7d approaching, they must decide whether to \x7bchoice\x7d.".toList,
    [("ship_name".toList, ["Horizon\x27s Hope".toList, "New Eden".toList, "Stellar Ark".toList]),
      ("duration".toList, ["300 years".toList, "50 generations".toList, "longer than recorded history".toList]),
      ("character".toList, ["the ship\x27s AI maintenance tech".toList, "a historian studying old Earth".toList, "the youngest council member".toList]),
      ("revelation".toList, ["they\x27ve been traveling in circles".toList, "Earth still exists".toList, "the ship is actually a prison".toList]),
      ("resource".toList, ["oxygen".toList, "genetic diversity".toList, "hope".toList]),
      ("threat".toList, ["an alien armada".toList, "system-wide cascade failure".toList, "a mutiny".toList]),
      ("choice".toList, ["wake the frozen founders".toList, "change course to an unknown planet".toList, "reveal the truth to everyone".toList])]⟩]),
  ("Mystery".toList, [⟨"The Vanishing Gallery".toList,
    "\x7bcharacter\x7d arrives at \x7blocation\x7d to investigate \x7bmystery\x7d. The only clue is \x7bclue\x7d, but \x7bcomplication\x7d makes everyone a suspect. The truth involves \x7btwist\x7d.".toList,
    [("character".toList, ["a retired detective".toList, "an insurance investigator".toList, "an art student".toList]),
      ("location".toList, ["a private island museum".toList, "a underground auction house".toList, "a restored Victorian mansion".toList]),
      ("mystery".toList, ["the disappearance of priceless paintings".toList, "a murder during a locked-room auction".toList, "forged masterpieces appearing worldwide".toList]),
      ("clue".toList, ["a half-burned photograph".toList, "a coded message in the victim\x27s notebook".toList, "paint that shouldn\x27t exist yet".toList]),
      ("complication".toList, ["everyone has an alibi".toList, "the security footage has been edited".toList, "the victim is still alive".toList]),
      ("twist".toList, ["time travel".toList, "identical twins nobody knew about".toList, "the detective is the criminal".toList])]⟩]),
  ("Horror".toList, [⟨"The Inheritance".toList,
    "\x7bcharacter\x7d inherits \x7binheritance\x7d from \x7brelative\x7d, but discovers \x7bhorror\x7d lurking within. As \x7bevent\x7d approaches, they realize \x7brevelation\x7d and must \x7baction\x7d to survive.".toList,
    [("character".toList, ["a struggling artist".toList, "a medical student".toList, "a single parent".toList]),
      ("inheritance".toList, ["a Victorian mansion".toList, "an antique shop".toList, "a storage unit full of artifacts".toList]),
      ("relative".toList, ["an uncle they never knew existed".toList, "their recently deceased grandmother".toList, "a distant cousin".toList]),
      ("horror".toList, ["the previous owners never left".toList, "a portal to somewhere else".toList, "a curse that transfers to the new owner".toList]),
      ("event".toList, ["the anniversary of a tragedy".toList, "a lunar eclipse".toList, "their first night alone".toList]),
      ("revelation".toList, ["they were chosen for a reason".toList, "their family has kept this secret for generations".toList, "escaping makes it worse".toList]),
      ("action".toList, ["perform an ancient ritual".toList, "burn everything".toList, "make a terrible sacrifice".toList])]⟩]),
  ("Romance".toList, [⟨"Second Chances".toList,
    "\x7bcharacter1\x7d and \x7bcharacter2\x7d meet again after \x7btime_period\x7d at \x7blocation\x7d. Despite \x7bobstacle\x7d, they discover \x7bconnection\x7d, but \x7bconflict\x7d threatens to \x7bconsequence\x7d.".toList,
    [("character1".toList, ["a successful CEO".toList, "a small-town teacher".toList, "a traveling musician".toList]),
      ("character2".toList, ["their college sweetheart".toList, "their former rival".toList, "their best friend\x27s sibling".toList]),
      ("time_period".toList, ["ten years".toList, "a lifetime".toList, "one unforgettable summer".toList]),
      ("location".toList, ["a destination wedding".toList, "their hometown reunion".toList, "an unexpected flight delay".toList]),
      ("obstacle".toList, ["they\x27re both engaged to others".toList, "a bitter misunderstanding".toList, "completely different lives now".toList]),
      ("connection".toList, ["they still finish each other\x27s sentences".toList, "a shared dream they never forgot".toList, "letters never sent".toList]),
      ("conflict".toList, ["a job opportunity abroad".toList, "family disapproval".toList, "a secret from the past".toList]),
      ("consequence".toList, ["separate them forever".toList, "change everything".toList, "break other hearts".toList])]⟩])
]

/-- The default template used when no genre matches (app.py:485-496). -/
def defaultTemplate : Template :=
  ⟨"The Unexpected Journey".toList,
    "Your protagonist discovers \x7bdiscovery\x7d that changes everything they believed about \x7bbelief\x7d. They must \x7baction\x7d before \x7bdeadline\x7d.".toList,
    [("discovery".toList, ["a hidden letter".toList, "a secret door".toList, "an old photograph".toList]),
      ("belief".toList, ["their family history".toList, "their own identity".toList, "the nature of reality".toList]),
      ("action".toList, ["uncover the truth".toList, "make an impossible choice".toList, "confront their fears".toList]),
      ("deadline".toList, ["it\x27s too late".toList, "someone else finds out".toList, "the opportunity disappears".toList])]⟩

/-- The per-genre tip table of `generate_writing_tips` (app.py:848-867). -/
def genre_tips : List (List Char × List Char) := [
  ("Fantasy".toList, "Build a consistent magic system with clear rules and limitations.".toList),
  ("Science Fiction".toList, "Ground your technology in real scientific concepts, even if extrapolated.".toList),
  ("Mystery".toList, "Plant clues fairly throughout the story - readers should be able to solve it.".toList),
  ("Horror".toList, "Build tension through atmosphere and pacing, not just jump scares.".toList),
  ("Romance".toList, "Develop both characters fully - they should be interesting apart and together.".toList),
  ("Thriller".toList, "Keep the pacing tight and end chapters with hooks.".toList),
  ("Historical Fiction".toList, "Research the period thoroughly but don\x27t let facts overwhelm the story.".toList),
  ("Literary Fiction".toList, "Focus on character development and thematic depth.".toList),
  ("Young Adult".toList, "Address serious themes while maintaining an authentic teen voice.".toList),
  ("Crime".toList, "Make your detective\x27s process logical and methodical.".toList),
  ("Adventure".toList, "Balance action sequences with character moments.".toList),
  ("Dystopian".toList, "Create a believable path from our world to yours.".toList),
  ("Magical Realism".toList, "Treat magical elements as mundane parts of the world.".toList),
  ("Western".toList, "Focus on themes of justice, freedom, and survival.".toList),
  ("Biography".toList, "Find the narrative arc in real events.".toList),
  ("Self-Help".toList, "Provide actionable advice with real-world examples.".toList),
  ("Philosophy".toList, "Make abstract concepts concrete through examples.".toList),
  ("Poetry".toList, "Show rather than tell - use vivid imagery.".toList)
]

/-- The exercise-type names of `generate_prompt_with_ai` (app.py:534-755);
the associated prompt strings are inputs to the model backend only and are
absorbed into the backend parameter. -/
def exercise_type_names : List (List Char) := [
  "Idea Generation Drill".toList,
  "World-Building Technique".toList,
  "Structural Exercise".toList,
  "Description Technique".toList,
  "Dialogue Craft".toList,
  "Theme & Subtext".toList,
  "Genre Fusion Study".toList,
  "Reverse Engineering".toList,
  "Constraint Creativity".toList,
  "Revision Technique".toList
]

/-- The fallback sound-design templates (`templates`, app.py:959-1003), verbatim. -/
def sound_templates_technical : List (List Char × List (List Char)) := [
  ("Serum 2".toList, ["Create a Skrillex-style metallic bass using FM modulation with detuned oscillators and harsh filtering".toList,
    "Design a Virtual Riot supersized growl with heavy unison (8+ voices), movement automation, and vowel-like filter morphing".toList,
    "Build a Space Laces glitchy lead with rapid wavetable morphing, chaos modulation, and pitch shifting".toList,
    "Create a Tchami future house bass using filtered square waves with punchy envelope and subtle pitch modulation".toList,
    "Design a G Jones experimental texture using custom wavetables, extreme modulation routing, and unconventional LFO rates".toList,
    "Build a Chee-style neuro bass with complex FM routing, filter drive saturation, and rhythmic modulation".toList,
    "Create a Resonant Language organic lead using evolving wavetables, subtle detuning, and harmonic filtering".toList,
    "Design a Noisia reese bass with multiple detuned saw waves, precise filter automation, and subtle movement".toList,
    "Build an Eptic heavy riddim bass using square wave FM, aggressive filtering, and pitch envelope modulation".toList,
    "Create an Esseks wonky mid-bass with wavetable morphing, stereo movement, and creative modulation routing".toList,
    "Design a Mr. Bill glitchy texture using rapid wavetable scanning, micro-modulation, and rhythmic gating".toList,
    "Build a Charlesthefirst melodic bass using warm wavetables, filter movement, and subtle portamento".toList]),
  ("Phase Plant".toList, ["Create an Eprom heavy bass using layered oscillators with distortion snapins and parallel processing chains".toList,
    "Design a Tipper-style surgical bass with modular signal flow, precise filter automation, and subtle harmonic movement".toList,
    "Build a Culprate atmospheric texture combining multiple oscillator types with creative snapin effect routing".toList,
    "Create a Koan Sound neurofunk bass using harmonic oscillators, modular routing, and aggressive distortion staging".toList,
    "Design a Kursa experimental sound using non-standard oscillator combinations and unconventional effect chains".toList,
    "Build a Seppa downtempo lead with smooth oscillator blending, modular filter routing, and spatial effects".toList,
    "Create a Vorso glitch bass using granular-style oscillator manipulation and complex modulation matrices".toList,
    "Design a Noisia neurofunk reese with parallel oscillator processing, multiband distortion, and stereo width control".toList,
    "Build a Sleepnet heavy techno bass using analog oscillators, aggressive snapin chains, and movement automation".toList,
    "Create a Broken Note industrial sound with noise oscillators, distortion routing, and modular signal flow".toList,
    "Design a Clockvice neurohop bass using oscillator layering, creative snapin routing, and precise automation".toList,
    "Build a Detox Unit experimental bass with unconventional oscillator combinations and chaotic modulation matrices".toList]),
  ("Vital".toList, ["Create an Alix Perez deep bass using spectral warping on sine waves with subtle harmonic enhancement".toList,
    "Design a Flying Lotus experimental lead using spectral effects, filter morphing, and stereo width modulation".toList,
    "Build a Tsuruda wonky bass with filter drive, spectral warping, and unconventional pitch modulation".toList,
    "Create a Mr. Carmack trap lead using saw waves with stereo spreading, filter movement, and distortion".toList,
    "Design a Monty future bass sound with bright wavetables, stereo modulation, and spectral processing".toList,
    "Build a Chris Lorenzo bassline house bass using filtered saws, punchy envelopes, and subtle distortion warmth".toList,
    "Create a Simula atmospheric pad using spectral warping, slow filter morphing, and wide stereo field".toList,
    "Design an Ihatemodels hard techno kick-bass using sine waves with spectral distortion and pitch envelope".toList,
    "Build a Sara Landry techno lead using spectral warping, stereo modulation, and filter drive".toList,
    "Create a Must Die! heavy bass using spectral effects, aggressive filtering, and movement automation".toList,
    "Design a Tiedye Ky melodic bass with spectral warping, filter morphing, and stereo width".toList,
    "Build a Lab Group experimental sound using spectral processing, LFO modulation, and filter movement".toList,
    "Create a Supertask neuro bass with spectral warping, precise filter automation, and stereo enhancement".toList])
]

/-- The fallback sound-design templates (`templates`, app.py:1005-1052), verbatim. -/
def sound_templates_creative : List (List Char × List (List Char)) := [
  ("Serum 2".toList, ["**Translation**: The razor rain on Mars in Red Rising—glass shards falling from the sky. Create the sound of that descent. Not the impact, the falling. How does danger sound when it\x27s beautiful? | Work until it cuts.".toList,
    "**Context Shift**: In The Left Hand of Darkness, winter never ends. Design a bass that exists in permanent twilight, where warmth is a memory and cold has texture. What does glacial time sound like? | Begin from not knowing.".toList,
    "**Synesthesia**: The ansible from Ender\x27s Game—instantaneous communication across light-years. Create the sound of a message that arrives before it\x27s sent. Backwards causality as tone. | Stop when time breaks.".toList,
    "**Awareness**: In Station Eleven, the traveling symphony performs Shakespeare after civilization ends. Design the sound of culture persisting through collapse. Fragile but unbreakable. | Trust what emerges.".toList,
    "**Accident**: The reality overlay in The Peripheral—two timelines bleeding through each other. Randomize your routing. Let two patches exist in the same space. Don\x27t resolve the paradox. | Follow what excites you.".toList,
    "**Limitation**: Neuromancer\x27s cyberspace, built from pure data. Use only one oscillator and one filter. What can consciousness sound like when stripped to its simplest form? | Begin from not knowing.".toList,
    "**Discovery**: The Goldfinch painting—how Theo sees the world through it. Cycle through wavetables until one makes you feel something you can\x27t name. Build from that unnameable thing. | Work intuitively.".toList,
    "**Play**: In The Hitchhiker\x27s Guide, Earth is demolished for a hyperspace bypass. Create the bureaucratic sound of a planet being deleted. Absurd. Mundane. Catastrophic. | 5 minutes or until you laugh.".toList,
    "**Context Shift**: The kites in The Kite Runner—freedom and guilt tangled together. Design a lead that climbs and falls. What does redemption sound like when it\x27s too late? | Work until it aches.".toList,
    "**Translation**: Borne by Vandermeer—a biotech creature that defies categories. Design something that shouldn\x27t be alive but is. What does impossible biology sound like? | Follow what excites you.".toList,
    "**Awareness**: Dark Matter\x27s box—every choice creates a new universe. Create a tone. Then modulate it. Each tweak is a branching world. Which path do you follow? | Trust what emerges.".toList,
    "**Synesthesia**: The Illustrated Man\x27s living tattoos—stories written on skin. Build a patch where every parameter tells a different tale. What does illustrated sound look like? | Work intuitively.".toList,
    "**Discovery**: Recursion\x27s memory chairs—you can relive any moment. Cycle through presets until one feels like a memory you never had. Build from false nostalgia. | Begin from not knowing.".toList]),
  ("Phase Plant".toList, ["**Awareness**: The split cities in The City & the City—two places occupying the same space, each unseeing the other. Build a bass where two layers coexist but never touch. Parallel sonic realities. | Work until the energy shifts.".toList,
    "**Translation**: Allomancy in Mistborn—burning metals to push and pull on the world. Create sound that feels like telekinesis. Physical force at a distance. Choose snapins that push or pull. | Stop when it feels right.".toList,
    "**Limitation**: The Memory of Empire—a diplomat in a foreign court where every word is strategy. Build using only snapin effects, no oscillators. Politics as pure modulation. | Trust the process.".toList,
    "**Accident**: The ansible in A Memory Called Empire—cultural memory downloaded directly into the mind. Route modulation randomly to six destinations. Don\x27t undo. Let foreign memories guide you. | Follow what excites you.".toList,
    "**Discovery**: The Three-Body Problem\x27s chaotic eras—unpredictable swings between stability and disaster. Chain three random snapins. Find five sounds. Notice which ones feel like home, which like catastrophe. | Explore freely.".toList,
    "**Context Shift**: In Fahrenheit 451, books are burned and firemen start fires. Create a lead that\x27s both destroyer and preserver. What burns? What survives? | Work until complete.".toList,
    "**Synesthesia**: The Nightingale\x27s two sisters—one brave, one invisible, both essential. Design drums with two voices. One urgent, one patient. Both necessary. | Follow your intuition.".toList,
    "**Play**: The House in the Cerulean Sea—magical children in bureaucratic care. Design something that shouldn\x27t work but does. Rules broken gently. | 5 minutes maximum.".toList,
    "**Translation**: The spice melange in Dune—awareness expanding across time. Design a texture that seems to know what\x27s coming. Prescient sound. | Open-ended exploration.".toList,
    "**Context Shift**: Annihilation\x27s Area X—where nature rewrites the rules. Layer oscillators that mutate each other. Let biology become architecture. What does transformation sound like? | Stop when it feels right.".toList,
    "**Awareness**: Upgrade\x27s gene-editing plague—becoming more and less human simultaneously. Build a patch that improves as it degrades. Enhancement as loss. | Work until the energy shifts.".toList,
    "**Accident**: Wayward Pines\x27 town—perfect prison disguised as paradise. Route modulation to hidden destinations. Surface order, underlying chaos. What looks safe but isn\x27t? | Follow what excites you.".toList,
    "**Discovery**: The Martian\x27s survival math—solving impossible problems with duct tape and cleverness. Chain random snapins. Make them work through pure problem-solving. | Explore freely.".toList]),
  ("Vital".toList, ["**Discovery**: In Cloud Atlas, six stories echo across time. Set a filter to self-oscillate. Now treat it as an oscillator. The roles flip. The echo becomes the source. | Explore until complete.".toList,
    "**Translation**: The Woman in White—a figure glimpsed at midnight, impossible to forget. Create a pad that haunts the edges. Present but not quite there. Victorian dread. | Work as slowly as shadows move.".toList,
    "**Limitation**: Foundation\x27s psychohistory—predicting civilization with one equation. Use only one LFO to modulate everything. One source, infinite outcomes. What patterns emerge? | Embrace what appears.".toList,
    "**Accident**: Snow Crash\x27s metaverse—digital religion as computer virus. Enable spectral warping. Drag randomly. Don\x27t look. Let the infection spread through sound. | Stop when it feels alive.".toList,
    "**Context Shift**: The Long Way to a Small, Angry Planet—found family in deep space. Design a sound at atomic scale. When you\x27re small enough, loneliness feels different. | Work until the perspective shifts.".toList,
    "**Synesthesia**: Frankenstein\x27s creature—assembled from pieces, alive despite impossibility. What does unnatural life sound like? Not horror. Tragedy. | Open-ended exploration.".toList,
    "**Play**: American Gods—old deities working at gas stations. Design something ancient trying to be modern. Mythology in fluorescent light. Absurd displacement. | 5 minutes of pure play.".toList,
    "**Awareness**: 1984\x27s memory holes—history erased in real-time. Create a lead that forgets itself as it plays. What remains when the recording is deleted? | Let the sound tell you.".toList,
    "**Translation**: The Hunger Games\x27 mockingjay—rebellion encoded in birdsong. Spectral warp a simple tone until it carries a message it doesn\x27t understand. | Begin from not knowing.".toList,
    "**Synesthesia**: Nexus nano-drug—thoughts transmitted between minds. Create spectral movement that feels like telepathy. Direct consciousness transfer as filter sweep. | Stop when it feels alive.".toList,
    "**Context Shift**: The Mountain in the Sea\x27s octopus language—intelligence that doesn\x27t think like us. Design at alien scale. What does non-human thought sound like? | Work until the perspective shifts.".toList,
    "**Play**: Scythe\x27s immortal world—where death is a profession. Make something beautiful about endings. Mortality as melody. | 5 minutes of pure play.".toList,
    "**Awareness**: Watchmen\x27s Dr. Manhattan—experiencing all time simultaneously. Create a lead that plays past, present, future at once. Omnitemporality as tone. | Let the sound tell you.".toList,
    "**Translation**: Dorohedoro\x27s magic smoke—it transforms what it touches. Spectral warp until identity dissolves. What does shapeshifting sound like? | Begin from not knowing.".toList])
]

/-- Dictionary lookup on an association list, as Python `dict` access for
the string-keyed literal tables. -/
def dictGet {α : Type} (d : List (List Char × α)) (k : List Char) :
    Option α :=
  (d.find? (fun p => p.1 == k)).map Prod.snd

/-- `random.choice(xs)` with the draw supplied as an oracle index reduced
modulo the pool size; the default is never used on the nonempty pools of
this program. -/
def choiceD {α : Type} (xs : List α) (k : Nat) (d : α) : α :=
  xs.getD (k % xs.length) d

/-- Fueled scanner for Python `str.replace`: every non-overlapping
occurrence of `pat`, left to right, becomes `repl`. -/
def replGo (pat repl : List Char) : Nat → List Char → List Char
  | 0, s => s
  | _ + 1, [] => []
  | fuel + 1, c :: cs =>
    match matchLit pat (c :: cs) with
    | some rest => repl ++ replGo pat repl fuel rest
    | none => c :: replGo pat repl fuel cs

/-- `s.replace(pat, repl)` (the patterns of this program are nonempty). -/
def pyReplace (pat repl s : List Char) : List Char :=
  replGo pat repl s.length s

/-- `s.startswith(pat)`. -/
def startsWith (pat s : List Char) : Bool := (matchLit pat s).isSome

/-- `s.endswith('.')` specialised to one character. -/
def endsWithDot (s : List Char) : Bool :=
  match s.reverse with
  | c :: _ => c == '.'
  | [] => false

/-- ASCII lower-casing, faithful for the ASCII identifiers this program
lower-cases. -/
def asciiLower (c : Char) : Char :=
  if 'A' ≤ c ∧ c ≤ 'Z' then Char.ofNat (c.toNat + 32) else c

/-- ASCII upper-casing. -/
def asciiUpper (c : Char) : Char :=
  if 'a' ≤ c ∧ c ≤ 'z' then Char.ofNat (c.toNat - 32) else c

/-- `s.lower()`. -/
def lowerStr (s : List Char) : List Char := s.map asciiLower

/-- `s.capitalize()`: first character upper-cased, the rest lower-cased. -/
def capitalize : List Char → List Char
  | [] => []
  | c :: cs => asciiUpper c :: cs.map asciiLower

/-- `sep.join(xs)` for a multi-character separator. -/
def joinList (sep : List Char) : List (List Char) → List Char
  | [] => []
  | [x] => x
  | x :: xs => x ++ sep ++ joinList sep xs

/-- The genre wording of `generate_prompt_with_ai` (app.py:527-532). -/
def genreString (genres : List (List Char)) : List Char :=
  if genres.length = 1 then genres.headI
  else joinList " and ".toList genres

/-- Case-insensitive literal match at the head of the input (the
`re.IGNORECASE` letters of the tip-section pattern are ASCII). -/
def ciMatchLit : List Char → List Char → Option (List Char)
  | [], s => some s
  | _ :: _, [] => none
  | p :: ps, c :: cs =>
    if asciiLower p = asciiLower c then ciMatchLit ps cs else none

/-- The `\s*\n` tail of the tip-section pattern: within the maximal
whitespace run at the head of the input, commit to the last newline
(greedy `\s*` with backtracking) and return the remainder after it. -/
def wsNl : List Char → Option (List Char)
  | [] => none
  | c :: cs =>
    if pyWS c then
      match wsNl cs with
      | some r => some r
      | none => if c = '\n' then some cs else none
    else none

/-- The `\*\*:?\s*\n` closing part of the tip-section pattern, tried at
the head of the input. -/
def starClose (s : List Char) : Option (List Char) :=
  match matchLit "**".toList s with
  | none => none
  | some r1 =>
    match r1 with
    | ':' :: rr => wsNl rr
    | _ => wsNl r1

/-- The lazy `.*?` before the closing part: the earliest position where
`starClose` succeeds, returning the remainder (the start of the captured
group). -/
def tipsTail : Nat → List Char → Option (List Char)
  | 0, _ => none
  | fuel + 1, s =>
    match starClose s with
    | some r => some r
    | none =>
      match s with
      | [] => none
      | _ :: cs => tipsTail fuel cs

/-- The lazily captured group `(.*?)(?=\n\n|\Z)`: everything up to the
first blank line or the end of the text; the remainder starts at the
lookahead position. -/
def groupUntil : Nat → List Char → List Char → List Char × List Char
  | _, acc, [] => (acc.reverse, [])
  | 0, acc, s => (acc.reverse, s)
  | fuel + 1, acc, c :: cs =>
    if (matchLit "\n\n".toList (c :: cs)).isSome then (acc.reverse, c :: cs)
    else groupUntil fuel (c :: acc) cs

/-- The pattern head `\*\*hdr` (header letters case-insensitive). -/
def tipsHeaderAt (hdr s : List Char) : Option (List Char) :=
  match matchLit "**".toList s with
  | none => none
  | some r => ciMatchLit hdr r

/-- `re.search` for `\*\*hdr.*?\*\*:?\s*\n(.*?)(?=\n\n|\Z)` under
`re.DOTALL | re.IGNORECASE` (app.py:802, app.py:1303): leftmost start,
lazy body and group; returns the text before the match, the captured
group, and the remainder after the match. -/
def tipsSearch (hdr : List Char) : Nat → List Char → List Char →
    Option (List Char × List Char × List Char)
  | 0, _, _ => none
  | fuel + 1, pre, s =>
    match (match tipsHeaderAt hdr s with
           | some r1 => tipsTail (r1.length + 1) r1
           | none => none) with
    | some g =>
      let gr := groupUntil g.length [] g
      some (pre.reverse, gr.1, gr.2)
    | none =>
      match s with
      | [] => none
      | c :: cs => tipsSearch hdr fuel (c :: pre) cs

/-- `re.sub` with the same pattern and empty replacement (app.py:816,
app.py:1312): every match span is removed. -/
def tipsSub (hdr : List Char) : Nat → List Char → List Char
  | 0, s => s
  | fuel + 1, s =>
    match tipsSearch hdr (s.length + 1) [] s with
    | none => s
    | some (pre, _, rest) => pre ++ tipsSub hdr fuel rest

/-- The bullet markers of the tip list (app.py:810). -/
def tipMarker (c : Char) : Bool := c == '-' || c == '•' || c == '*'

/-- The per-line tip extraction from the captured section (app.py:806-813
and app.py:1306-1311): strip, require a bullet marker, remove
`^[-•*]\s*`, strip again, and keep tips longer than ten characters. -/
def parseTips (sec : List Char) : List (List Char) :=
  (splitOn '\n' sec).filterMap (fun line =>
    match pyStrip line with
    | c :: cs =>
      if tipMarker c then
        let tip := pyStrip (cs.dropWhile pyWS)
        if tip ≠ [] ∧ 10 < tip.length then some tip else none
      else none
    | [] => none)

/-- The word-count/difficulty options of
`get_random_word_count_and_difficulty` (app.py:265-270); the draw is an
oracle index, the weights 30/30/25/15 only shape the distribution over
the same four options. -/
def wcOptions : List (Nat × List Char) :=
  [(250, "Very Easy".toList), (500, "Easy".toList),
   (750, "Medium".toList), (1000, "Hard".toList)]

/-- `generate_writing_tips` (app.py:844-877): the matching genre tips,
then two general tips, truncated to three. -/
def generate_writing_tips (genres : List (List Char)) :
    List (List Char) :=
  ((genres.filterMap (dictGet genre_tips)) ++
    ["Start with a strong opening line that immediately engages the reader.".toList,
     "Show character growth through actions and decisions, not just description.".toList]).take 3

/-- The result dictionary of the writing-prompt generators; the
`timestamp` field is wall-clock output and is not modelled.  The template
path returns no `exerciseType` key and no `ai_generated` flag. -/
structure WritingResult where
  title : List Char
  content : List Char
  genres : List (List Char)
  difficulty : List Char
  wordCount : Nat
  tips : List (List Char)
  exerciseType : Option (List Char)
  ai_generated : Bool

/-- The slot-filling loop of `generate_prompt_from_template`
(app.py:504-506): each `{key}` placeholder is replaced by a drawn option;
the `i`-th `random.choice` call reads oracle position `i`. -/
def fillGo (r : Nat → Nat) : Nat → List (List Char × List (List Char)) →
    List Char → List Char
  | _, [], acc => acc
  | i, (key, options) :: rest, acc =>
    fillGo r (i + 1) rest
      (pyReplace ('\x7b' :: (key ++ ['\x7d'])) (choiceD options (r i) [])
        acc)

/-- The template pool of `generate_prompt_from_template`
(app.py:477-496): the templates of the matching genres, or the default
template when none match. -/
def selectedTemplates (genres : List (List Char)) : List Template :=
  let selected := genres.foldl (fun acc g =>
    match dictGet PROMPT_TEMPLATES g with
    | some ts => acc ++ ts
    | none => acc) []
  if selected.isEmpty then [defaultTemplate] else selected

/-- `generate_prompt_from_template` (app.py:475-518).  `k0` is the
template draw, `r` the per-slot option draws, `kw` the word-count draw. -/
def generate_prompt_from_template (genres : List (List Char)) (k0 : Nat)
    (r : Nat → Nat) (kw : Nat) : WritingResult :=
  let td := choiceD (selectedTemplates genres) k0 defaultTemplate
  let text := fillGo r 1 td.elements td.template
  let wd := choiceD wcOptions kw (250, "Very Easy".toList)
  { title := td.title, content := text, genres := genres,
    difficulty := wd.2, wordCount := wd.1,
    tips := generate_writing_tips genres,
    exerciseType := none, ai_generated := false }

/-- The title-extraction loop over the first five lines of the model
output (app.py:785-792): a stripped line starting with `**` or `#` sets
the candidate; a candidate of length in (3, 100) stops the loop. -/
def writingTitleLoop : List (List Char) → List Char → List Char
  | [], t => t
  | line :: rest, t =>
    let l := pyStrip line
    if startsWith "**".toList l ∨ startsWith "#".toList l then
      let t2 := pyStrip (pyReplace "#".toList []
        (pyReplace "**".toList [] l))
      if t2 ≠ [] ∧ 3 < t2.length ∧ t2.length < 100 then t2
      else writingTitleLoop rest t2
    else writingTitleLoop rest t

/-- The accepted-response branch of `generate_prompt_with_ai`
(app.py:782-839): title extraction, tip-section extraction and removal,
fallback tips, and the drawn word count. -/
def aiWritingAssemble (genres : List (List Char)) (content : List Char)
    (exName : List Char) (kw : Nat) : WritingResult :=
  let title0 := writingTitleLoop ((splitOn '\n' content).take 5) []
  let title := if title0 = [] then
      exName ++ ": ".toList ++ genreString genres
    else title0
  let sr := tipsSearch "Writing Tips".toList (content.length + 1) []
    content
  let tips := match sr with
    | some (_, grp, _) => parseTips grp
    | none => []
  let contentOut := match sr with
    | some _ =>
      pyStrip (tipsSub "Writing Tips".toList (content.length + 1) content)
    | none => content
  let tips2 := if tips = [] then
      ["Practice this exercise regularly to build muscle memory for ".toList
          ++ lowerStr exName,
       "Don\x27t edit while doing the exercise - focus on exploration first".toList,
       "Review your work after completing the exercise to identify patterns".toList]
    else tips
  let wd := choiceD wcOptions kw (250, "Very Easy".toList)
  { title := title, content := contentOut, genres := genres,
    difficulty := wd.2, wordCount := wd.1, tips := tips2.take 3,
    exerciseType := some exName, ai_generated := true }

/-- `generate_prompt_with_ai` (app.py:521-842).  The model backend is the
`backend` parameter: its input prompt strings (app.py:534-780) only feed
the backend and are absorbed into it; `Except.error` stands for any
exception raised by the call.  The whole body sits in one `try`, and the
handler (app.py:840-842) returns the template result. -/
def generate_prompt_with_ai (genres : List (List Char))
    (backend : Except Unit (List Char)) (kex k0 : Nat) (r : Nat → Nat)
    (kw : Nat) : WritingResult :=
  let exName := choiceD exercise_type_names kex []
  match backend with
  | .error _ => generate_prompt_from_template genres k0 r kw
  | .ok content => aiWritingAssemble genres content exName kw

/-- The result dictionary of `generate_sound_design_prompt`
(app.py:1349-1358); `timestamp` is not modelled. -/
structure SoundResult where
  title : List Char
  content : List Char
  synthesizer : List Char
  exerciseType : List Char
  difficulty : List Char
  estimatedTime : List Char
  tips : List (List Char)

/-- `difficulty_time_pairs` (app.py:1341-1345). -/
def difficulty_time_pairs : List (List Char × List Char) :=
  [("Beginner".toList, "15 minutes".toList),
   ("Intermediate".toList, "30 minutes".toList),
   ("Expert".toList, "45 minutes".toList)]

/-- `templates.get(synthesizer, templates['Serum 2'])` over the
exercise-type-specific fallback table (app.py:958-1052, app.py:1056,
app.py:1336). -/
def soundTemplatesFor (extype synth : List Char) : List (List Char) :=
  let templates := if extype = "technical".toList then
      sound_templates_technical
    else sound_templates_creative
  match dictGet templates synth with
  | some ts => ts
  | none =>
    match dictGet templates ("Serum 2".toList) with
    | some ts => ts
    | none => []

/-- The seven creative tips drawn from by `random.sample(tips, 3)`
(app.py:1066-1074 and app.py:1322-1330). -/
def creativeTipPool : List (List Char) :=
  ["There is no destination, only discovery. Follow what makes you curious".toList,
   "If you\x27re overthinking, you\x27re not playing. Trust your first instinct".toList,
   "The \x27mistake\x27 that excites you is the exercise working".toList,
   "Stop when the energy shifts. Not everything needs finishing".toList,
   "Your ears know more than your eyes. Close the screen if it helps".toList,
   "If nothing excites you after 5 minutes, start completely over".toList,
   "The exercise is in the noticing, not the result".toList]

/-- The body of the sound-design `try` block after a successful backend
call (app.py:1277-1331): strip, double sanitization (each pass is
followed by `if not sanitized: raise ValueError`, which fails on a `None`
as well as on an empty-string result; both are modelled as `none`), title
extraction from the first line, tip-section extraction and removal, and
fallback tips (the creative fallback draws three via the `sample3` oracle
standing for `random.sample`). -/
def soundTryBody (synth extype content0 : List Char)
    (sample3 : List (List Char) → List (List Char)) :
    Option (List Char × List Char × List (List Char)) :=
  match sanitize_ai_content (pyStrip content0) with
  | none => none
  | some [] => none
  | some s1 =>
    match sanitize_ai_content s1 with
    | none => none
    | some [] => none
    | some s2 =>
      let lines := splitOn '\n' s2
      let l0 := lines.headI
      let tc :=
        if startsWith "#".toList l0 = true ∨
            (l0.length < 60 ∧ endsWithDot l0 = false) then
          (pyStrip (pyReplace "#".toList [] l0),
           pyStrip (joinSep '\n' lines.tail))
        else
          (synth ++ " - ".toList ++ capitalize extype
            ++ " Exercise".toList, s2)
      let sr := tipsSearch "Tips".toList (tc.2.length + 1) [] tc.2
      let tips := match sr with
        | some (_, grp, _) => parseTips grp
        | none => []
      let contentOut := match sr with
        | some _ => pyStrip (tipsSub "Tips".toList (tc.2.length + 1) tc.2)
        | none => tc.2
      let tips2 := if tips = [] then
          (if extype = "technical".toList then
            ["Reference tracks can help guide your sound design decisions".toList,
             "A/B test your patch in a mix context, not just solo".toList,
             "Document your process - you\x27ll learn patterns in your workflow".toList]
          else sample3 creativeTipPool)
        else tips
      some (tc.1, contentOut, tips2)

/-- `generate_sound_design_prompt` (app.py:879-1358).  The synthesizer
context, artist and book tables, and the rotation state only shape the
prompt strings fed to the backend and are absorbed into the `backend`
parameter (the rotation itself is modelled in the `Rotation`
development); `useAI` is the `USE_AI` flag, `kc` the template draw, `kd`
the difficulty draw, and `sample3` the `random.sample` oracle.  The
`try` handler (app.py:1333-1338) routes every exception - a failing
backend call or a sanitization rejection - to the fallback template. -/
def generate_sound_design_prompt (synth extype : List Char)
    (useAI : Bool) (backend : Except Unit (List Char)) (kc : Nat)
    (sample3 : List (List Char) → List (List Char)) (kd : Nat) :
    SoundResult :=
  let pool := soundTemplatesFor extype synth
  let tct :=
    if useAI = false then
      (capitalize extype ++ " Sound Design Exercise".toList,
       choiceD pool kc [],
       if extype = "technical".toList then
         ["Start with initializing the synth to hear your changes clearly".toList,
          "Use your ears - trust what sounds good rather than just visual feedback".toList,
          "Save variations as you go to compare different approaches".toList]
       else sample3 creativeTipPool)
    else
      match backend with
      | .ok c0 =>
        match soundTryBody synth extype c0 sample3 with
        | some tct => tct
        | none =>
          (synth ++ " - ".toList ++ capitalize extype
            ++ " Exercise".toList,
           choiceD pool kc [],
           ["Experiment with modulation sources".toList,
            "Layer multiple oscillators".toList,
            "Use effects creatively".toList])
      | .error _ =>
        (synth ++ " - ".toList ++ capitalize extype
          ++ " Exercise".toList,
         choiceD pool kc [],
         ["Experiment with modulation sources".toList,
          "Layer multiple oscillators".toList,
          "Use effects creatively".toList])
  let dt := choiceD difficulty_time_pairs kd
    ("Beginner".toList, "15 minutes".toList)
  { title := tct.1, content := tct.2.1, synthesizer := synth,
    exerciseType := extype, difficulty := dt.1, estimatedTime := dt.2,
    tips := tct.2.2.take 3 }

/-- All templates reachable from `generate_prompt_from_template`. -/
def templateUniverse : List Template :=
  defaultTemplate :: (PROMPT_TEMPLATES.map Prod.snd).join

/-- An entry of the `EMOTIONS` table (app.py:58-179). -/
structure Emotion where
  emotion : List Char
  tonal_center : List Char
  chord_colors : List (List Char)
  notes_for_generation : List Char
deriving DecidableEq, Inhabited

/-- A parsed chord as produced by `parse_chord_progression`
(app.py:407-445): the chord name, root MIDI number and MIDI notes. -/
structure MidiChord where
  name : List Char
  root : Nat
  notes : List Nat
deriving DecidableEq

/-- The result dictionary of `generate_chord_progression`
(app.py:1760-1769 and 1790-1799). -/
structure ChordResult where
  title : List Char
  progression : List Char
  explanation : List Char
  emotions : List (List Char)
  difficulty : List Char
  estimatedTime : List Char
  midiFile : List Char
deriving DecidableEq

/-- The result dictionary of `generate_drawing_exercise`
(app.py:1571-1580 and 1659-1668); the `timestamp` field is not
modelled. -/
structure DrawingResult where
  title : List Char
  content : List Char
  skills : List (List Char)
  difficulty : List Char
  estimatedTime : List Char
  tips : List (List Char)
  ai_generated : Bool
deriving DecidableEq

/-- The `EMOTIONS` table (app.py:58-179): emotion name, tonal center,
chord colors and generation notes.  The chord colors and generation notes
only shape the prompt strings fed to the backend and the fallback
explanation text. -/
def EMOTIONS : List Emotion := [
  ⟨"Melancholy".toList, "A minor or D minor".toList,
   ["add9".toList, "sus2".toList, "minor7".toList, "bVI".toList, "bVII".toList],
   "Use unresolved minor progressions with soft transitions. Avoid dominant resolutions. Think of fading memories or rain.".toList⟩,
  ⟨"Elation".toList, "C major or A Mixolydian".toList,
   ["major7".toList, "add9".toList, "IV → I".toList, "Lydian #4".toList],
   "Bright voicings, open fifths, layered synths. Capture upward momentum and emotional lift.".toList⟩,
  ⟨"Resentment".toList, "F minor or G Phrygian".toList,
   ["minor6".toList, "dim7".toList, "bII".toList, "chromatic movement".toList],
   "Dark tension, unresolved cadences, low mid emphasis. Use half-steps or harsh dissonance sparingly.".toList⟩,
  ⟨"Awe".toList, "D Lydian or E major".toList,
   ["maj7".toList, "sus2".toList, "add9".toList, "pedal bass".toList],
   "Massive spatial reverb, sustained chords, harmonic suspension. Feel of cosmic scale or vastness.".toList⟩,
  ⟨"Nostalgia".toList, "B♭ major or G minor".toList,
   ["major7".toList, "6/9".toList, "bVII".toList, "borrowed iv".toList],
   "Blend major and minor. Gentle filter sweeps or tape saturation evoke memory and warmth.".toList⟩,
  ⟨"Serenity".toList, "E major or A Lydian".toList,
   ["maj7".toList, "add9".toList, "sus4".toList],
   "Open voicings, soft attack envelopes, slow movement. Prioritize harmonic stillness and consonance.".toList⟩,
  ⟨"Apprehension".toList, "C# Phrygian or D minor".toList,
   ["minor2".toList, "bII".toList, "dim7".toList, "suspended movement".toList],
   "Use tense intervals (minor 2nd, tritone), subtle pulsing bass, and unresolved transitions.".toList⟩,
  ⟨"Defiance".toList, "E minor or A Dorian".toList,
   ["power chords".toList, "bVII".toList, "sus4".toList, "modal mix".toList],
   "Use modal grit, syncopation, and strong rhythmic accents. Think proud, rebellious harmonic energy.".toList⟩,
  ⟨"Longing".toList, "F# minor or C# minor".toList,
   ["add9".toList, "maj7".toList, "minor11".toList, "borrowed IV".toList],
   "Open harmonic tension, melodic upper voices rising against static bass. Emotional pull without release.".toList⟩,
  ⟨"Tenderness".toList, "C major or F major".toList,
   ["maj7".toList, "6".toList, "add9".toList, "IV → I".toList],
   "Warm major chords, gentle voice leading, high-register pads or pianos, subtle harmonic motion.".toList⟩,
  ⟨"Shame".toList, "A minor or C Phrygian".toList,
   ["minor6".toList, "dim".toList, "chromatic bass movement".toList],
   "Closed voicings, descending basslines, muted dynamics. Harmonic weight that feels constricted or internal.".toList⟩,
  ⟨"Triumph".toList, "D major or A Mixolydian".toList,
   ["sus2".toList, "IV → I".toList, "maj7".toList, "add9".toList],
   "Strong major motion with lift. Wide voicings, delayed cadences for emotional payoff.".toList⟩,
  ⟨"Ambivalence".toList, "E♭ major ↔ C minor".toList,
   ["add9".toList, "maj7".toList, "minor7".toList, "borrowed chords".toList],
   "Alternate between major and minor qualities. Use modulation or chords that imply two emotional directions.".toList⟩,
  ⟨"Existential Dread".toList, "B Locrian or D minor".toList,
   ["bII".toList, "dim7".toList, "cluster chords".toList, "drone bass".toList],
   "Low, dense textures. Sparse harmonic movement. Build unease through dissonant intervals and reverb space.".toList⟩,
  ⟨"Euphoria".toList, "G major or D Lydian".toList,
   ["maj9".toList, "sus2".toList, "add11".toList, "IV → I".toList],
   "Bright, open chords with rhythmic drive. Use sidechained pads, uplifting melodies, harmonic clarity.".toList⟩,
  ⟨"Loneliness".toList, "E minor or G minor".toList,
   ["minor9".toList, "add9".toList, "bVII".toList, "sparse voicing".toList],
   "Sparse arrangement, wide stereo image, focus on high mids. Echoing delay, unresolved movement.".toList⟩,
  ⟨"Vindication".toList, "B♭ major or D Mixolydian".toList,
   ["maj7".toList, "add9".toList, "IV → I".toList],
   "Triumphant but restrained. Major voicings with subtle tension, rhythmic confidence.".toList⟩,
  ⟨"Wonder".toList, "C Lydian or A major".toList,
   ["maj7".toList, "add9".toList, "#11".toList, "pedal drones".toList],
   "Floating chords, lush upper extensions, delayed resolutions, sparkle through high-register synths.".toList⟩,
  ⟨"Frustration".toList, "G minor or F Phrygian".toList,
   ["bII".toList, "sus4".toList, "dim".toList, "minor7b5".toList],
   "Repeated unresolved motifs. Build-up of harmonic tension that never quite releases.".toList⟩,
  ⟨"Disgust".toList, "C Locrian or D♭ minor".toList,
   ["bII".toList, "tritone intervals".toList, "dissonant clusters".toList],
   "Unstable intervals, aggressive harmonics, bitcrushed or detuned chords. Ugly-beautiful tension.".toList⟩]

/-- The `SKILL_INFO` table of `generate_drawing_exercise`
(app.py:1448-1477): skill name, description, and focus points.  The
description feeds only the prompt string sent to the backend; the focus
lists appear in the template contents and fallback tips. -/
def SKILL_INFO : List (List Char × List Char × List (List Char)) := [
  ("Observation".toList, "The ability to actually see what\x27s in front of you, not what you think is there".toList,
   ["seeing angles and proportions accurately".toList, "noticing subtle shapes".toList, "recognizing light/shadow patterns".toList, "comparing distances and negative space".toList]),
  ("Proportion & Scale".toList, "Understanding the size relationships between elements".toList,
   ["measuring relative sizes".toList, "comparative lengths".toList, "scale consistency".toList, "spatial relationships".toList]),
  ("Gesture".toList, "Capturing the movement, flow, and energy of a pose".toList,
   ["body rhythm".toList, "weight distribution".toList, "pose essence".toList, "dynamic flow".toList]),
  ("Form (3D Thinking)".toList, "Turning 2D shapes into 3D objects".toList,
   ["visualizing volumes".toList, "constructing from simple shapes".toList, "understanding form in space".toList, "dimensional thinking".toList]),
  ("Light & Shadow".toList, "Understanding how light interacts with form".toList,
   ["cast shadows".toList, "core shadows".toList, "highlights".toList, "light direction".toList, "value relationships".toList]),
  ("Line Control & Mark-Making".toList, "The physical skill of drawing confident, varied lines".toList,
   ["line weight variation".toList, "confident strokes".toList, "clean contours".toList, "hatching techniques".toList, "mark variety".toList]),
  ("Composition".toList, "Arranging elements for maximum visual impact".toList,
   ["balance".toList, "focal points".toList, "depth".toList, "leading lines".toList, "visual hierarchy".toList])]

/-- `difficulty_time_map` of `generate_drawing_exercise`
(app.py:1480-1484). -/
def drawing_time_map : List (List Char × List Char) :=
  [("Beginner".toList, "20 minutes".toList), ("Intermediate".toList, "10 minutes".toList), ("Advanced".toList, "1 minute".toList)]

/-- `difficulties` of `generate_drawing_exercise` (app.py:1485). -/
def drawing_difficulties : List (List Char) := ["Beginner".toList, "Intermediate".toList, "Advanced".toList]

/-- `subjects` of `generate_drawing_exercise` (app.py:1488-1492). -/
def drawing_subjects : List (List Char) :=
  ["figure drawing".toList,
   "still life".toList,
   "landscape".toList,
   "architecture".toList,
   "hands".toList,
   "feet".toList,
   "faces".toList,
   "drapery".toList,
   "animals".toList,
   "vehicles".toList,
   "plants".toList,
   "interiors".toList,
   "portraits".toList,
   "urban sketching".toList]

/-- The note-name-to-MIDI map of `parse_chord_progression`
(app.py:414-418). -/
def note_map : List (List Char × Nat) :=
  [("C".toList, 60), ("C#".toList, 61), ("Db".toList, 61), ("D".toList, 62), ("D#".toList, 63), ("Eb".toList, 63), ("E".toList, 64), ("F".toList, 65), ("F#".toList, 66), ("Gb".toList, 66), ("G".toList, 67), ("G#".toList, 68), ("Ab".toList, 68), ("A".toList, 69), ("A#".toList, 70), ("Bb".toList, 70), ("B".toList, 71)]

/-- The chord interval patterns of `chord_name_to_midi_notes`
(app.py:383-401). -/
def chord_patterns : List (List Char × List Nat) :=
  [("major".toList, [0, 4, 7]),
   ("minor".toList, [0, 3, 7]),
   ("maj7".toList, [0, 4, 7, 11]),
   ("minor7".toList, [0, 3, 7, 10]),
   ("m7".toList, [0, 3, 7, 10]),
   ("add9".toList, [0, 4, 7, 14]),
   ("sus2".toList, [0, 2, 7]),
   ("sus4".toList, [0, 5, 7]),
   ("dim".toList, [0, 3, 6]),
   ("dim7".toList, [0, 3, 6, 9]),
   ("maj9".toList, [0, 4, 7, 11, 14]),
   ("minor9".toList, [0, 3, 7, 10, 14]),
   ("m9".toList, [0, 3, 7, 10, 14]),
   ("add11".toList, [0, 4, 7, 17]),
   ("6".toList, [0, 4, 7, 9]),
   ("minor6".toList, [0, 3, 7, 9]),
   ("m6".toList, [0, 3, 7, 9]),
   ("power".toList, [0, 7])]

/-- `chord_name_to_midi_notes` (app.py:377-406): look the chord name up
in the interval table after lower-casing (ASCII, as everywhere in this
development) and shift by the root note; an unknown name defaults to a
major triad. -/
def chord_name_to_midi_notes (chord_name : List Char) (root_note : Nat) :
    List Nat :=
  ((dictGet chord_patterns (lowerStr chord_name)).getD [0, 4, 7]).map
    (fun interval => root_note + interval)

/-- One chord token of `parse_chord_progression` (app.py:424-444): an
empty token is skipped (`none`, filtered by the caller); otherwise the
root name is the upper-cased first character plus an optional
accidental, the remainder is the stripped quality (defaulting to
`major`), and an unknown root name defaults to MIDI 60. -/
def parseChordName (chord_name : List Char) : Option MidiChord :=
  match chord_name with
  | [] => none
  | c0 :: rest =>
    let rq :=
      match rest with
      | c1 :: rest2 =>
        if c1 = '#' ∨ c1 = 'b' ∨ c1 = '♭' ∨ c1 = '♯' then
          ([asciiUpper c0, if c1 = 'b' ∨ c1 = '♭' then 'b' else '#'],
           pyStrip rest2)
        else ([asciiUpper c0], pyStrip rest)
      | [] => ([asciiUpper c0], [])
    let root_midi := (dictGet note_map rq.1).getD 60
    some ⟨chord_name, root_midi,
      chord_name_to_midi_notes
        (if rq.2 = [] then "major".toList else rq.2) root_midi⟩

/-- `parse_chord_progression` (app.py:407-445): normalize `→` to `-`,
split on `-`, strip each token, skip empty tokens, parse the rest. -/
def parse_chord_progression (progression_text : List Char) :
    List MidiChord :=
  ((splitOn '-' (pyReplace "→".toList "-".toList progression_text)).map
    pyStrip).filterMap parseChordName

/-- Python `str.split(sep)` with a non-empty string separator, as used
by `tonal_center.split(' or ')` (app.py:1777): scan left to right,
breaking at each occurrence of the separator.  The fuel is the input
length, enough for the scan to reach the end. -/
def splitStrGo (sep : List Char) : Nat → List Char → List (List Char)
  | 0, s => [s]
  | _ + 1, [] => [[]]
  | fuel + 1, c :: cs =>
    match matchLit sep (c :: cs) with
    | some rest => [] :: splitStrGo sep fuel rest
    | none =>
      (c :: (splitStrGo sep fuel cs).headI) :: (splitStrGo sep fuel cs).tail

/-- Python `s.split(sep)` for a non-empty string `sep`. -/
def pySplitStr (sep s : List Char) : List (List Char) :=
  splitStrGo sep s.length s

/-- `emotion_data` (app.py:1675): the `EMOTIONS` entries whose name is
among the selected emotions. -/
def emotionData (selected_emotions : List (List Char)) : List Emotion :=
  EMOTIONS.filter (fun e => selected_emotions.contains e.emotion)

/-- `emotion_names = " + ".join(...)` (app.py:1684). -/
def emotionNames (ed : List Emotion) : List Char :=
  joinList " + ".toList (ed.map Emotion.emotion)

/-- The response-parsing loop of the chord `try` block
(app.py:1724-1733): remember the last `Progression:` line (stripped of
its markers), and collect every line after the first nonempty
progression line into the explanation. -/
def chordParseGo : List Char → List (List Char) → List (List Char) →
    List Char × List (List Char)
  | pl, acc, [] => (pl, acc.reverse)
  | pl, acc, line :: rest =>
    if startsWith "Progression:".toList line then
      chordParseGo (pyStrip (pyReplace "Progression:".toList [] line))
        acc rest
    else if pl ≠ [] then chordParseGo pl (line :: acc) rest
    else chordParseGo pl acc rest

/-- The chord `try` body after a successful backend call
(app.py:1721-1769): strip the content, extract the progression line and
explanation (falling back to the first line when no `Progression:`
marker was found), parse the chords, render MIDI through the `midi64`
oracle, and grade difficulty by chord count. -/
def chordAI (selected_emotions : List (List Char)) (ed : List Emotion)
    (raw : List Char) (midi64 : List MidiChord → List Char) :
    ChordResult :=
  let content := pyStrip raw
  let lines := splitOn '\n' content
  let pe := chordParseGo [] [] lines
  let pe2 := if pe.1 = [] then (pyStrip lines.headI, lines.tail) else pe
  let explanation_text := pyStrip (joinSep '\n' pe2.2)
  let chords := parse_chord_progression pe2.1
  let dt :=
    if chords.length ≤ 4 then ("Beginner".toList, "10 minutes".toList)
    else if chords.length ≤ 6 then
      ("Intermediate".toList, "15 minutes".toList)
    else ("Advanced".toList, "20 minutes".toList)
  ⟨emotionNames ed ++ " Chord Progression".toList, pe2.1,
   explanation_text, selected_emotions, dt.1, dt.2, midi64 chords⟩

/-- The chord template fallback (app.py:1775-1799): a four-chord
progression in the first tonal-center option of the first selected
emotion, minor or major by substring test. -/
def chordTemplate (selected_emotions : List (List Char))
    (ed : List Emotion) (midi64 : List MidiChord → List Char) :
    ChordResult :=
  let emotion := ed.headI
  let tonal_center :=
    (pySplitStr " or ".toList emotion.tonal_center).headI
  let progression :=
    if hasSubstr "minor".toList tonal_center then
      let key_note := (splitOn ' ' tonal_center).headI
      key_note ++ "m - ".toList ++ key_note ++ "m7 - ".toList ++
        key_note ++ "m add9 - ".toList ++ key_note ++ "m".toList
    else
      let key_note := (splitOn ' ' tonal_center).headI
      key_note ++ " - ".toList ++ key_note ++ "maj7 - ".toList ++
        key_note ++ " add9 - ".toList ++ key_note
  let chords := parse_chord_progression progression
  ⟨emotionNames ed ++ " Chord Progression".toList, progression,
   "A simple ".toList ++ tonal_center ++
     " progression designed to evoke ".toList ++
     lowerStr (emotionNames ed) ++ ". ".toList ++
     emotion.notes_for_generation,
   selected_emotions, "Beginner".toList, "10 minutes".toList,
   midi64 chords⟩

/-- `generate_chord_progression` (app.py:1672-1799).  The backend prompt
strings (built from the chord colors, tonal centers and generation
notes) are absorbed into the `backend` parameter; `midi64` is the
oracle for `base64.b64encode(create_midi_file(...))`, whose body is the
external `midiutil`/`base64` library code.  No valid selected emotion
raises `ValueError` (`none`); with `USE_AI` and a successful backend
call the response is parsed, otherwise - backend failure or `USE_AI`
disabled - the template fallback runs. -/
def generate_chord_progression (selected_emotions : List (List Char))
    (useAI : Bool) (backend : Except Unit (List Char))
    (midi64 : List MidiChord → List Char) : Option ChordResult :=
  match emotionData selected_emotions with
  | [] => none
  | e0 :: es =>
    match useAI, backend with
    | true, .ok raw =>
      some (chordAI selected_emotions (e0 :: es) raw midi64)
    | true, .error _ =>
      some (chordTemplate selected_emotions (e0 :: es) midi64)
    | false, _ =>
      some (chordTemplate selected_emotions (e0 :: es) midi64)

/-- `skill_string = ' and '.join(selected_skills)` (app.py:1495). -/
def skillString (selected_skills : List (List Char)) : List Char :=
  joinList " and ".toList selected_skills

/-- `skill_focus_points` (app.py:1496-1498): the concatenated focus
lists of the selected skills (`infos` pairs each selected skill's
description with its focus list, in selection order). -/
def skillFocusPoints (infos : List (List Char × List (List Char))) :
    List (List Char) :=
  (infos.map Prod.snd).join

/-- The `Timed Practice` template content of `generate_drawing_exercise`
(app.py:1588-1606).  `sampleSubj` is the `random.sample(subjects, 3)`
oracle and `k1` the study-time draw. -/
def drawingTemplate1 (selected_skills : List (List Char))
    (infos : List (List Char × List (List Char)))
    (sampleSubj : List (List Char)) (k1 : Nat) : List Char :=
  let ss := skillString selected_skills
  "**Exercise:** ".toList ++ ss ++
    " - Rapid Studies\n\nSet a timer and create multiple quick studies focusing specifically on ".toList
    ++ ss ++
    ".\n\n**Instructions:**\nComplete 10-15 rapid sketches, each focusing on ".toList
    ++ joinList ", ".toList (infos.map (fun i => i.2.headI)) ++
    ". ".toList ++
    (if 1 < selected_skills.length then
      "Work to integrate both skills in each drawing - observe how they inform each other.".toList
     else "Focus exclusively on this single skill aspect.".toList) ++
    "\n\nStart simple and gradually increase complexity. Don\x27t erase - commit to each mark. The goal is building muscle memory and training your eye, not creating finished pieces.\n\n**Success Criteria:**\n- You can identify clear improvement from first to last sketch\n- ".toList
    ++
    (if 1 < selected_skills.length then
      "Both skills are visible in your approach".toList
     else "The target skill is consistently applied".toList) ++
    "\n- You\x27re seeing more accurately by the end of the session\n\n**Subject Matter:** Choose from ".toList
    ++ joinList ", ".toList sampleSubj ++
    "\n**Recommended Time Per Study:** ".toList ++
    choiceD ["30 seconds".toList, "1 minute".toList, "2 minutes".toList]
      k1 "30 seconds".toList

/-- The `Focused Study` template content of `generate_drawing_exercise`
(app.py:1607-1626).  `k2` is the subject draw. -/
def drawingTemplate2 (selected_skills : List (List Char))
    (infos : List (List Char × List (List Char))) (k2 : Nat) :
    List Char :=
  let ss := skillString selected_skills
  "**Exercise:** ".toList ++ ss ++
    " - Analytical Drawing\n\nCreate a single, carefully observed drawing emphasizing ".toList
    ++ ss ++
    ".\n\n**Instructions:**\nChoose your subject thoughtfully. Before drawing, spend time purely observing and identifying ".toList
    ++ joinList ", ".toList ((infos.map (fun i => i.2.take 2)).join) ++
    ".\n\nDraw slowly and methodically. ".toList ++
    (if 1 < selected_skills.length then
      "Consciously apply both ".toList ++
        joinList " and ".toList selected_skills ++
        " throughout - notice how they support each other.".toList
     else "Every mark should demonstrate ".toList ++
       selected_skills.headI ++ " awareness.".toList) ++
    "\n\nTake breaks to step back and assess. Compare your drawing to the subject specifically for ".toList
    ++ ss ++
    " accuracy.\n\n**Success Criteria:**\n- Clear evidence of ".toList
    ++ ss ++
    " understanding in the final drawing\n- Conscious decision-making visible in your marks\n- Accurate representation of the targeted skill elements\n\n**Subject Matter:** ".toList
    ++ choiceD drawing_subjects k2 "figure drawing".toList ++
    "\n**Recommended Approach:** Work from large shapes to small details".toList

/-- The `Blind Contour Variation` template content of
`generate_drawing_exercise` (app.py:1627-1648).  `b` is the
`random.random() > 0.5` draw, `k3` the subject draw and `k4` the
duration draw. -/
def drawingTemplate3 (selected_skills : List (List Char))
    (infos : List (List Char × List (List Char))) (b : Bool)
    (k3 k4 : Nat) : List Char :=
  let ss := skillString selected_skills
  "**Exercise:** ".toList ++ ss ++
    " - Observation Through Restriction\n\nUse blind/modified blind contour drawing to isolate and develop ".toList
    ++ ss ++
    ".\n\n**Instructions:**\nDraw your subject while looking ".toList ++
    (if b then "95% at the subject, 5% at your paper".toList
     else "only at the subject (true blind contour)".toList) ++
    ". Focus intensely on ".toList ++
    joinList ", ".toList (infos.map (fun i => i.2.headI)) ++
    ".\n\n".toList ++
    (if 1 < selected_skills.length then
      "This exercise forces both ".toList ++
        joinList " and ".toList selected_skills ++
        " to work together since you can\x27t rely on correction.".toList
     else "This restriction forces pure ".toList ++
       selected_skills.headI ++
       " without the ability to correct.".toList) ++
    "\n\nThe goal isn\x27t a \"good\" drawing - it\x27s training your eye-hand connection and observation skills.\n\n**Success Criteria:**\n- You maintained focus on the subject, not your paper\n- The drawing shows understanding of ".toList
    ++ ss ++
    " even if distorted\n- You can identify what you learned about seeing\n\n**Subject Matter:** ".toList
    ++ choiceD ["your non-dominant hand".toList, "a plant".toList,
        "a shoe".toList, "a chair".toList,
        "your face in a mirror".toList] k3 "a plant".toList ++
    "\n**Duration:** ".toList ++
    choiceD ["5 minutes".toList, "10 minutes".toList,
      "15 minutes".toList] k4 "5 minutes".toList

/-- The template list, selection and result assembly of the drawing
fallback (app.py:1587-1668). -/
def drawingTemplateResult (selected_skills : List (List Char))
    (infos : List (List Char × List (List Char)))
    (sampleSubj : List (List Char)) (k1 k2 : Nat) (b : Bool)
    (k3 k4 kt kdiff : Nat) : DrawingResult :=
  let templates : List (List Char × List Char) :=
    [("Timed Practice".toList,
      drawingTemplate1 selected_skills infos sampleSubj k1),
     ("Focused Study".toList, drawingTemplate2 selected_skills infos k2),
     ("Blind Contour Variation".toList,
      drawingTemplate3 selected_skills infos b k3 k4)]
  let template := choiceD templates kt ("Timed Practice".toList, [])
  let difficulty := choiceD drawing_difficulties kdiff "Beginner".toList
  let estimated := (dictGet drawing_time_map difficulty).getD []
  ⟨skillString selected_skills ++ " - ".toList ++ template.1,
   template.2, selected_skills, difficulty, estimated,
   ["The exercise specifically targets ".toList ++
      skillString selected_skills ++
      " - stay focused on these aspects".toList,
    (if 1 < selected_skills.length then
       "Notice how ".toList ++
         joinList " and ".toList selected_skills ++
         " inform each other as you work".toList
     else "Every decision should reinforce ".toList ++
       selected_skills.headI),
    "Repetition builds skill - consider doing this exercise multiple times this week".toList],
   false⟩

/-- Title extraction of the drawing `try` block (app.py:1544-1550): the
first of the first three lines starting with `Exercise:`, stripped of
the marker; otherwise `{skill_string} Exercise`. -/
def drawingTitle (ss : List Char) (lines : List (List Char)) :
    List Char :=
  match (lines.take 3).find? (fun l => startsWith "Exercise:".toList l)
  with
  | some l => pyStrip (pyReplace "Exercise:".toList [] l)
  | none => ss ++ " Exercise".toList

/-- Tip extraction of the drawing `try` block (app.py:1556-1562): a line
mentioning `tip` or `remember` (lower-cased) opens the tip section;
bulleted lines from then on, stripped of bullets, longer than 10
characters become tips. -/
def drawingTipsGo : Bool → List (List Char) → List (List Char)
  | _, [] => []
  | inTips, line :: rest =>
    let inTips2 := inTips || hasSubstr "tip".toList (lowerStr line) ||
      hasSubstr "remember".toList (lowerStr line)
    let st := pyStrip line
    if inTips2 &&
        (startsWith "-".toList st || startsWith "•".toList st) then
      let tip := pyStrip (st.dropWhile (fun c => c == '-' || c == '•'))
      if 10 < tip.length then tip :: drawingTipsGo inTips2 rest
      else drawingTipsGo inTips2 rest
    else drawingTipsGo inTips2 rest

/-- The drawing `try` body after a successful backend call
(app.py:1540-1580): strip, extract title and tips, draw the difficulty
(`kdAI`), and fall back to three constructed tips when none were
extracted; at most three tips are returned. -/
def drawingAIResult (selected_skills : List (List Char))
    (infos : List (List Char × List (List Char))) (raw : List Char)
    (kdAI : Nat) : DrawingResult :=
  let content := pyStrip raw
  let lines := splitOn '\n' content
  let ss := skillString selected_skills
  let title := drawingTitle ss lines
  let difficulty := choiceD drawing_difficulties kdAI "Beginner".toList
  let estimated := (dictGet drawing_time_map difficulty).getD []
  let tips := drawingTipsGo false lines
  let tips2 := if tips = [] then
      ["Focus on ".toList ++ (skillFocusPoints infos).headI ++
         " throughout the exercise".toList,
       "Don\x27t rush - quality of observation matters more than speed".toList,
       "Review your work specifically for ".toList ++ ss ++
         " development".toList]
    else tips
  ⟨title, content, selected_skills, difficulty, estimated, tips2.take 3,
   true⟩

/-- `generate_drawing_exercise` (app.py:1443-1670).  The `SKILL_INFO`
descriptions feed only the prompt string sent to the backend (absorbed
into the `backend` parameter); an unknown skill raises `KeyError` and
an empty selection raises `IndexError` inside the f-strings (both
`none`).  `kdAI` is the AI-path difficulty draw; `sampleSubj`, `k1`,
`k2`, `b`, `k3` and `k4` are the oracles for the `random.sample`,
`random.choice` and `random.random` calls made while the three
templates are built, and `kt`, `kdiff` draw the template and the
fallback difficulty. -/
def generate_drawing_exercise (selected_skills : List (List Char))
    (useAI : Bool) (backend : Except Unit (List Char)) (kdAI : Nat)
    (sampleSubj : List (List Char)) (k1 k2 : Nat) (b : Bool)
    (k3 k4 kt kdiff : Nat) : Option DrawingResult :=
  match selected_skills.mapM (fun s => dictGet SKILL_INFO s) with
  | none => none
  | some infos =>
    if selected_skills.isEmpty then none
    else
      match useAI, backend with
      | true, .ok raw =>
        some (drawingAIResult selected_skills infos raw kdAI)
      | true, .error _ =>
        some (drawingTemplateResult selected_skills infos sampleSubj k1
          k2 b k3 k4 kt kdiff)
      | false, _ =>
        some (drawingTemplateResult selected_skills infos sampleSubj k1
          k2 b k3 k4 kt kdiff)

end Strategy

namespace Rotation

theorem pyIndex_natCast (xs : List α) (c : Nat) :
    pyIndex xs (c : Int) = xs.get? c := by
  simp [pyIndex]

theorem pyIndex_valid (pool : List String) {e : Int} (h0 : 0 ≤ e)
    (hlt : e.toNat < pool.length) :
    pyIndex pool e = some (pool.get ⟨e.toNat, hlt⟩) := by
  simp [pyIndex, h0, List.get?_eq_get hlt]

theorem isRangePerm_length {n : Nat} {xs : List Int} (h : IsRangePerm n xs) :
    xs.length = n := by
  rw [h.length_eq, List.length_map, List.length_range]

theorem isRangePerm_entryValid {pool : List String} {xs : List Int}
    (h : IsRangePerm pool.length xs) : entryValid pool xs := by
  intro e he
  have hm : e ∈ (List.range pool.length).map Int.ofNat :=
    h.mem_iff.mp he
  obtain ⟨k, hk, rfl⟩ := List.mem_map.mp hm
  have hk' := List.mem_range.mp hk
  simp [hk']

theorem next_select {pool : List String} {xs : List Int} {c : Nat}
    (hc : c < xs.length) (hv : entryValid pool xs) (q : List Int) (fb : Nat) :
    next pool q fb ⟨some (.ok xs), some (.ok (c : Int)), true⟩
      = (pyIndex pool (xs.get ⟨c, hc⟩),
         ⟨some (.ok xs), some (.ok ((c : Int) + 1)), true⟩) := by
  have hle : ¬ ((xs.length : Int) ≤ (c : Int)) := by exact_mod_cast Nat.not_le.mpr hc
  have hget : pyIndex xs (c : Int) = some (xs.get ⟨c, hc⟩) := by
    rw [pyIndex_natCast, List.get?_eq_get hc]
  obtain ⟨h0, hlt⟩ := hv _ (xs.get_mem c hc)
  simp only [next, afterSelect, hle, if_false, hget, pyIndex_valid pool h0 hlt]

theorem next_fresh (pool : List String) (q : List Int) (fb : Nat)
    (pp : Option StoredPos) :
    next pool q fb ⟨none, pp, true⟩
      = next pool q fb ⟨some (.ok q), some (.ok ((0 : Nat) : Int)), true⟩ := by
  by_cases h : (q.length : Int) ≤ ((0 : Nat) : Int) <;>
    simp [next, h]

theorem next_exhausted {pool : List String} {xs : List Int} {p : Int}
    (hp : (xs.length : Int) ≤ p) (q : List Int) (fb : Nat) :
    next pool q fb ⟨some (.ok xs), some (.ok p), true⟩
      = next pool q fb ⟨some (.ok q), some (.ok ((0 : Nat) : Int)), true⟩ := by
  by_cases h : (q.length : Int) ≤ ((0 : Nat) : Int) <;>
    simp [next, h, hp]

theorem run_congr_head {pool : List String} {fb : Nat} {st st' : Store}
    {p : List Int} (ps : List (List Int))
    (h : next pool p fb st = next pool p fb st') :
    run pool fb st (p :: ps) = run pool fb st' (p :: ps) := by
  simp only [run, h]

theorem run_append (pool : List String) (fb : Nat) (st : Store)
    (as bs : List (List Int)) :
    run pool fb st (as ++ bs)
      = ((run pool fb st as).1 ++ (run pool fb (run pool fb st as).2 bs).1,
         (run pool fb (run pool fb st as).2 bs).2) := by
  induction as generalizing st with
  | nil => simp [run]
  | cons a as ih => simp [run, ih]

theorem run_cycle {pool : List String} {xs : List Int} (fb : Nat)
    (hv : entryValid pool xs) :
    ∀ (ps : List (List Int)) (c : Nat), c + ps.length = xs.length →
    run pool fb ⟨some (.ok xs), some (.ok (c : Int)), true⟩ ps
      = ((xs.drop c).map (pyIndex pool),
         ⟨some (.ok xs), some (.ok ((xs.length : Nat) : Int)), true⟩) := by
  intro ps
  induction ps with
  | nil =>
    intro c hc
    simp only [List.length_nil, Nat.add_zero] at hc
    subst hc
    simp [run, List.drop_length]
  | cons p ps ih =>
    intro c hc
    simp only [List.length_cons] at hc
    have hlt : c < xs.length := by omega
    have hstep := next_select hlt hv p fb
    have hcast : ((c : Int) + 1) = (((c + 1 : Nat)) : Int) := by push_cast; ring
    rw [List.drop_eq_getElem_cons hlt, List.map_cons]
    simp only [run, hstep, hcast, ih (c + 1) (by omega)]
    simp [List.get_eq_getElem]

theorem range_map_get? (l : List α) :
    (List.range l.length).map (fun k => l.get? k) = l.map some := by
  induction l with
  | nil => simp
  | cons h t ih =>
    rw [List.length_cons, List.range_succ_eq_map]
    simp only [List.map_cons, List.map_map, List.get?]
    refine congrArg (some h :: ·) ?_
    rw [← ih]
    rfl

theorem map_pyIndex_perm {pool : List String} {q : List Int}
    (h : IsRangePerm pool.length q) :
    (q.map (pyIndex pool)).Perm (pool.map some) := by
  have h1 : (q.map (pyIndex pool)).Perm
      (((List.range pool.length).map Int.ofNat).map (pyIndex pool)) :=
    h.map _
  rw [List.map_map] at h1
  have h2 : ((List.range pool.length).map (pyIndex pool ∘ Int.ofNat))
      = pool.map some := by
    rw [← range_map_get? pool]
    refine List.map_congr_left ?_
    intro k _
    simp [Function.comp, pyIndex_natCast]
  rwa [h2] at h1

/-- Running a full cycle from a state whose cursor has reached (or passed)
the end of the stored list: the call rebuilds from the oracle permutation
`q` and the cycle then covers the pool. -/
theorem run_newcycle {pool : List String} {xs : List Int} {p : Int} (fb : Nat)
    (hp : (xs.length : Int) ≤ p) {q : List Int}
    (hq : IsRangePerm pool.length q) (ps : List (List Int))
    (hlen : 1 + ps.length = pool.length) :
    run pool fb ⟨some (.ok xs), some (.ok p), true⟩ (q :: ps)
      = (q.map (pyIndex pool),
         ⟨some (.ok q), some (.ok ((q.length : Nat) : Int)), true⟩) := by
  rw [run_congr_head ps (next_exhausted hp q fb)]
  have hv := isRangePerm_entryValid hq
  have hql := isRangePerm_length hq
  exact run_cycle fb hv (q :: ps) 0 (by simp only [List.length_cons]; omega)

/-- C1: for every pool of size N ≥ 1 and any category, with a reachable
store and no persisted state, N consecutive calls to the rotation return
each pool entity exactly once (following the persisted shuffled
permutation), and the next N calls — a fresh cycle started by the
(N+1)-th call — again return each pool entity exactly once.  The oracle
permutations produced by `random.shuffle` at the two shuffle points are
`p1` and `p2`; the other oracle entries are ignored by the calls. -/
theorem claim_C1_rotation_coverage (pool : List String) (fb : Nat)
    (p1 p2 : List Int) (mid tl : List (List Int))
    (hpool : pool ≠ [])
    (h1 : IsRangePerm pool.length p1) (h2 : IsRangePerm pool.length p2)
    (hmid : 1 + mid.length = pool.length) (htl : 1 + tl.length = pool.length) :
    (((run pool fb fresh ((p1 :: mid) ++ p2 :: tl)).1.take pool.length).Perm
        (pool.map some)) ∧
    (((run pool fb fresh ((p1 :: mid) ++ p2 :: tl)).1.drop pool.length).Perm
        (pool.map some)) := by
  have hv1 := isRangePerm_entryValid h1
  have hl1 := isRangePerm_length h1
  have hfirst : run pool fb fresh (p1 :: mid)
      = (p1.map (pyIndex pool),
         ⟨some (.ok p1), some (.ok ((p1.length : Nat) : Int)), true⟩) := by
    rw [show fresh = (⟨none, none, true⟩ : Store) from rfl,
      run_congr_head mid (next_fresh pool p1 fb none)]
    exact run_cycle fb hv1 (p1 :: mid) 0 (by simp only [List.length_cons]; omega)
  have hsecond :
      run pool fb ⟨some (.ok p1), some (.ok ((p1.length : Nat) : Int)), true⟩
        (p2 :: tl)
      = (p2.map (pyIndex pool),
         ⟨some (.ok p2), some (.ok ((p2.length : Nat) : Int)), true⟩) :=
    run_newcycle fb (le_refl _) h2 tl htl
  have hsplit := run_append pool fb fresh (p1 :: mid) (p2 :: tl)
  rw [hfirst] at hsplit
  rw [hsecond] at hsplit
  rw [hsplit]
  have hlen1 : (p1.map (pyIndex pool)).length = pool.length := by
    simp [hl1]
  rw [List.take_left' hlen1, List.drop_left' hlen1]
  exact ⟨map_pyIndex_perm h1, map_pyIndex_perm h2⟩

/-- Witness for C1 at the spec's end-to-end example: pool
`["Dragon", "Knight"]`, first persisted permutation `[0, 1]`, reshuffle
permutation `[1, 0]`. -/
theorem claim_C1_rotation_coverage_witness :
    (((run ["Dragon", "Knight"] 0 fresh
        (([0, 1] :: [[]]) ++ [1, 0] :: [[]])).1.take
          (["Dragon", "Knight"] : List String).length).Perm
        ((["Dragon", "Knight"] : List String).map some)) ∧
    (((run ["Dragon", "Knight"] 0 fresh
        (([0, 1] :: [[]]) ++ [1, 0] :: [[]])).1.drop
          (["Dragon", "Knight"] : List String).length).Perm
        ((["Dragon", "Knight"] : List String).map some)) :=
  claim_C1_rotation_coverage ["Dragon", "Knight"] 0 [0, 1] [1, 0] [[]] [[]]
    (by decide) (by decide) (by decide) (by decide) (by decide)

/-- C3 counterexample: with pool `["a", "b"]` (N = 2) and a persisted
permutation `[0, 1, 2]` of the wrong length 3, the next call does NOT treat
the state as absent: it serves `pool[0]` through the stale permutation and
persists cursor 1, leaving the wrong-length permutation in place instead of
rebuilding a correctly-sized one with cursor 0. -/
theorem claim_C3_counterexample :
    (next ["a", "b"] [0, 1] 0
        ⟨some (.ok [0, 1, 2]), some (.ok 0), true⟩)
      = (some "a", ⟨some (.ok [0, 1, 2]), some (.ok 1), true⟩) ∧
    ([0, 1, 2] : List Int).length ≠ (["a", "b"] : List String).length := by
  decide

/-- C3 (amended): a wrong-length persisted permutation is not detected.
(i) If the cursor is below the stored length and the stored entry is a
valid pool index, the call serves that entry and advances the cursor,
keeping the wrong-length permutation.  (ii) If the stored entry is not a
valid pool index, the call degrades to a uniformly random entity and leaves
the store unchanged.  (iii) Only once the cursor reaches the stored
length does the next call rebuild a correctly-sized permutation, and from
that call on one full cycle returns each pool entity exactly once. -/
theorem claim_C3_amended :
    (∀ (pool : List String) (xs : List Int) (c : Nat) (q : List Int) (fb : Nat)
      (hc : c < xs.length) (h0 : 0 ≤ xs.get ⟨c, hc⟩)
      (hi : (xs.get ⟨c, hc⟩).toNat < pool.length),
      next pool q fb ⟨some (.ok xs), some (.ok (c : Int)), true⟩
        = (some (pool.get ⟨(xs.get ⟨c, hc⟩).toNat, hi⟩),
           ⟨some (.ok xs), some (.ok ((c : Int) + 1)), true⟩)) ∧
    (∀ (pool : List String) (xs : List Int) (c : Nat) (q : List Int) (fb : Nat)
      (hc : c < xs.length) (hbad : pyIndex pool (xs.get ⟨c, hc⟩) = none),
      next pool q fb ⟨some (.ok xs), some (.ok (c : Int)), true⟩
        = (pyChoice pool fb, ⟨some (.ok xs), some (.ok (c : Int)), true⟩)) ∧
    (∀ (pool : List String) (xs : List Int) (p : Int) (fb : Nat)
      (hp : (xs.length : Int) ≤ p) (q : List Int) (ps : List (List Int))
      (hq : IsRangePerm pool.length q) (hlen : 1 + ps.length = pool.length),
      ((run pool fb ⟨some (.ok xs), some (.ok p), true⟩ (q :: ps)).1).Perm
        (pool.map some)) := by
  refine ⟨?_, ?_, ?_⟩
  · intro pool xs c q fb hc h0 hi
    have hle : ¬ ((xs.length : Int) ≤ (c : Int)) := by
      exact_mod_cast Nat.not_le.mpr hc
    have hget : pyIndex xs (c : Int) = some (xs.get ⟨c, hc⟩) := by
      rw [pyIndex_natCast, List.get?_eq_get hc]
    simp only [next, afterSelect, hle, if_false, hget, pyIndex_valid pool h0 hi]
  · intro pool xs c q fb hc hbad
    have hle : ¬ ((xs.length : Int) ≤ (c : Int)) := by
      exact_mod_cast Nat.not_le.mpr hc
    have hget : pyIndex xs (c : Int) = some (xs.get ⟨c, hc⟩) := by
      rw [pyIndex_natCast, List.get?_eq_get hc]
    simp only [next, afterSelect, hle, if_false, hget, hbad]
  · intro pool xs p fb hp q ps hq hlen
    rw [run_newcycle fb hp hq ps hlen]
    exact map_pyIndex_perm hq

/-- Witness for the amended C3: a stale permutation of length 3 over a pool
of size 2 is served as-is at cursor 0, and an exhausted stale state of
length 4 rebuilds into a covering cycle. -/
theorem claim_C3_amended_witness :
    (next ["a", "b"] [0, 1] 0
        ⟨some (.ok [0, 1, 2]), some (.ok ((0 : Nat) : Int)), true⟩
      = (some "a",
         ⟨some (.ok [0, 1, 2]), some (.ok (((0 : Nat) : Int) + 1)), true⟩)) ∧
    (((run ["a", "b"] 0 ⟨some (.ok [0, 1, 2, 9]), some (.ok 4), true⟩
        ([0, 1] :: [[]])).1).Perm ((["a", "b"] : List String).map some)) := by
  constructor
  · exact (claim_C3_amended.1 ["a", "b"] [0, 1, 2] 0 [0, 1] 0
      (by decide) (by decide) (by decide)).trans (by decide)
  · exact claim_C3_amended.2.2 ["a", "b"] [0, 1, 2, 9] 4 0 (by decide)
      [0, 1] [[]] (by decide) (by decide)

/-- C4: on any persistence failure (store unreachable, unparseable persisted
state, or an index error from unusable stored content) the rotation call
returns the `random.choice` fallback — a valid pool entity for every draw —
and leaves the persisted rotation state untouched. -/
theorem claim_C4_persistence_failure (pool : List String) (q : List Int)
    (fb : Nat) (st : Store) (h : storeFailure pool st) :
    next pool q fb st = (pyChoice pool fb, st) ∧
    (∀ a, pyChoice pool fb = some a → a ∈ pool) := by
  constructor
  · rcases st with ⟨sh, pos, reach⟩
    rcases h with h | h | ⟨xs, h1, h2⟩ | ⟨xs, p, h1, h2, h3, h4⟩
    · simp only [Store.reachable] at h
      subst h
      rfl
    · simp only [Store.shuffled] at h
      subst h
      cases reach <;> rfl
    · simp only [Store.shuffled, Store.position] at h1 h2
      subst h1; subst h2
      cases reach <;> rfl
    · simp only [Store.shuffled, Store.position] at h1 h2
      subst h1
      cases reach with
      | false => rfl
      | true =>
        rcases pos with _ | pp
        · have hp : p = 0 := by
            simpa [posRead] using h2.symm
          subst hp
          rcases h4 with h4 | ⟨i, hi1, hi2⟩
          · simp only [next, afterSelect, h3, if_false, h4]
          · simp only [next, afterSelect, h3, if_false, hi1, hi2]
        · cases pp with
          | ok p' =>
            have hp : p' = p := by
              simpa [posRead] using h2
            subst hp
            rcases h4 with h4 | ⟨i, hi1, hi2⟩
            · simp only [next, afterSelect, h3, if_false, h4]
            · simp only [next, afterSelect, h3, if_false, hi1, hi2]
          | empty =>
            have hp : p = 0 := by
              simpa [posRead] using h2.symm
            subst hp
            rcases h4 with h4 | ⟨i, hi1, hi2⟩
            · simp only [next, afterSelect, h3, if_false, h4]
            · simp only [next, afterSelect, h3, if_false, hi1, hi2]
          | bad => simp [posRead] at h2
  · intro a ha
    unfold pyChoice at ha
    split at ha
    · exact absurd ha (by simp)
    · exact Option.some.inj ha ▸ List.get_mem _ _ _

/-- Witness for C4: an unreachable store with pool `["x", "y"]`. -/
theorem claim_C4_persistence_failure_witness :
    storeFailure ["x", "y"] ⟨none, none, false⟩ ∧
    next ["x", "y"] [0, 1] 0 ⟨none, none, false⟩
      = (pyChoice ["x", "y"] 0, ⟨none, none, false⟩) := by
  have h : storeFailure ["x", "y"] ⟨none, none, false⟩ := Or.inl rfl
  exact ⟨h, (claim_C4_persistence_failure ["x", "y"] [0, 1] 0 _ h).1⟩

end Rotation

namespace Sanitize

theorem specCollapse_runs (cs : List Char) :
    specCollapse cs
      = List.replicate (min (cs.takeWhile (fun d => d == '\n')).length 2) '\n'
        ++ specCollapse (cs.dropWhile (fun d => d == '\n')) := by
  cases cs with
  | nil => simp [specCollapse]
  | cons c cs =>
    by_cases hc : c = '\n'
    · subst hc
      conv_lhs => rw [specCollapse.eq_def]
      simp only [if_pos rfl, List.takeWhile_cons, List.dropWhile_cons,
        beq_self_eq_true, if_true, List.length_cons]
      congr 2
      split <;> omega
    · have hb : (c == '\n') = false := by simp [hc]
      conv_lhs => rw [specCollapse.eq_def]
      conv_rhs => rw [specCollapse.eq_def]
      simp [hc, hb]

theorem nlAux_spec (s : List Char) :
    ∀ n : Nat, nlAux n s
      = List.replicate (min (n + (s.takeWhile (fun d => d == '\n')).length) 2)
          '\n' ++ specCollapse (s.dropWhile (fun d => d == '\n')) := by
  induction s with
  | nil => intro n; simp [nlAux, specCollapse]
  | cons c cs ih =>
    intro n
    by_cases hc : c = '\n'
    · subst hc
      rw [nlAux, if_pos rfl, ih (n + 1)]
      simp only [List.takeWhile_cons, List.dropWhile_cons, beq_self_eq_true,
        if_true, List.length_cons]
      congr 2
      omega
    · have hb : (c == '\n') = false := by simp [hc]
      rw [nlAux, if_neg hc, ih 0]
      simp only [List.takeWhile_cons, List.dropWhile_cons, hb,
        Bool.false_eq_true, if_false, List.takeWhile_nil, List.length_nil,
        Nat.add_zero]
      conv_rhs => rw [specCollapse.eq_def]
      simp only [if_neg hc]
      rw [specCollapse_runs cs]
      simp

/-- C5: the Corruption Scorer's density rule drops a line exactly when the
stripped length exceeds 10 and the weighted score strictly exceeds 0.2 times
the stripped length (stated as the equivalent integer comparison
`5 * score > length`); a 30-character line of score 7 is dropped, one of
score exactly 6 is kept, and a line of stripped length at most 10 is never
dropped by this rule (so never dropped at all when it also lacks a
suspicious start). -/
theorem claim_C5_density_rule :
    (∀ line : List Char, suspiciousStart line = false →
      (processLine line = none ↔
        10 < (pyStrip line).length ∧
        (pyStrip line).length < 5 * corruptionScore line)) ∧
    (corruptionScore ("<a><b>█abcdefghijklmnopqrstuvw".toList) = 7 ∧
      (pyStrip ("<a><b>█abcdefghijklmnopqrstuvw".toList)).length = 30 ∧
      processLine ("<a><b>█abcdefghijklmnopqrstuvw".toList) = none) ∧
    (corruptionScore ("<a><b><c>abcdefghijklmnopqrstu".toList) = 6 ∧
      (pyStrip ("<a><b><c>abcdefghijklmnopqrstu".toList)).length = 30 ∧
      processLine ("<a><b><c>abcdefghijklmnopqrstu".toList)
        = some (cleanLine ("<a><b><c>abcdefghijklmnopqrstu".toList))) ∧
    (∀ line : List Char, (pyStrip line).length ≤ 10 →
      suspiciousStart line = false → processLine line ≠ none) := by
  refine ⟨?_, by decide, by decide, ?_⟩
  · intro line hsusp
    unfold processLine
    by_cases he : pyStrip line = []
    · simp [he]
    · rw [if_neg he]
      by_cases hd : 10 < (pyStrip line).length ∧
          (pyStrip line).length < 5 * corruptionScore line
      · simp [hd]
      · simp [hd, hsusp]
  · intro line hlen hsusp
    unfold processLine
    by_cases he : pyStrip line = []
    · simp [he]
    · rw [if_neg he]
      have hd : ¬ (10 < (pyStrip line).length ∧
          (pyStrip line).length < 5 * corruptionScore line) := by
        intro h
        omega
      simp [hd, hsusp]

/-- Witness for C5 at a concrete non-suspicious line. -/
theorem claim_C5_density_rule_witness :
    suspiciousStart ("plain words".toList) = false ∧
    (processLine ("plain words".toList) = none ↔
      10 < (pyStrip ("plain words".toList)).length ∧
      (pyStrip ("plain words".toList)).length
        < 5 * corruptionScore ("plain words".toList)) :=
  ⟨by decide, claim_C5_density_rule.1 ("plain words".toList) (by decide)⟩

/-- C6 counterexample: this 16-token line carries a run of 8 consecutive
capitalized non-allow-listed tokens (tokens 2 through 9) immediately
followed by the allow-listed token `Serum`; the claim demands that the
whole text be rejected, but the scan resets the run without flagging it and
the sanitizer accepts the text unchanged. -/
theorem claim_C6_counterexample :
    sanitize_ai_content
        ("w Aa Bb Cc Dd Ee Ff Gg Hh Serum i1 i2 i3 i4 i5 i6".toList)
      = some ("w Aa Bb Cc Dd Ee Ff Gg Hh Serum i1 i2 i3 i4 i5 i6".toList) := by
  decide

/-- C6 (amended): the word-salad gate scans each non-header line of more
than 15 tokens, counting runs of consecutive tokens whose punctuation-
stripped form is longer than one character, starts with an uppercase letter
and contains no allow-listed fragment; a run of length at least 8 rejects
the text only when it is terminated by a token failing the capitalization
test or by the end of the line, while a run terminated by an allow-listed
token is discarded without being flagged.  In particular a 16-token line
whose longest run is exactly 7 is accepted and one with a run of 8 at the
end of the line is rejected. -/
theorem claim_C6_amended :
    sanitize_ai_content
        ("w Aa Bb Cc Dd Ee Ff Gg hh i1 i2 i3 i4 i5 i6 i7".toList)
      = some ("w Aa Bb Cc Dd Ee Ff Gg hh i1 i2 i3 i4 i5 i6 i7".toList) ∧
    sanitize_ai_content
        ("w Aa Bb Cc Dd Ee Ff Gg Hh i1 i2 i3 i4 i5 i6 i7".toList) = none ∧
    (∀ rest : List (List Char),
      saladScan 8 ("Serum".toList :: rest) = saladScan 0 rest) ∧
    (∀ (rest : List (List Char)) (seq : Nat),
      saladScan seq ("xy".toList :: rest)
        = (decide (8 ≤ seq) || saladScan 0 rest)) ∧
    saladScan 8 [] = true := by
  refine ⟨by decide, by decide, fun rest => rfl, fun rest seq => rfl, by decide⟩

/-- C8 counterexample: sanitizing
`"Hello\n<script>bad</script>\nWorld"` does not return
`"Hello\nWorld"` — the middle line is not dropped. -/
theorem claim_C8_counterexample :
    sanitize_ai_content ("Hello\n<script>bad</script>\nWorld".toList)
      ≠ some ("Hello\nWorld".toList) := by
  decide

/-- C8 (amended): the middle line scores 4 (two HTML-tag matches at weight
2) over a stripped length of 20, and 4 does not strictly exceed
0.2 × 20 = 4, so the line is kept and the sanitizer returns the input
unchanged. -/
theorem claim_C8_amended :
    corruptionScore ("<script>bad</script>".toList) = 4 ∧
    (pyStrip ("<script>bad</script>".toList)).length = 20 ∧
    processLine ("<script>bad</script>".toList)
      = some ("<script>bad</script>".toList) ∧
    sanitize_ai_content ("Hello\n<script>bad</script>\nWorld".toList)
      = some ("Hello\n<script>bad</script>\nWorld".toList) := by
  decide

/-- C9 counterexample: `"a\n\n\nb"` contains a run of exactly two blank
lines — fewer than the three the claim says are required for collapsing —
yet sanitize does not leave it unchanged: it collapses the run to one blank
line. -/
theorem claim_C9_counterexample :
    sanitize_ai_content ("a\n\n\nb".toList) = some ("a\n\nb".toList) ∧
    ("a\n\n\nb".toList ≠ "a\n\nb".toList) := by
  decide

/-- C9 (amended): the whitespace-normalization step collapses every maximal
run of three or more newline characters — that is, two or more consecutive
blank lines — to exactly two newlines (one blank line), and leaves shorter
newline runs unchanged: the collapse step equals the run-by-run
specification `specCollapse` on every input. -/
theorem claim_C9_amended : ∀ s : List Char, collapseNL s = specCollapse s := by
  intro s
  rw [collapseNL, nlAux_spec s 0, specCollapse_runs s]
  simp

/-- C10: sanitize of the empty string (the only falsy string) returns the
rejection value `none`, never an accepted empty text. -/
theorem claim_C10_empty_input : sanitize_ai_content [] = none := rfl

theorem splitOn_ne_nil (sep : Char) (s : List Char) : splitOn sep s ≠ [] := by
  cases s with
  | nil => simp [splitOn]
  | cons c cs =>
    simp only [splitOn]
    split <;> simp

theorem splitOn_cons_of_sep (sep : Char) (cs : List Char) :
    splitOn sep (sep :: cs) = [] :: splitOn sep cs := by
  simp [splitOn]

theorem splitOn_cons_of_ne {sep c : Char} (hc : c ≠ sep) (cs : List Char) :
    splitOn sep (c :: cs)
      = (c :: (splitOn sep cs).headI) :: (splitOn sep cs).tail := by
  simp [splitOn, hc]

theorem headI_cons_tail {α : Type} [Inhabited α] {l : List α} (h : l ≠ []) :
    l.headI :: l.tail = l := by
  cases l with
  | nil => exact absurd rfl h
  | cons a l => rfl

theorem splitOn_sep_not_mem (sep : Char) (s : List Char) :
    ∀ ℓ ∈ splitOn sep s, sep ∉ ℓ := by
  induction s with
  | nil =>
    intro ℓ h
    simp only [splitOn, List.mem_singleton] at h
    subst h
    simp
  | cons c cs ih =>
    intro ℓ h
    cases hs : splitOn sep cs with
    | nil => exact absurd hs (splitOn_ne_nil sep cs)
    | cons l ls =>
      by_cases hc : c = sep
      · subst hc
        rw [splitOn_cons_of_sep, hs] at h
        rcases List.mem_cons.mp h with h | h
        · subst h; simp
        · exact ih ℓ (hs ▸ h)
      · rw [splitOn_cons_of_ne hc, hs] at h
        rcases List.mem_cons.mp h with h | h
        · subst h
          intro hm
          rcases List.mem_cons.mp hm with hm | hm
          · exact hc hm.symm
          · exact ih l (hs ▸ List.mem_cons_self l ls) hm
        · exact ih ℓ (hs ▸ List.mem_cons.mpr (Or.inr h))

theorem joinSep_splitOn (sep : Char) (s : List Char) :
    joinSep sep (splitOn sep s) = s := by
  induction s with
  | nil => rfl
  | cons c cs ih =>
    cases hs : splitOn sep cs with
    | nil => exact absurd hs (splitOn_ne_nil sep cs)
    | cons l ls =>
      rw [hs] at ih
      by_cases hc : c = sep
      · subst hc
        rw [splitOn_cons_of_sep, hs]
        cases ls <;> simp only [joinSep] at ih ⊢ <;> simp [ih]
      · rw [splitOn_cons_of_ne hc, hs]
        cases ls <;> simp only [joinSep] at ih ⊢ <;> simp [ih]

theorem splitOn_of_not_mem {sep : Char} {x : List Char} (h : sep ∉ x) :
    splitOn sep x = [x] := by
  induction x with
  | nil => rfl
  | cons c cs ih =>
    have hc : c ≠ sep := fun e => h (by simp [e])
    have hcs : sep ∉ cs := fun m => h (List.mem_cons.mpr (Or.inr m))
    rw [splitOn_cons_of_ne hc, ih hcs]
    rfl

theorem splitOn_append_sep {sep : Char} {x : List Char} (h : sep ∉ x)
    (r : List Char) : splitOn sep (x ++ sep :: r) = x :: splitOn sep r := by
  induction x with
  | nil =>
    simp only [List.nil_append]
    exact splitOn_cons_of_sep sep r
  | cons c cs ih =>
    have hc : c ≠ sep := fun e => h (by simp [e])
    have hcs : sep ∉ cs := fun m => h (List.mem_cons.mpr (Or.inr m))
    rw [List.cons_append, splitOn_cons_of_ne hc, ih hcs]
    rfl

theorem splitOn_joinSep (sep : Char) :
    ∀ xs : List (List Char), xs ≠ [] → (∀ x ∈ xs, sep ∉ x) →
    splitOn sep (joinSep sep xs) = xs
  | [], h, _ => absurd rfl h
  | [x], _, hm => by
    simp only [joinSep]
    exact splitOn_of_not_mem (hm x (List.mem_singleton.mpr rfl))
  | x :: y :: ys, _, hm => by
    have h1 : sep ∉ x := hm x (List.mem_cons_self _ _)
    have h2 : ∀ z ∈ y :: ys, sep ∉ z :=
      fun z hz => hm z (List.mem_cons.mpr (Or.inr hz))
    simp only [joinSep]
    rw [splitOn_append_sep h1, splitOn_joinSep sep (y :: ys) (by simp) h2]

theorem filterMap_fixed {l : List (List Char)}
    {f : List Char → Option (List Char)} (h : ∀ a ∈ l, f a = some a) :
    l.filterMap f = l := by
  induction l with
  | nil => rfl
  | cons a l ih =>
    rw [List.filterMap_cons, h a (List.mem_cons_self a l),
      ih (fun b hb => h b (List.mem_cons.mpr (Or.inr hb)))]

theorem dropWhile_ws_append {w : List Char} (hw : ∀ c ∈ w, pyWS c = true)
    (s : List Char) :
    List.dropWhile pyWS (w ++ s) = List.dropWhile pyWS s := by
  induction w with
  | nil => rfl
  | cons c w ih =>
    rw [List.cons_append, List.dropWhile_cons, hw c (List.mem_cons_self c w)]
    exact ih (fun d hd => hw d (List.mem_cons.mpr (Or.inr hd)))

theorem pyStripRight_append_ws {w : List Char} (hw : ∀ c ∈ w, pyWS c = true)
    (s : List Char) : pyStripRight (s ++ w) = pyStripRight s := by
  unfold pyStripRight
  rw [List.reverse_append,
    dropWhile_ws_append (fun d hd => hw d (List.mem_reverse.mp hd))]

theorem pyStrip_prefix_ws {w : List Char} (hw : ∀ c ∈ w, pyWS c = true)
    (s : List Char) : pyStrip (w ++ s) = pyStrip s := by
  unfold pyStrip pyStripLeft
  rw [dropWhile_ws_append hw]

theorem pyStrip_suffix_ws {w : List Char} (hw : ∀ c ∈ w, pyWS c = true)
    (s : List Char) : pyStrip (s ++ w) = pyStrip s := by
  unfold pyStrip pyStripLeft
  rw [List.dropWhile_append]
  by_cases he : (List.dropWhile pyWS s).isEmpty
  · rw [if_pos he]
    have hwnil : List.dropWhile pyWS w = [] :=
      List.dropWhile_eq_nil_iff.mpr (fun x hx => by simp [hw x hx])
    rw [hwnil]
    rw [List.isEmpty_iff] at he
    rw [he]
  · rw [if_neg he]
    exact pyStripRight_append_ws hw _

theorem exists_ws_prefix (s : List Char) :
    ∃ w, (∀ c ∈ w, pyWS c = true) ∧ s = w ++ List.dropWhile pyWS s :=
  ⟨s.takeWhile pyWS, fun c hc => List.mem_takeWhile_imp hc,
    (List.takeWhile_append_dropWhile pyWS s).symm⟩

theorem exists_ws_suffix (s : List Char) :
    ∃ w, (∀ c ∈ w, pyWS c = true) ∧ s = pyStripRight s ++ w := by
  refine ⟨(s.reverse.takeWhile pyWS).reverse,
    fun c hc => List.mem_takeWhile_imp (List.mem_reverse.mp hc), ?_⟩
  unfold pyStripRight
  rw [← List.reverse_append, List.takeWhile_append_dropWhile,
    List.reverse_reverse]

theorem dropWhile_ws_idem (s : List Char) :
    List.dropWhile pyWS (List.dropWhile pyWS s) = List.dropWhile pyWS s := by
  cases h : List.dropWhile pyWS s with
  | nil => rfl
  | cons c cs =>
    have hd := List.head?_dropWhile_not pyWS s
    rw [h] at hd
    simp only [List.head?_cons] at hd
    rw [List.dropWhile_cons, hd]
    simp

theorem pyStripRight_idem (s : List Char) :
    pyStripRight (pyStripRight s) = pyStripRight s := by
  unfold pyStripRight
  rw [List.reverse_reverse, dropWhile_ws_idem]

theorem pyStrip_stripLeft (ℓ : List Char) :
    pyStrip (List.dropWhile pyWS ℓ) = pyStrip ℓ := by
  unfold pyStrip pyStripLeft
  rw [dropWhile_ws_idem]

theorem pyStrip_stripRight (ℓ : List Char) :
    pyStrip (pyStripRight ℓ) = pyStrip ℓ := by
  obtain ⟨w, hw, he⟩ := exists_ws_suffix ℓ
  conv_rhs => rw [he]
  rw [pyStrip_suffix_ws hw]

theorem pyStripLeft_stripRight_of (s : List Char) :
    pyStripLeft (pyStripRight (pyStripLeft s)) = pyStripRight (pyStripLeft s) := by
  cases h : pyStripRight (pyStripLeft s) with
  | nil => simp [pyStripLeft]
  | cons c cs =>
    have hx : List.dropWhile pyWS (pyStripLeft s) = pyStripLeft s :=
      dropWhile_ws_idem s
    obtain ⟨w, hw, he⟩ := exists_ws_suffix (pyStripLeft s)
    rw [h] at he
    have hc : pyWS c = false := by
      have hh := hx
      rw [he, List.cons_append, List.dropWhile_cons] at hh
      cases hp : pyWS c
      · rfl
      · rw [hp] at hh
        simp only [if_true] at hh
        have hlen := congrArg List.length hh
        have hle := (List.dropWhile_sublist (l := cs ++ w) pyWS).length_le
        simp only [List.length_cons] at hlen
        omega
    unfold pyStripLeft
    rw [List.dropWhile_cons, hc]
    simp

theorem pyStrip_idem (s : List Char) : pyStrip (pyStrip s) = pyStrip s := by
  show pyStripRight (pyStripLeft (pyStripRight (pyStripLeft s)))
    = pyStripRight (pyStripLeft s)
  rw [pyStripLeft_stripRight_of, pyStripRight_idem]

theorem collapseNL_eq_spec (s : List Char) : collapseNL s = specCollapse s := by
  rw [collapseNL, nlAux_spec s 0, specCollapse_runs s]
  simp

theorem hasTriple_cons_ne {c : Char} (hc : c ≠ '\n') (X : List Char) :
    hasTriple (c :: X) = hasTriple X := by
  have hb : (c == '\n') = false := by simp [hc]
  rcases X with _ | ⟨b, _ | ⟨d, r⟩⟩ <;> simp [hasTriple, hb]

theorem hasTriple_of_cons {c : Char} {X : List Char}
    (h : hasTriple (c :: X) = false) : hasTriple X = false := by
  rcases X with _ | ⟨b, _ | ⟨d, r⟩⟩
  · rfl
  · rfl
  · simp only [hasTriple, Bool.or_eq_false_iff] at h
    exact h.2

theorem hasTriple_suffix {u v : List Char}
    (h : hasTriple (u ++ v) = false) : hasTriple v = false := by
  induction u with
  | nil => exact h
  | cons c u ih => exact ih (hasTriple_of_cons h)

theorem hasTriple_append_left : ∀ u v : List Char,
    hasTriple u = true → hasTriple (u ++ v) = true
  | a :: b :: c :: r, v, h => by
    simp only [hasTriple, Bool.or_eq_true] at h ⊢
    rcases h with h | h
    · exact Or.inl h
    · exact Or.inr (hasTriple_append_left (b :: c :: r) v h)
  | [], _, h => by simp [hasTriple] at h
  | [a], _, h => by simp [hasTriple] at h
  | [a, b], _, h => by simp [hasTriple] at h

theorem hasTriple_prefix {u v : List Char}
    (h : hasTriple (u ++ v) = false) : hasTriple u = false := by
  cases hu : hasTriple u
  · rfl
  · rw [hasTriple_append_left u v hu] at h
    exact h

theorem hasTriple_repl_cons {m : Nat} (hm : m ≤ 2) {c : Char}
    (hc : c ≠ '\n') (X : List Char) :
    hasTriple (List.replicate m '\n' ++ c :: X) = hasTriple (c :: X) := by
  have hb : (c == '\n') = false := by simp [hc]
  interval_cases m
  · rfl
  · rcases X with _ | ⟨x, r⟩ <;> simp [hasTriple, hb, List.replicate]
  · rcases X with _ | ⟨x, r⟩ <;> simp [hasTriple, hb, List.replicate]

theorem dropWhile_nl_head {cs : List Char} {r0 : Char} {r : List Char}
    (h : cs.dropWhile (fun d => d == '\n') = r0 :: r) : r0 ≠ '\n' := by
  have hd := List.head?_dropWhile_not (fun d => d == '\n') cs
  rw [h] at hd
  simp only [List.head?_cons] at hd
  simpa using hd

theorem takeWhile_nl_replicate (cs : List Char) :
    cs.takeWhile (fun d => d == '\n')
      = List.replicate (cs.takeWhile (fun d => d == '\n')).length '\n' := by
  apply List.eq_replicate_of_mem
  intro b hb
  have := List.mem_takeWhile_imp hb
  simpa using this

theorem noTriple_spec : ∀ s : List Char, hasTriple (specCollapse s) = false
  | [] => by simp [specCollapse, hasTriple]
  | c :: cs => by
    by_cases hc : c = '\n'
    · subst hc
      have hm : (if 3 ≤ 1 + (cs.takeWhile (fun d => d == '\n')).length then 2
          else 1 + (cs.takeWhile (fun d => d == '\n')).length) ≤ 2 := by
        split <;> omega
      cases hr : cs.dropWhile (fun d => d == '\n') with
      | nil =>
        have h2 : ∀ m : Nat, m ≤ 2 →
            hasTriple (List.replicate m '\n') = false := by
          intro m hm2
          interval_cases m <;> decide
        simp only [specCollapse, hr, if_pos rfl, if_true, List.append_nil]
        exact h2 _ hm
      | cons r0 r =>
        have hr0 : r0 ≠ '\n' := dropWhile_nl_head hr
        have hrec : hasTriple (specCollapse (r0 :: r)) = false :=
          noTriple_spec (r0 :: r)
        simp only [specCollapse, hr, if_pos rfl, if_true, if_neg hr0] at hrec ⊢
        rw [hasTriple_repl_cons hm hr0]
        exact hrec
    · simp only [specCollapse, if_neg hc]
      rw [hasTriple_cons_ne hc]
      exact noTriple_spec cs
termination_by s => s.length
decreasing_by
  all_goals simp only [List.length_cons]
  all_goals first
    | omega
    | (have h2 := (List.dropWhile_sublist (l := cs) (fun d => d == '\n')).length_le
       rw [hr] at h2
       simp only [List.length_cons] at h2
       omega)

theorem spec_fix : ∀ s : List Char, hasTriple s = false → specCollapse s = s
  | [], _ => by simp [specCollapse]
  | c :: cs, h => by
    by_cases hc : c = '\n'
    · subst hc
      have hk : (cs.takeWhile (fun d => d == '\n')).length ≤ 1 := by
        by_contra hk
        push_neg at hk
        have h2 : 2 ≤ (cs.takeWhile (fun d => d == '\n')).length := hk
        obtain ⟨m, hm⟩ : ∃ m, (cs.takeWhile (fun d => d == '\n')).length
            = m + 2 := ⟨_, (Nat.sub_add_cancel h2).symm⟩
        have hdecomp := List.takeWhile_append_dropWhile
          (fun d => d == '\n') cs
        rw [takeWhile_nl_replicate cs, hm] at hdecomp
        have hcs : cs = '\n' :: '\n' :: (List.replicate m '\n'
            ++ cs.dropWhile (fun d => d == '\n')) := by
          conv_lhs => rw [← hdecomp]
          rw [show m + 2 = 2 + m from by omega, List.replicate_add]
          simp [List.replicate_succ, List.append_assoc]
        rw [hcs] at h
        simp [hasTriple] at h
      have h3 : hasTriple ((cs.takeWhile (fun d => d == '\n'))
          ++ cs.dropWhile (fun d => d == '\n')) = false := by
        rw [List.takeWhile_append_dropWhile]
        exact hasTriple_of_cons h
      have hsuf := hasTriple_suffix h3
      simp only [specCollapse, if_pos rfl, if_neg (by omega :
        ¬ (3 ≤ 1 + (cs.takeWhile (fun d => d == '\n')).length))]
      rw [spec_fix _ hsuf]
      rw [List.replicate_add 1 ((cs.takeWhile (fun d => d == '\n')).length) '\n']
      simp only [List.replicate_one, List.singleton_append, List.cons_append]
      rw [← takeWhile_nl_replicate cs]
      simp only [if_true, List.nil_append, List.takeWhile_append_dropWhile]
    · simp only [specCollapse, if_neg hc]
      rw [spec_fix cs (hasTriple_of_cons h)]
termination_by s => s.length
decreasing_by
  all_goals simp only [List.length_cons]
  all_goals first
    | omega
    | (have h2 := (List.dropWhile_sublist (l := cs) (fun d => d == '\n')).length_le
       omega)

theorem mem_headI {α : Type} [Inhabited α] {S : List α} (h : S ≠ []) :
    S.headI ∈ S := by
  cases S with
  | nil => exact absurd rfl h
  | cons a l => exact List.mem_cons_self a l

theorem mem_subHex : ∀ s : List Char, ∀ c ∈ subHex s, c ∈ s
  | a :: b :: x :: d1 :: d2 :: rest => by
    intro c hc
    simp only [subHex] at hc
    split at hc
    · have := mem_subHex rest c hc
      simp [this]
    · rcases List.mem_cons.mp hc with h | h
      · simp [h]
      · have := mem_subHex (b :: x :: d1 :: d2 :: rest) c h
        simp only [List.mem_cons] at this ⊢
        tauto
  | [] => fun c hc => hc
  | [a] => fun c hc => hc
  | [a, b] => fun c hc => hc
  | [a, b, x] => fun c hc => hc
  | [a, b, x, d] => fun c hc => hc

theorem mem_subUni : ∀ s : List Char, ∀ c ∈ subUni s, c ∈ s
  | a :: b :: x :: d1 :: d2 :: d3 :: d4 :: rest => by
    intro c hc
    simp only [subUni] at hc
    split at hc
    · have := mem_subUni rest c hc
      simp [this]
    · rcases List.mem_cons.mp hc with h | h
      · simp [h]
      · have := mem_subUni (b :: x :: d1 :: d2 :: d3 :: d4 :: rest) c h
        simp only [List.mem_cons] at this ⊢
        tauto
  | [] => fun c hc => hc
  | [a] => fun c hc => hc
  | [a, b] => fun c hc => hc
  | [a, b, x] => fun c hc => hc
  | [a, b, x, d] => fun c hc => hc
  | [a, b, x, d, e] => fun c hc => hc
  | [a, b, x, d, e, f] => fun c hc => hc

theorem mem_cleanLine {ℓ : List Char} {c : Char} (hc : c ∈ cleanLine ℓ) :
    c ∈ ℓ := by
  have h1 := mem_subUni _ c hc
  have h2 := (List.mem_filter.mp h1).1
  exact mem_subHex ℓ c h2

theorem processLine_mem {ℓ m : List Char} (h : processLine ℓ = some m) :
    ∀ c ∈ m, c ∈ ℓ := by
  unfold processLine at h
  split at h
  · intro c hc
    cases h
    exact hc
  · split at h
    · exact absurd h (by simp)
    · split at h
      · exact absurd h (by simp)
      · intro c hc
        cases h
        exact mem_cleanLine hc

theorem mem_splitOn_chars {sep : Char} :
    ∀ s : List Char, ∀ ℓ ∈ splitOn sep s, ∀ c ∈ ℓ, c ∈ s := by
  intro s
  induction s with
  | nil =>
    intro ℓ hl c hc
    simp only [splitOn, List.mem_singleton] at hl
    subst hl
    exact absurd hc (List.not_mem_nil c)
  | cons c0 cs ih =>
    intro ℓ hl c hc
    by_cases h0 : c0 = sep
    · subst h0
      rw [splitOn_cons_of_sep] at hl
      rcases List.mem_cons.mp hl with h | h
      · subst h; exact absurd hc (List.not_mem_nil c)
      · exact List.mem_cons.mpr (Or.inr (ih ℓ h c hc))
    · rw [splitOn_cons_of_ne h0] at hl
      rcases List.mem_cons.mp hl with h | h
      · subst h
        rcases List.mem_cons.mp hc with h | h
        · simp [h]
        · have hh := ih _ (mem_headI (splitOn_ne_nil sep cs)) c h
          simp [hh]
      · have : ℓ ∈ splitOn sep cs := List.mem_of_mem_tail h
        exact List.mem_cons.mpr (Or.inr (ih ℓ this c hc))

theorem mem_joinSep {sep : Char} :
    ∀ M : List (List Char), ∀ c ∈ joinSep sep M,
      c = sep ∨ ∃ ℓ ∈ M, c ∈ ℓ
  | [] => fun c hc => absurd hc (List.not_mem_nil c)
  | [l] => fun c hc => Or.inr ⟨l, List.mem_singleton.mpr rfl, hc⟩
  | l :: l2 :: ls => by
    intro c hc
    simp only [joinSep, List.mem_append, List.mem_cons] at hc
    rcases hc with h | h | h
    · exact Or.inr ⟨l, List.mem_cons_self _ _, h⟩
    · exact Or.inl h
    · rcases mem_joinSep (l2 :: ls) c h with h | ⟨ℓ, hm, hcm⟩
      · exact Or.inl h
      · exact Or.inr ⟨ℓ, List.mem_cons.mpr (Or.inr hm), hcm⟩

theorem mem_specCollapse : ∀ s : List Char, ∀ c ∈ specCollapse s,
    c = '\n' ∨ c ∈ s
  | [] => by intro c hc; simp [specCollapse] at hc
  | c0 :: cs => by
    intro c hc
    by_cases h0 : c0 = '\n'
    · subst h0
      simp only [specCollapse, if_pos rfl, if_true, List.mem_append] at hc
      rcases hc with h | h
      · exact Or.inl (List.eq_of_mem_replicate h)
      · rcases mem_specCollapse (cs.dropWhile (fun d => d == '\n')) c h with
          h | h
        · exact Or.inl h
        · have := (List.dropWhile_sublist (l := cs)
            (fun d => d == '\n')).subset h
          exact Or.inr (List.mem_cons.mpr (Or.inr this))
    · simp only [specCollapse, if_neg h0, List.mem_cons] at hc
      rcases hc with h | h
      · exact Or.inr (by simp [h])
      · rcases mem_specCollapse cs c h with h | h
        · exact Or.inl h
        · exact Or.inr (List.mem_cons.mpr (Or.inr h))
termination_by s => s.length
decreasing_by
  all_goals simp only [List.length_cons]
  all_goals first
    | omega
    | (have h2 := (List.dropWhile_sublist (l := cs)
        (fun d => d == '\n')).length_le
       omega)

theorem mem_collapseNL {s : List Char} {c : Char} (hc : c ∈ collapseNL s) :
    c = '\n' ∨ c ∈ s := by
  rw [collapseNL_eq_spec] at hc
  exact mem_specCollapse s c hc

theorem mem_pyStripLeft {s : List Char} {c : Char} (hc : c ∈ pyStripLeft s) :
    c ∈ s :=
  (List.dropWhile_sublist (l := s) pyWS).subset hc

theorem mem_pyStripRight {s : List Char} {c : Char}
    (hc : c ∈ pyStripRight s) : c ∈ s := by
  unfold pyStripRight at hc
  rw [List.mem_reverse] at hc
  have := (List.dropWhile_sublist (l := s.reverse) pyWS).subset hc
  exact List.mem_reverse.mp this

theorem mem_pyStrip {s : List Char} {c : Char} (hc : c ∈ pyStrip s) :
    c ∈ s :=
  mem_pyStripLeft (mem_pyStripRight hc)

/-- Unfolding of a successful sanitization: the input is nonempty, the
result is the stripped normalized text, and both whole-text gates passed. -/
theorem sanitize_inv {x t : List Char} (h : sanitize_ai_content x = some t) :
    x ≠ [] ∧
    t = pyStrip (collapseNL (joinSep '\n'
      ((splitOn '\n' (x.filter keepChar)).filterMap processLine))) ∧
    printableOK (collapseNL (joinSep '\n'
      ((splitOn '\n' (x.filter keepChar)).filterMap processLine))) = true ∧
    (splitOn '\n' (collapseNL (joinSep '\n'
      ((splitOn '\n' (x.filter keepChar)).filterMap processLine)))).any
      (fun l => !headerLike l && saladLineReject l) = false := by
  by_cases hx : x = []
  · rw [hx] at h
    exact absurd h (by simp [sanitize_ai_content])
  · unfold sanitize_ai_content at h
    rw [if_neg hx] at h
    simp only at h
    refine ⟨hx, ?_⟩
    split at h
    · exact absurd h (by simp)
    · split at h
      · exact absurd h (by simp)
      · rename_i hp hs
        refine ⟨(Option.some.injEq _ _ ▸ h).symm, ?_, ?_⟩
        · cases hpp : printableOK (collapseNL (joinSep '\n'
            ((splitOn '\n' (x.filter keepChar)).filterMap processLine)))
          · exact absurd hpp hp
          · rfl
        · cases hss : (splitOn '\n' (collapseNL (joinSep '\n'
              ((splitOn '\n' (x.filter keepChar)).filterMap
                processLine)))).any
              (fun l => !headerLike l && saladLineReject l)
          · rfl
          · exact absurd hss hs

/-- Every character of a successful sanitization result survives the
control-character filter: it is a newline inserted by the pipeline or a
kept character of the input. -/
theorem sanitize_chars_keep {x t : List Char}
    (h : sanitize_ai_content x = some t) : ∀ c ∈ t, keepChar c = true := by
  obtain ⟨-, ht, -, -⟩ := sanitize_inv h
  intro c hc
  rw [ht] at hc
  have h1 := mem_pyStrip hc
  rcases mem_collapseNL h1 with h2 | h2
  · subst h2; decide
  · rcases mem_joinSep _ c h2 with h3 | ⟨ℓ, hm, hcm⟩
    · subst h3; decide
    · obtain ⟨ℓ0, hl0, hpl⟩ := List.mem_filterMap.mp hm
      have h4 := processLine_mem hpl c hcm
      have h5 := mem_splitOn_chars _ ℓ0 hl0 c h4
      exact (List.mem_filter.mp h5).2

theorem splitOn_concat_sep (sep : Char) :
    ∀ u : List Char, splitOn sep (u ++ [sep]) = splitOn sep u ++ [[]]
  | [] => by simp [splitOn]
  | c :: cs => by
    by_cases hc : c = sep
    · subst hc
      rw [List.cons_append, splitOn_cons_of_sep, splitOn_cons_of_sep,
        splitOn_concat_sep c cs]
      rfl
    · rw [List.cons_append, splitOn_cons_of_ne hc, splitOn_cons_of_ne hc,
        splitOn_concat_sep sep cs]
      cases hs : splitOn sep cs with
      | nil => exact absurd hs (splitOn_ne_nil sep cs)
      | cons l ls => simp

theorem splitOn_concat_ne {sep a : Char} (ha : a ≠ sep) (u : List Char) :
    splitOn sep (u ++ [a]) = appendLast a (splitOn sep u) := by
  induction u with
  | nil => simp [splitOn, ha, appendLast]
  | cons c cs ih =>
    by_cases hc : c = sep
    · subst hc
      rw [List.cons_append, splitOn_cons_of_sep, splitOn_cons_of_sep, ih]
      cases hs : splitOn c cs with
      | nil => exact absurd hs (splitOn_ne_nil c cs)
      | cons l ls => rfl
    · rw [List.cons_append, splitOn_cons_of_ne hc, splitOn_cons_of_ne hc, ih]
      cases hs : splitOn sep cs with
      | nil => exact absurd hs (splitOn_ne_nil sep cs)
      | cons l ls => cases ls <;> simp [appendLast]

theorem mem_appendLast (a : Char) :
    ∀ L : List (List Char), ∀ m ∈ L,
      m ∈ appendLast a L ∨ m ++ [a] ∈ appendLast a L
  | [], m, hm => absurd hm (List.not_mem_nil m)
  | [l], m, hm => by
    rw [List.mem_singleton] at hm
    subst hm
    exact Or.inr (by simp [appendLast])
  | l :: l2 :: ls, m, hm => by
    rcases List.mem_cons.mp hm with h | h
    · subst h
      exact Or.inl (by simp [appendLast])
    · rcases mem_appendLast a (l2 :: ls) m h with h2 | h2
      · refine Or.inl ?_
        simp only [appendLast]
        exact List.mem_cons.mpr (Or.inr h2)
      · refine Or.inr ?_
        simp only [appendLast]
        exact List.mem_cons.mpr (Or.inr h2)

/-- Removing a leading whitespace block: every line of the stripped text
reappears as a line of the full text with a whitespace prefix. -/
theorem lines_ws_prefix {w : List Char} (hw : ∀ c ∈ w, pyWS c = true)
    (s : List Char) :
    ∀ m ∈ splitOn '\n' s, ∃ a, (∀ c ∈ a, pyWS c = true) ∧
      a ++ m ∈ splitOn '\n' (w ++ s) := by
  induction w with
  | nil =>
    intro m hm
    exact ⟨[], by simp, by simpa using hm⟩
  | cons c w ih =>
    intro m hm
    have hcw : ∀ d ∈ w, pyWS d = true :=
      fun d hd => hw d (List.mem_cons.mpr (Or.inr hd))
    obtain ⟨a, ha, hmem⟩ := ih hcw m hm
    by_cases hc : c = '\n'
    · subst hc
      rw [List.cons_append, splitOn_cons_of_sep]
      exact ⟨a, ha, List.mem_cons.mpr (Or.inr hmem)⟩
    · rw [List.cons_append, splitOn_cons_of_ne hc]
      rcases List.mem_cons.mp ((headI_cons_tail
          (splitOn_ne_nil '\n' (w ++ s))).symm ▸ hmem) with h | h
      · refine ⟨c :: a, ?_, ?_⟩
        · intro d hd
          rcases List.mem_cons.mp hd with h2 | h2
          · subst h2; exact hw d (List.mem_cons_self d w)
          · exact ha d h2
        · rw [← h]
          simp
      · exact ⟨a, ha, List.mem_cons.mpr (Or.inr h)⟩

/-- Removing a trailing whitespace block: every line of the stripped text
reappears as a line of the full text with a whitespace suffix. -/
theorem lines_ws_suffix {w : List Char} (hw : ∀ c ∈ w, pyWS c = true)
    (s : List Char) :
    ∀ m ∈ splitOn '\n' s, ∃ b, (∀ c ∈ b, pyWS c = true) ∧
      m ++ b ∈ splitOn '\n' (s ++ w) := by
  induction w using List.reverseRecOn with
  | nil =>
    intro m hm
    exact ⟨[], by simp, by simpa using hm⟩
  | append_singleton w a ih =>
    intro m hm
    have hcw : ∀ d ∈ w, pyWS d = true :=
      fun d hd => hw d (List.mem_append.mpr (Or.inl hd))
    have hca : pyWS a = true := hw a (List.mem_append.mpr (Or.inr (by simp)))
    obtain ⟨b, hb, hmem⟩ := ih hcw m hm
    rw [← List.append_assoc]
    by_cases hc : a = '\n'
    · subst hc
      rw [splitOn_concat_sep]
      exact ⟨b, hb, List.mem_append.mpr (Or.inl hmem)⟩
    · rw [splitOn_concat_ne hc]
      rcases mem_appendLast a _ _ hmem with h | h
      · exact ⟨b, hb, h⟩
      · refine ⟨b ++ [a], ?_, ?_⟩
        · intro d hd
          rcases List.mem_append.mp hd with h2 | h2
          · exact hb d h2
          · rw [List.mem_singleton] at h2; subst h2; exact hca
        · rw [← List.append_assoc]
          exact h

/-- Every line of the stripped text is a line of the original text with a
whitespace prefix and suffix removed. -/
theorem lines_of_strip (s : List Char) :
    ∀ m ∈ splitOn '\n' (pyStrip s), ∃ a b,
      (∀ c ∈ a, pyWS c = true) ∧ (∀ c ∈ b, pyWS c = true) ∧
      a ++ (m ++ b) ∈ splitOn '\n' s := by
  intro m hm
  obtain ⟨w, hw, he⟩ := exists_ws_prefix s
  obtain ⟨w2, hw2, he2⟩ := exists_ws_suffix (pyStripLeft s)
  have hps : pyStripRight (pyStripLeft s) = pyStrip s := rfl
  rw [hps] at he2
  obtain ⟨b, hb, hmem⟩ := lines_ws_suffix hw2 (pyStrip s) m hm
  rw [← he2] at hmem
  obtain ⟨a, ha, hmem2⟩ := lines_ws_prefix hw (pyStripLeft s) (m ++ b) hmem
  rw [← pyStripLeft] at he
  rw [← he] at hmem2
  exact ⟨a, b, ha, hb, hmem2⟩

theorem splitOn_replicate_sep (sep : Char) :
    ∀ (k : Nat) (R : List Char),
      splitOn sep (List.replicate k sep ++ R)
        = List.replicate k [] ++ splitOn sep R := by
  intro k
  induction k with
  | zero => intro R; rfl
  | succ k ih =>
    intro R
    rw [List.replicate_succ, List.cons_append, splitOn_cons_of_sep, ih]
    rfl

/-- How the blank-line collapse rearranges the line decomposition: the
first line is unchanged, and every later line of the collapsed text is
either empty or a later line of the original text. -/
theorem lines_specCollapse : ∀ s : List Char,
    (splitOn '\n' (specCollapse s)).headI = (splitOn '\n' s).headI ∧
    ∀ m ∈ (splitOn '\n' (specCollapse s)).tail,
      m = [] ∨ m ∈ (splitOn '\n' s).tail
  | [] => by
    constructor
    · simp [specCollapse]
    · intro m hm
      simp [specCollapse, splitOn] at hm
  | c0 :: cs => by
    by_cases h0 : c0 = '\n'
    · subst h0
      have hcs : cs = List.replicate
          (cs.takeWhile (fun d => d == '\n')).length '\n'
          ++ cs.dropWhile (fun d => d == '\n') := by
        conv_lhs => rw [← List.takeWhile_append_dropWhile
          (fun d => d == '\n') cs]
        rw [← takeWhile_nl_replicate]
      have hsubD : ∀ m ∈ splitOn '\n' (cs.dropWhile (fun d => d == '\n')),
          m ∈ splitOn '\n' cs := by
        intro m hm
        have hre : splitOn '\n' cs = List.replicate
            (cs.takeWhile (fun d => d == '\n')).length []
            ++ splitOn '\n' (cs.dropWhile (fun d => d == '\n')) := by
          conv_lhs => rw [hcs]
          rw [splitOn_replicate_sep]
        rw [hre]
        exact List.mem_append.mpr (Or.inr hm)
      have hK : (1 : Nat) ≤ (if 3 ≤ 1 +
          (cs.takeWhile (fun d => d == '\n')).length then 2
          else 1 + (cs.takeWhile (fun d => d == '\n')).length) := by
        split <;> omega
      have ihD := lines_specCollapse (cs.dropWhile (fun d => d == '\n'))
      simp only [specCollapse, if_pos rfl, if_true]
      rw [splitOn_replicate_sep, splitOn_cons_of_sep]
      obtain ⟨K, hKe⟩ : ∃ K, (if 3 ≤ 1 +
          (cs.takeWhile (fun d => d == '\n')).length then 2
          else 1 + (cs.takeWhile (fun d => d == '\n')).length) = K + 1 :=
        ⟨_, (Nat.succ_pred_eq_of_pos hK).symm⟩
      rw [hKe]
      constructor
      · rw [List.replicate_succ]
        rfl
      · rw [List.replicate_succ]
        intro m hm
        simp only [List.cons_append, List.tail_cons] at hm
        rcases List.mem_append.mp hm with h | h
        · exact Or.inl (List.eq_of_mem_replicate h)
        · simp only [List.tail_cons]
          rcases List.mem_cons.mp ((headI_cons_tail (splitOn_ne_nil '\n'
              (specCollapse (cs.dropWhile (fun d => d == '\n'))))).symm ▸ h)
            with h2 | h2
          · rw [h2, ihD.1]
            exact Or.inr (hsubD _ (mem_headI (splitOn_ne_nil '\n' _)))
          · rcases ihD.2 m h2 with h3 | h3
            · exact Or.inl h3
            · exact Or.inr (hsubD m (List.mem_of_mem_tail h3))
    · have ihc := lines_specCollapse cs
      simp only [specCollapse, if_neg h0]
      rw [splitOn_cons_of_ne h0, splitOn_cons_of_ne h0]
      constructor
      · simp only [List.headI_cons]
        rw [ihc.1]
      · intro m hm
        simp only [List.tail_cons] at hm ⊢
        exact ihc.2 m hm
termination_by s => s.length
decreasing_by
  all_goals simp only [List.length_cons]
  all_goals first
    | omega
    | (have h2 := (List.dropWhile_sublist (l := cs)
        (fun d => d == '\n')).length_le
       omega)

/-- Every line of the collapsed text is empty or a line of the original
text. -/
theorem lines_collapseNL {s m : List Char}
    (hm : m ∈ splitOn '\n' (collapseNL s)) : m = [] ∨ m ∈ splitOn '\n' s := by
  rw [collapseNL_eq_spec] at hm
  rcases List.mem_cons.mp ((headI_cons_tail (splitOn_ne_nil '\n'
      (specCollapse s))).symm ▸ hm) with h | h
  · rw [h, (lines_specCollapse s).1]
    exact Or.inr (mem_headI (splitOn_ne_nil '\n' s))
  · rcases (lines_specCollapse s).2 m h with h2 | h2
    · exact Or.inl h2
    · exact Or.inr (List.mem_of_mem_tail h2)

theorem uint32_le_iff {a b : UInt32} : a ≤ b ↔ a.toNat ≤ b.toNat := Iff.rfl

theorem uint32_eq_iff {a b : UInt32} : a = b ↔ a.toNat = b.toNat :=
  ⟨fun h => h ▸ rfl, fun h => UInt32.ext h⟩

/-- The numeric classification of `str.strip` whitespace code points. -/
theorem pyWS_val {c : Char} (h : pyWS c = true) :
    c.val.toNat = 9 ∨ c.val.toNat = 10 ∨ c.val.toNat = 13 ∨
    c.val.toNat = 32 ∨ c.val.toNat = 11 ∨ c.val.toNat = 12 ∨
    (28 ≤ c.val.toNat ∧ c.val.toNat ≤ 31) ∨ c.val.toNat = 133 ∨
    c.val.toNat = 160 ∨ c.val.toNat = 5760 ∨
    (8192 ≤ c.val.toNat ∧ c.val.toNat ≤ 8202) ∨ c.val.toNat = 8232 ∨
    c.val.toNat = 8233 ∨ c.val.toNat = 8239 ∨ c.val.toNat = 8287 ∨
    c.val.toNat = 12288 := by
  simp [pyWS, Char.ext_iff, uint32_le_iff, uint32_eq_iff, UInt32.size] at h
  omega

/-- A whitespace character fails every character test of the corruption
scanners. -/
theorem ws_tests {c : Char} (h : pyWS c = true) :
    c ≠ '\\' ∧ c ≠ 'x' ∧ isHexDigit c = false ∧ c ≠ '<' ∧ c ≠ '>' ∧
    isPunct c = false ∧ isBlock c = false ∧ isCodeSym c = false ∧
    c ≠ 'f' ∧ c ≠ 'h' ∧ c ≠ 'i' ∧ c ≠ 'g' ∧ c ≠ '$' ∧ c ≠ '.' ∧
    c ≠ '@' := by
  have hv := pyWS_val h
  refine ⟨?_, ?_, ?_, ?_, ?_, ?_, ?_, ?_, ?_, ?_, ?_, ?_, ?_, ?_, ?_⟩
  case refine_3 =>
    cases hh : isHexDigit c
    · rfl
    · exfalso
      simp [isHexDigit, Char.le_def, uint32_le_iff, UInt32.size] at hh
      omega
  case refine_6 =>
    cases hh : isPunct c
    · rfl
    · exfalso
      simp [isPunct, Char.ext_iff, uint32_eq_iff, UInt32.size] at hh
      omega
  case refine_7 =>
    cases hh : isBlock c
    · rfl
    · exfalso
      simp [isBlock, Char.ext_iff, uint32_eq_iff, UInt32.size] at hh
      omega
  case refine_8 =>
    cases hh : isCodeSym c
    · rfl
    · exfalso
      simp [isCodeSym, Char.ext_iff, uint32_eq_iff, UInt32.size] at hh
      omega
  all_goals
    intro e
    subst e
    revert h
    decide

theorem countHexEsc_small {s : List Char} (h : s.length < 4) :
    countHexEsc s = 0 := by
  rcases s with _ | ⟨a, _ | ⟨b, _ | ⟨x, _ | ⟨d, r⟩⟩⟩⟩ <;>
    first
      | rfl
      | (exfalso; simp only [List.length_cons] at h; omega)

theorem countHexEsc_ws : ∀ u : List Char, (∀ c ∈ u, pyWS c = true) →
    countHexEsc u = 0
  | a :: b :: x :: d :: rest, hu => by
    have ha := (ws_tests (hu a (by simp))).1
    simp only [countHexEsc, if_neg (by simp [ha] : ¬(a = '\\' ∧ b = '\\' ∧
      x = 'x' ∧ isHexDigit d = true))]
    exact countHexEsc_ws (b :: x :: d :: rest)
      (fun c hc => hu c (List.mem_cons.mpr (Or.inr hc)))
  | [], _ => rfl
  | [a], _ => rfl
  | [a, b], _ => rfl
  | [a, b, x], _ => rfl

theorem countHexEsc_suffix {w : List Char} (hw : ∀ c ∈ w, pyWS c = true) :
    ∀ s : List Char, countHexEsc (s ++ w) = countHexEsc s
  | a :: b :: x :: d :: rest => by
    simp only [List.cons_append, countHexEsc, List.append_eq]
    split
    · rw [countHexEsc_suffix hw rest]
    · exact countHexEsc_suffix hw (b :: x :: d :: rest)
  | [] => countHexEsc_ws w hw
  | [a] => by
    rcases w with _ | ⟨e1, _ | ⟨e2, _ | ⟨e3, r⟩⟩⟩
    · rfl
    · rfl
    · rfl
    · have he := (ws_tests (hw e1 (by simp))).1
      show countHexEsc (a :: e1 :: e2 :: e3 :: r) = 0
      simp only [countHexEsc, if_neg (by simp [he] : ¬(a = '\\' ∧
        e1 = '\\' ∧ e2 = 'x' ∧ isHexDigit e3 = true))]
      exact countHexEsc_ws _ hw
  | [a, b] => by
    rcases w with _ | ⟨e1, _ | ⟨e2, r⟩⟩
    · rfl
    · rfl
    · have he1 : e1 ≠ 'x' := (ws_tests (hw e1 (by simp))).2.1
      show countHexEsc (a :: b :: e1 :: e2 :: r) = 0
      simp only [countHexEsc, if_neg (by simp [he1] : ¬(a = '\\' ∧
        b = '\\' ∧ e1 = 'x' ∧ isHexDigit e2 = true))]
      have h2 := countHexEsc_suffix hw [b]
      simpa using h2
  | [a, b, x] => by
    rcases w with _ | ⟨e1, r⟩
    · rfl
    · have he : isHexDigit e1 = false := (ws_tests (hw e1 (by simp))).2.2.1
      show countHexEsc (a :: b :: x :: e1 :: r) = 0
      simp only [countHexEsc, if_neg (by simp [he] : ¬(a = '\\' ∧
        b = '\\' ∧ x = 'x' ∧ isHexDigit e1 = true))]
      have h2 := countHexEsc_suffix hw [b, x]
      simpa using h2
termination_by s => s.length

theorem countHexEsc_prefix {a : List Char} (ha : ∀ c ∈ a, pyWS c = true)
    (s : List Char) : countHexEsc (a ++ s) = countHexEsc s := by
  induction a with
  | nil => rfl
  | cons w a ih =>
    have hwne := (ws_tests (ha w (by simp))).1
    have ha2 : ∀ c ∈ a, pyWS c = true :=
      fun c hc => ha c (List.mem_cons.mpr (Or.inr hc))
    have hlen : s.length ≤ (a ++ s).length := by
      simp only [List.length_append]
      omega
    rcases hs : a ++ s with _ | ⟨e1, _ | ⟨e2, _ | ⟨e3, r⟩⟩⟩
    · have hs0 : s = [] := (List.append_eq_nil.mp hs).2
      subst hs0
      rw [List.cons_append, hs]
      rfl
    · rw [List.cons_append, hs, countHexEsc_small (by simp),
        countHexEsc_small (s := s) (by rw [hs] at hlen; simp at hlen; omega)]
    · rw [List.cons_append, hs, countHexEsc_small (by simp),
        countHexEsc_small (s := s) (by rw [hs] at hlen; simp at hlen; omega)]
    · rw [List.cons_append, hs]
      simp only [countHexEsc, if_neg (by simp [hwne] : ¬(w = '\\' ∧
        e1 = '\\' ∧ e2 = 'x' ∧ isHexDigit e3 = true))]
      rw [← hs]
      exact ih ha2

theorem countHtmlAux_ws {w : List Char} (hw : ∀ c ∈ w, pyWS c = true) :
    ∀ st : Bool, countHtmlAux st w = 0 := by
  induction w with
  | nil => intro st; cases st <;> rfl
  | cons c cs ih =>
    intro st
    have h1 := (ws_tests (hw c (by simp))).2.2.2.1
    have h2 := (ws_tests (hw c (by simp))).2.2.2.2.1
    have ih2 := ih (fun d hd => hw d (List.mem_cons.mpr (Or.inr hd)))
    cases st
    · simp only [countHtmlAux, if_neg h1]
      exact ih2 false
    · simp only [countHtmlAux, if_neg h2]
      exact ih2 true

theorem countHtmlAux_suffix {w : List Char} (hw : ∀ c ∈ w, pyWS c = true)
    (s : List Char) :
    ∀ st : Bool, countHtmlAux st (s ++ w) = countHtmlAux st s := by
  induction s with
  | nil =>
    intro st
    rw [List.nil_append, countHtmlAux_ws hw st]
    cases st <;> rfl
  | cons c cs ih =>
    intro st
    cases st
    · simp only [List.cons_append, countHtmlAux, List.append_eq]
      split
      · exact ih true
      · exact ih false
    · simp only [List.cons_append, countHtmlAux, List.append_eq]
      split
      · rw [ih false]
      · exact ih true

theorem countHtml_prefix {a : List Char} (ha : ∀ c ∈ a, pyWS c = true)
    (s : List Char) : countHtml (a ++ s) = countHtml s := by
  induction a with
  | nil => rfl
  | cons c cs ih =>
    have h1 := (ws_tests (ha c (by simp))).2.2.2.1
    unfold countHtml at ih ⊢
    simp only [List.cons_append, countHtmlAux, if_neg h1]
    exact ih (fun d hd => ha d (List.mem_cons.mpr (Or.inr hd)))

theorem countBlocks_pad {a b : List Char} (ha : ∀ c ∈ a, pyWS c = true)
    (hb : ∀ c ∈ b, pyWS c = true) (s : List Char) :
    countBlocks (a ++ s ++ b) = countBlocks s := by
  unfold countBlocks
  have hza : List.countP isBlock a = 0 :=
    List.countP_eq_zero.mpr (fun c hc => by
      simp [(ws_tests (ha c hc)).2.2.2.2.2.2.1])
  have hzb : List.countP isBlock b = 0 :=
    List.countP_eq_zero.mpr (fun c hc => by
      simp [(ws_tests (hb c hc)).2.2.2.2.2.2.1])
  rw [List.countP_append, List.countP_append, hza, hzb]
  omega

theorem punctAux_ws {w : List Char} (hw : ∀ c ∈ w, pyWS c = true) :
    ∀ n : Nat, punctAux n w = if 5 ≤ n then 1 else 0 := by
  induction w with
  | nil => intro n; rfl
  | cons c cs ih =>
    intro n
    have h1 := (ws_tests (hw c (by simp))).2.2.2.2.2.1
    have ih2 := ih (fun d hd => hw d (List.mem_cons.mpr (Or.inr hd)))
    simp only [punctAux, h1, Bool.false_eq_true, if_false]
    rw [ih2 0]
    simp

theorem punctAux_suffix {w : List Char} (hw : ∀ c ∈ w, pyWS c = true)
    (s : List Char) : ∀ n : Nat, punctAux n (s ++ w) = punctAux n s := by
  induction s with
  | nil =>
    intro n
    rw [List.nil_append, punctAux_ws hw n]
    rfl
  | cons c cs ih =>
    intro n
    simp only [List.cons_append, punctAux, List.append_eq]
    split
    · exact ih (n + 1)
    · rw [ih 0]

theorem punctAux_prefix {a : List Char} (ha : ∀ c ∈ a, pyWS c = true)
    (s : List Char) : punctAux 0 (a ++ s) = punctAux 0 s := by
  induction a with
  | nil => rfl
  | cons c cs ih =>
    have h1 := (ws_tests (ha c (by simp))).2.2.2.2.2.1
    simp only [List.cons_append, punctAux, h1, Bool.false_eq_true, if_false,
      List.append_eq]
    rw [ih (fun d hd => ha d (List.mem_cons.mpr (Or.inr hd)))]
    simp

theorem matchLit_some_length : ∀ (lit s r : List Char),
    matchLit lit s = some r → r.length + lit.length = s.length
  | [], s, r, h => by
    simp only [matchLit, Option.some.injEq] at h
    subst h
    simp
  | p :: ps, [], r, h => by simp [matchLit] at h
  | p :: ps, c :: cs, r, h => by
    simp only [matchLit] at h
    split at h
    · have := matchLit_some_length ps cs r h
      simp only [List.length_cons]
      omega
    · exact absurd h (by simp)

theorem matchLit_head_ne {p c : Char} (h : p ≠ c) (ps u : List Char) :
    matchLit (p :: ps) (c :: u) = none := by
  simp [matchLit, h]

theorem matchLit_append_ws {w : List Char} (hw : ∀ c ∈ w, pyWS c = true) :
    ∀ (lit s : List Char), (∀ p ∈ lit, pyWS p = false) →
    matchLit lit (s ++ w) = (matchLit lit s).map (· ++ w)
  | [], s, _ => rfl
  | p :: ps, [], hlit => by
    simp only [List.nil_append, matchLit, Option.map_none']
    cases w with
    | nil => rfl
    | cons w0 w2 =>
      have hp : p ≠ w0 := by
        intro e
        have := hw w0 (by simp)
        rw [← e] at this
        rw [hlit p (by simp)] at this
        cases this
      exact matchLit_head_ne hp ps w2
  | p :: ps, c :: cs, hlit => by
    simp only [List.cons_append, matchLit]
    split
    · exact matchLit_append_ws hw ps cs
        (fun q hq => hlit q (List.mem_cons.mpr (Or.inr hq)))
    · rfl

theorem protoMatch_map {w : List Char} (hw : ∀ c ∈ w, pyWS c = true)
    (s : List Char) : protoMatch (s ++ w) = (protoMatch s).map (· ++ w) := by
  unfold protoMatch
  rw [matchLit_append_ws hw _ _ (by decide),
    matchLit_append_ws hw _ _ (by decide),
    matchLit_append_ws hw _ _ (by decide),
    matchLit_append_ws hw _ _ (by decide),
    matchLit_append_ws hw _ _ (by decide)]
  cases matchLit "file://".toList s
  · cases matchLit "ftp://".toList s
    · cases matchLit "hidden_params".toList s
      · cases matchLit "innerHTML".toList s
        · rfl
        · rfl
      · rfl
    · rfl
  · rfl

theorem protoMatch_ws_head {c : Char} (hc : pyWS c = true) (u : List Char) :
    protoMatch (c :: u) = none := by
  obtain ⟨-, -, -, -, -, -, -, -, hf, hh, hi, hg, -, -, -⟩ := ws_tests hc
  unfold protoMatch
  rw [show ("file://".toList) = 'f' :: "ile://".toList from rfl,
    matchLit_head_ne (Ne.symm hf),
    show ("ftp://".toList) = 'f' :: "tp://".toList from rfl,
    matchLit_head_ne (Ne.symm hf),
    show ("hidden_params".toList) = 'h' :: "idden_params".toList from rfl,
    matchLit_head_ne (Ne.symm hh),
    show ("innerHTML".toList) = 'i' :: "nnerHTML".toList from rfl,
    matchLit_head_ne (Ne.symm hi),
    show ("getElementById".toList) = 'g' :: "etElementById".toList from rfl,
    matchLit_head_ne (Ne.symm hg)]

theorem protoMatch_some_length {s r : List Char}
    (h : protoMatch s = some r) : r.length < s.length := by
  unfold protoMatch at h
  cases h1 : matchLit "file://".toList s with
  | some v =>
    rw [h1] at h
    simp only [Option.some.injEq] at h
    subst h
    have := matchLit_some_length _ _ _ h1
    simp only [show ("file://".toList).length = 7 from rfl] at this
    omega
  | none =>
    rw [h1] at h
    cases h2 : matchLit "ftp://".toList s with
    | some v =>
      rw [h2] at h
      simp only [Option.some.injEq] at h
      subst h
      have := matchLit_some_length _ _ _ h2
      simp only [show ("ftp://".toList).length = 6 from rfl] at this
      omega
    | none =>
      rw [h2] at h
      cases h3 : matchLit "hidden_params".toList s with
      | some v =>
        rw [h3] at h
        simp only [Option.some.injEq] at h
        subst h
        have := matchLit_some_length _ _ _ h3
        simp only [show ("hidden_params".toList).length = 13 from rfl] at this
        omega
      | none =>
        rw [h3] at h
        cases h4 : matchLit "innerHTML".toList s with
        | some v =>
          rw [h4] at h
          simp only [Option.some.injEq] at h
          subst h
          have := matchLit_some_length _ _ _ h4
          simp only [show ("innerHTML".toList).length = 9 from rfl] at this
          omega
        | none =>
          rw [h4] at h
          have := matchLit_some_length _ _ _ h
          simp only [show ("getElementById".toList).length = 14 from rfl]
            at this
          omega

theorem protoGo_nil : ∀ f : Nat, protoGo f [] = 0
  | 0 => rfl
  | _ + 1 => rfl

theorem protoGo_ws {u : List Char} (hu : ∀ c ∈ u, pyWS c = true) :
    ∀ f : Nat, protoGo f u = 0 := by
  induction u with
  | nil => intro f; exact protoGo_nil f
  | cons c cs ih =>
    intro f
    cases f with
    | zero => rfl
    | succ g =>
      simp only [protoGo, protoMatch_ws_head (hu c (by simp))]
      exact ih (fun d hd => hu d (List.mem_cons.mpr (Or.inr hd))) g

theorem protoGo_stable : ∀ (s : List Char) (f1 f2 : Nat),
    s.length ≤ f1 → s.length ≤ f2 → protoGo f1 s = protoGo f2 s
  | [], f1, f2, _, _ => by rw [protoGo_nil, protoGo_nil]
  | c :: cs, f1, f2, h1, h2 => by
    obtain ⟨g1, rfl⟩ : ∃ g, f1 = g + 1 :=
      ⟨f1 - 1, by simp only [List.length_cons] at h1; omega⟩
    obtain ⟨g2, rfl⟩ : ∃ g, f2 = g + 1 :=
      ⟨f2 - 1, by simp only [List.length_cons] at h2; omega⟩
    cases hp : protoMatch (c :: cs) with
    | some rest =>
      have hlen := protoMatch_some_length hp
      simp only [List.length_cons] at h1 h2 hlen
      simp only [protoGo, hp]
      rw [protoGo_stable rest g1 g2 (by omega) (by omega)]
    | none =>
      simp only [List.length_cons] at h1 h2
      simp only [protoGo, hp]
      exact protoGo_stable cs g1 g2 (by omega) (by omega)
termination_by s => s.length
decreasing_by
  all_goals simp only [List.length_cons] at *
  all_goals omega

theorem countProtocols_suffix {w : List Char}
    (hw : ∀ c ∈ w, pyWS c = true) :
    ∀ s : List Char, countProtocols (s ++ w) = countProtocols s
  | [] => by
    rw [List.nil_append]
    unfold countProtocols
    rw [protoGo_ws hw]
    rfl
  | c :: cs => by
    unfold countProtocols
    rw [List.cons_append]
    have hshow : protoGo (c :: (cs ++ w)).length (c :: (cs ++ w))
        = protoGo ((cs ++ w).length + 1) (c :: (cs ++ w)) := by
      rw [List.length_cons]
    rw [hshow]
    have hshow2 : protoGo (c :: cs).length (c :: cs)
        = protoGo (cs.length + 1) (c :: cs) := by
      rw [List.length_cons]
    rw [hshow2]
    simp only [protoGo]
    rw [show c :: (cs ++ w) = (c :: cs) ++ w from rfl,
      protoMatch_map hw (c :: cs)]
    cases hp : protoMatch (c :: cs) with
    | some rest =>
      have hlen := protoMatch_some_length hp
      simp only [List.length_cons] at hlen
      simp only [protoGo, Option.map_some']
      have e1 : protoGo (cs ++ w).length (rest ++ w)
          = countProtocols (rest ++ w) := by
        unfold countProtocols
        exact protoGo_stable (rest ++ w) _ _
          (by simp only [List.length_append]; omega) (le_refl _)
      have e2 : protoGo cs.length rest = countProtocols rest := by
        unfold countProtocols
        exact protoGo_stable rest _ _ (by omega) (le_refl _)
      rw [e1, e2, countProtocols_suffix hw rest]
    | none =>
      simp only [protoGo, Option.map_none']
      have e1 : protoGo (cs ++ w).length (cs ++ w)
          = countProtocols (cs ++ w) := rfl
      have e2 : protoGo cs.length cs = countProtocols cs := rfl
      rw [e1, e2, countProtocols_suffix hw cs]
termination_by s => s.length
decreasing_by
  all_goals simp only [List.length_cons, List.length_append] at *
  all_goals omega

theorem countProtocols_prefix {a : List Char}
    (ha : ∀ c ∈ a, pyWS c = true) (s : List Char) :
    countProtocols (a ++ s) = countProtocols s := by
  induction a with
  | nil => rfl
  | cons c cs ih =>
    unfold countProtocols
    rw [List.cons_append]
    have hshow : protoGo (c :: (cs ++ s)).length (c :: (cs ++ s))
        = protoGo ((cs ++ s).length + 1) (c :: (cs ++ s)) := by
      rw [List.length_cons]
    rw [hshow]
    simp only [protoGo, protoMatch_ws_head (ha c (by simp))]
    have e1 : protoGo (cs ++ s).length (cs ++ s)
        = countProtocols (cs ++ s) := rfl
    rw [e1, ih (fun d hd => ha d (List.mem_cons.mpr (Or.inr hd)))]
    rfl

theorem codeMatch_map {w : List Char} (hw : ∀ c ∈ w, pyWS c = true)
    (s : List Char) : codeMatch (s ++ w) = (codeMatch s).map (· ++ w) := by
  unfold codeMatch
  rw [matchLit_append_ws hw _ _ (by decide),
    matchLit_append_ws hw _ _ (by decide),
    matchLit_append_ws hw _ _ (by decide)]
  cases matchLit "$(".toList s
  · cases matchLit ".entrySet(".toList s
    · cases matchLit "@@".toList s
      · cases s with
        | nil =>
          simp only [Option.map_none', List.nil_append]
          cases w with
          | nil => rfl
          | cons w0 w2 =>
            have hsym := (ws_tests (hw w0 (by simp))).2.2.2.2.2.2.2.1
            simp [hsym]
        | cons c cs =>
          simp only [List.cons_append, Option.map_none']
          split
          · rfl
          · rfl
      · rfl
    · rfl
  · rfl

theorem codeMatch_ws_head {c : Char} (hc : pyWS c = true) (u : List Char) :
    codeMatch (c :: u) = none := by
  obtain ⟨-, -, -, -, -, -, -, hsym, -, -, -, -, hds, hdot, hat⟩ :=
    ws_tests hc
  unfold codeMatch
  rw [show ("$(".toList) = '$' :: "(".toList from rfl,
    matchLit_head_ne (Ne.symm hds),
    show (".entrySet(".toList) = '.' :: "entrySet(".toList from rfl,
    matchLit_head_ne (Ne.symm hdot),
    show ("@@".toList) = '@' :: "@".toList from rfl,
    matchLit_head_ne (Ne.symm hat)]
  simp [hsym]

theorem codeMatch_some_length {s r : List Char}
    (h : codeMatch s = some r) : r.length < s.length := by
  unfold codeMatch at h
  cases h1 : matchLit "$(".toList s with
  | some v =>
    rw [h1] at h
    simp only [Option.some.injEq] at h
    subst h
    have := matchLit_some_length _ _ _ h1
    simp only [show ("$(".toList).length = 2 from rfl] at this
    omega
  | none =>
    rw [h1] at h
    cases h2 : matchLit ".entrySet(".toList s with
    | some v =>
      rw [h2] at h
      simp only [Option.some.injEq] at h
      subst h
      have := matchLit_some_length _ _ _ h2
      simp only [show (".entrySet(".toList).length = 10 from rfl] at this
      omega
    | none =>
      rw [h2] at h
      cases h3 : matchLit "@@".toList s with
      | some v =>
        rw [h3] at h
        simp only [Option.some.injEq] at h
        subst h
        have := matchLit_some_length _ _ _ h3
        simp only [show ("@@".toList).length = 2 from rfl] at this
        omega
      | none =>
        rw [h3] at h
        cases s with
        | nil => exact absurd h (by simp)
        | cons c cs =>
          simp only at h
          split at h
          · simp only [Option.some.injEq] at h
            subst h
            simp only [List.length_cons]
            omega
          · exact absurd h (by simp)

theorem codeGo_nil : ∀ f : Nat, codeGo f [] = 0
  | 0 => rfl
  | _ + 1 => rfl

theorem codeGo_ws {u : List Char} (hu : ∀ c ∈ u, pyWS c = true) :
    ∀ f : Nat, codeGo f u = 0 := by
  induction u with
  | nil => intro f; exact codeGo_nil f
  | cons c cs ih =>
    intro f
    cases f with
    | zero => rfl
    | succ g =>
      simp only [codeGo, codeMatch_ws_head (hu c (by simp))]
      exact ih (fun d hd => hu d (List.mem_cons.mpr (Or.inr hd))) g

theorem codeGo_stable : ∀ (s : List Char) (f1 f2 : Nat),
    s.length ≤ f1 → s.length ≤ f2 → codeGo f1 s = codeGo f2 s
  | [], f1, f2, _, _ => by rw [codeGo_nil, codeGo_nil]
  | c :: cs, f1, f2, h1, h2 => by
    obtain ⟨g1, rfl⟩ : ∃ g, f1 = g + 1 :=
      ⟨f1 - 1, by simp only [List.length_cons] at h1; omega⟩
    obtain ⟨g2, rfl⟩ : ∃ g, f2 = g + 1 :=
      ⟨f2 - 1, by simp only [List.length_cons] at h2; omega⟩
    cases hp : codeMatch (c :: cs) with
    | some rest =>
      have hlen := codeMatch_some_length hp
      simp only [List.length_cons] at h1 h2 hlen
      simp only [codeGo, hp]
      rw [codeGo_stable rest g1 g2 (by omega) (by omega)]
    | none =>
      simp only [List.length_cons] at h1 h2
      simp only [codeGo, hp]
      exact codeGo_stable cs g1 g2 (by omega) (by omega)
termination_by s => s.length
decreasing_by
  all_goals simp only [List.length_cons] at *
  all_goals omega

theorem countCodePat_suffix {w : List Char}
    (hw : ∀ c ∈ w, pyWS c = true) :
    ∀ s : List Char, countCodePat (s ++ w) = countCodePat s
  | [] => by
    rw [List.nil_append]
    unfold countCodePat
    rw [codeGo_ws hw]
    rfl
  | c :: cs => by
    unfold countCodePat
    rw [List.cons_append]
    have hshow : codeGo (c :: (cs ++ w)).length (c :: (cs ++ w))
        = codeGo ((cs ++ w).length + 1) (c :: (cs ++ w)) := by
      rw [List.length_cons]
    rw [hshow]
    have hshow2 : codeGo (c :: cs).length (c :: cs)
        = codeGo (cs.length + 1) (c :: cs) := by
      rw [List.length_cons]
    rw [hshow2]
    simp only [codeGo]
    rw [show c :: (cs ++ w) = (c :: cs) ++ w from rfl,
      codeMatch_map hw (c :: cs)]
    cases hp : codeMatch (c :: cs) with
    | some rest =>
      have hlen := codeMatch_some_length hp
      simp only [List.length_cons] at hlen
      simp only [codeGo, Option.map_some']
      have e1 : codeGo (cs ++ w).length (rest ++ w)
          = countCodePat (rest ++ w) := by
        unfold countCodePat
        exact codeGo_stable (rest ++ w) _ _
          (by simp only [List.length_append]; omega) (le_refl _)
      have e2 : codeGo cs.length rest = countCodePat rest := by
        unfold countCodePat
        exact codeGo_stable rest _ _ (by omega) (le_refl _)
      rw [e1, e2, countCodePat_suffix hw rest]
    | none =>
      simp only [codeGo, Option.map_none']
      have e1 : codeGo (cs ++ w).length (cs ++ w)
          = countCodePat (cs ++ w) := rfl
      have e2 : codeGo cs.length cs = countCodePat cs := rfl
      rw [e1, e2, countCodePat_suffix hw cs]
termination_by s => s.length
decreasing_by
  all_goals simp only [List.length_cons, List.length_append] at *
  all_goals omega

theorem countCodePat_prefix {a : List Char}
    (ha : ∀ c ∈ a, pyWS c = true) (s : List Char) :
    countCodePat (a ++ s) = countCodePat s := by
  induction a with
  | nil => rfl
  | cons c cs ih =>
    unfold countCodePat
    rw [List.cons_append]
    have hshow : codeGo (c :: (cs ++ s)).length (c :: (cs ++ s))
        = codeGo ((cs ++ s).length + 1) (c :: (cs ++ s)) := by
      rw [List.length_cons]
    rw [hshow]
    simp only [codeGo, codeMatch_ws_head (ha c (by simp))]
    have e1 : codeGo (cs ++ s).length (cs ++ s)
        = countCodePat (cs ++ s) := rfl
    rw [e1, ih (fun d hd => ha d (List.mem_cons.mpr (Or.inr hd)))]
    rfl

/-- The corruption score ignores surrounding whitespace. -/
theorem corruptionScore_pad {a b : List Char}
    (ha : ∀ c ∈ a, pyWS c = true) (hb : ∀ c ∈ b, pyWS c = true)
    (s : List Char) : corruptionScore (a ++ s ++ b) = corruptionScore s := by
  have h1 : countHexEsc (a ++ s ++ b) = countHexEsc s := by
    rw [countHexEsc_suffix hb, countHexEsc_prefix ha]
  have h2 : countHtml (a ++ s ++ b) = countHtml s := by
    unfold countHtml
    rw [countHtmlAux_suffix hb (a ++ s) false]
    have := countHtml_prefix ha s
    unfold countHtml at this
    exact this
  have h3 : countProtocols (a ++ s ++ b) = countProtocols s := by
    rw [countProtocols_suffix hb, countProtocols_prefix ha]
  have h4 : countBlocks (a ++ s ++ b) = countBlocks s := countBlocks_pad ha hb s
  have h5 : countPunctRuns (a ++ s ++ b) = countPunctRuns s := by
    unfold countPunctRuns
    rw [punctAux_suffix hb (a ++ s) 0, punctAux_prefix ha s]
  have h6 : countCodePat (a ++ s ++ b) = countCodePat s := by
    rw [countCodePat_suffix hb, countCodePat_prefix ha]
  unfold corruptionScore
  rw [h1, h2, h3, h4, h5, h6]

/-- Stripping ignores surrounding whitespace. -/
theorem pyStrip_pad {a b : List Char}
    (ha : ∀ c ∈ a, pyWS c = true) (hb : ∀ c ∈ b, pyWS c = true)
    (s : List Char) : pyStrip (a ++ s ++ b) = pyStrip s := by
  rw [pyStrip_suffix_ws hb, pyStrip_prefix_ws ha]

theorem subHex_length : ∀ s : List Char, (subHex s).length ≤ s.length
  | a :: b :: x :: d1 :: d2 :: rest => by
    simp only [subHex]
    split
    · have := subHex_length rest
      simp only [List.length_cons]
      omega
    · have := subHex_length (b :: x :: d1 :: d2 :: rest)
      simp only [List.length_cons] at this ⊢
      omega
  | [] => le_refl _
  | [a] => le_refl _
  | [a, b] => le_refl _
  | [a, b, x] => le_refl _
  | [a, b, x, d] => le_refl _

theorem subUni_length : ∀ s : List Char, (subUni s).length ≤ s.length
  | a :: b :: x :: d1 :: d2 :: d3 :: d4 :: rest => by
    simp only [subUni]
    split
    · have := subUni_length rest
      simp only [List.length_cons]
      omega
    · have := subUni_length (b :: x :: d1 :: d2 :: d3 :: d4 :: rest)
      simp only [List.length_cons] at this ⊢
      omega
  | [] => le_refl _
  | [a] => le_refl _
  | [a, b] => le_refl _
  | [a, b, x] => le_refl _
  | [a, b, x, d] => le_refl _
  | [a, b, x, d, e] => le_refl _
  | [a, b, x, d, e, f] => le_refl _

theorem hexWin_append {u : List Char} (h : hexWin u = true)
    (v : List Char) : hexWin (u ++ v) = true := by
  rcases u with _ | ⟨a, _ | ⟨b, _ | ⟨x, _ | ⟨d1, _ | ⟨d2, r⟩⟩⟩⟩⟩
  · exact absurd h (by simp [hexWin])
  · exact absurd h (by simp [hexWin])
  · exact absurd h (by simp [hexWin])
  · exact absurd h (by simp [hexWin])
  · exact absurd h (by simp [hexWin])
  · exact h

theorem uniWin_append {u : List Char} (h : uniWin u = true)
    (v : List Char) : uniWin (u ++ v) = true := by
  rcases u with
    _ | ⟨a, _ | ⟨b, _ | ⟨x, _ | ⟨d1, _ | ⟨d2, _ | ⟨d3, _ | ⟨d4, r⟩⟩⟩⟩⟩⟩⟩
  · exact absurd h (by simp [uniWin])
  · exact absurd h (by simp [uniWin])
  · exact absurd h (by simp [uniWin])
  · exact absurd h (by simp [uniWin])
  · exact absurd h (by simp [uniWin])
  · exact absurd h (by simp [uniWin])
  · exact absurd h (by simp [uniWin])
  · exact h

theorem hexFree_tail {c : Char} {cs : List Char}
    (h : hexFree (c :: cs) = true) : hexFree cs = true := by
  simp only [hexFree, Bool.and_eq_true] at h
  exact h.2

theorem hexFree_drop {a s : List Char} (h : hexFree (a ++ s) = true) :
    hexFree s = true := by
  induction a with
  | nil => exact h
  | cons c cs ih => exact ih (hexFree_tail h)

theorem hexFree_take : ∀ {u v : List Char}, hexFree (u ++ v) = true →
    hexFree u = true := by
  intro u
  induction u with
  | nil => intro v _; rfl
  | cons c cs ih =>
    intro v h
    rw [List.cons_append] at h
    simp only [hexFree, Bool.and_eq_true] at h ⊢
    refine ⟨?_, ih h.2⟩
    cases hw : hexWin (c :: cs)
    · rfl
    · have := hexWin_append hw v
      rw [show (c :: cs) ++ v = c :: (cs ++ v) from rfl] at this
      rw [this] at h
      simp at h

theorem uniFree_tail {c : Char} {cs : List Char}
    (h : uniFree (c :: cs) = true) : uniFree cs = true := by
  simp only [uniFree, Bool.and_eq_true] at h
  exact h.2

theorem uniFree_drop {a s : List Char} (h : uniFree (a ++ s) = true) :
    uniFree s = true := by
  induction a with
  | nil => exact h
  | cons c cs ih => exact ih (uniFree_tail h)

theorem uniFree_take : ∀ {u v : List Char}, uniFree (u ++ v) = true →
    uniFree u = true := by
  intro u
  induction u with
  | nil => intro v _; rfl
  | cons c cs ih =>
    intro v h
    rw [List.cons_append] at h
    simp only [uniFree, Bool.and_eq_true] at h ⊢
    refine ⟨?_, ih h.2⟩
    cases hw : uniWin (c :: cs)
    · rfl
    · have := uniWin_append hw v
      rw [show (c :: cs) ++ v = c :: (cs ++ v) from rfl] at this
      rw [this] at h
      simp at h

theorem hexFree_small : ∀ {s : List Char}, s.length < 5 → hexFree s = true
  | [], _ => rfl
  | c :: cs, h => by
    simp only [hexFree, Bool.and_eq_true]
    constructor
    · rcases cs with _ | ⟨b, _ | ⟨x, _ | ⟨d1, _ | ⟨d2, r⟩⟩⟩⟩ <;>
        first
          | rfl
          | (exfalso; simp only [List.length_cons] at h; omega)
    · exact hexFree_small (by simp only [List.length_cons] at h; omega)

theorem uniFree_small : ∀ {s : List Char}, s.length < 7 → uniFree s = true
  | [], _ => rfl
  | c :: cs, h => by
    simp only [uniFree, Bool.and_eq_true]
    constructor
    · rcases cs with
        _ | ⟨b, _ | ⟨x, _ | ⟨d1, _ | ⟨d2, _ | ⟨d3, _ | ⟨d4, r⟩⟩⟩⟩⟩⟩ <;>
        first
          | rfl
          | (exfalso; simp only [List.length_cons] at h; omega)
    · exact uniFree_small (by simp only [List.length_cons] at h; omega)

theorem subHex_of_hexFree : ∀ s : List Char, hexFree s = true →
    subHex s = s
  | a :: b :: x :: d1 :: d2 :: rest, h => by
    have hw : hexWin (a :: b :: x :: d1 :: d2 :: rest) = false := by
      simp only [hexFree, Bool.and_eq_true] at h
      cases hww : hexWin (a :: b :: x :: d1 :: d2 :: rest)
      · rfl
      · rw [hww] at h; simp at h
    simp only [hexWin, decide_eq_false_iff_not] at hw
    simp only [subHex, if_neg hw]
    rw [subHex_of_hexFree (b :: x :: d1 :: d2 :: rest) (hexFree_tail h)]
  | [], _ => rfl
  | [a], _ => rfl
  | [a, b], _ => rfl
  | [a, b, x], _ => rfl
  | [a, b, x, d], _ => rfl

theorem hexFree_of_subHex : ∀ s : List Char, subHex s = s →
    hexFree s = true
  | a :: b :: x :: d1 :: d2 :: rest, h => by
    by_cases hc : a = '\\' ∧ b = '\\' ∧ x = 'x' ∧ isHexDigit d1 = true ∧
        isHexDigit d2 = true
    · exfalso
      rw [show subHex (a :: b :: x :: d1 :: d2 :: rest) = subHex rest from by
        simp only [subHex, if_pos hc]] at h
      have h1 := subHex_length rest
      have h2 := congrArg List.length h
      simp only [List.length_cons] at h2
      omega
    · have hstep : subHex (a :: b :: x :: d1 :: d2 :: rest)
          = a :: subHex (b :: x :: d1 :: d2 :: rest) := by
        simp only [subHex, if_neg hc]
      rw [hstep, List.cons.injEq] at h
      have hrec := hexFree_of_subHex (b :: x :: d1 :: d2 :: rest) h.2
      have hwf : hexWin (a :: b :: x :: d1 :: d2 :: rest) = false := by
        simp only [hexWin, decide_eq_false_iff_not]
        exact hc
      rw [show hexFree (a :: b :: x :: d1 :: d2 :: rest)
          = (!hexWin (a :: b :: x :: d1 :: d2 :: rest)
             && hexFree (b :: x :: d1 :: d2 :: rest)) from rfl,
        hwf, hrec]
      rfl
  | [], _ => rfl
  | [a], _ => rfl
  | [a, b], _ => by simp [hexFree, hexWin]
  | [a, b, x], _ => by simp [hexFree, hexWin]
  | [a, b, x, d], _ => by simp [hexFree, hexWin]

theorem subUni_of_uniFree : ∀ s : List Char, uniFree s = true →
    subUni s = s
  | a :: b :: x :: d1 :: d2 :: d3 :: d4 :: rest, h => by
    have hw : uniWin (a :: b :: x :: d1 :: d2 :: d3 :: d4 :: rest)
        = false := by
      simp only [uniFree, Bool.and_eq_true] at h
      cases hww : uniWin (a :: b :: x :: d1 :: d2 :: d3 :: d4 :: rest)
      · rfl
      · rw [hww] at h; simp at h
    simp only [uniWin, decide_eq_false_iff_not] at hw
    simp only [subUni, if_neg hw]
    rw [subUni_of_uniFree (b :: x :: d1 :: d2 :: d3 :: d4 :: rest)
      (uniFree_tail h)]
  | [], _ => rfl
  | [a], _ => rfl
  | [a, b], _ => rfl
  | [a, b, x], _ => rfl
  | [a, b, x, d], _ => rfl
  | [a, b, x, d, e], _ => rfl
  | [a, b, x, d, e, f], _ => rfl

theorem uniFree_of_subUni : ∀ s : List Char, subUni s = s →
    uniFree s = true
  | a :: b :: x :: d1 :: d2 :: d3 :: d4 :: rest, h => by
    by_cases hc : a = '\\' ∧ b = '\\' ∧ x = 'u' ∧ isHexDigit d1 = true ∧
        isHexDigit d2 = true ∧ isHexDigit d3 = true ∧ isHexDigit d4 = true
    · exfalso
      rw [show subUni (a :: b :: x :: d1 :: d2 :: d3 :: d4 :: rest)
          = subUni rest from by simp only [subUni, if_pos hc]] at h
      have h1 := subUni_length rest
      have h2 := congrArg List.length h
      simp only [List.length_cons] at h2
      omega
    · have hstep : subUni (a :: b :: x :: d1 :: d2 :: d3 :: d4 :: rest)
          = a :: subUni (b :: x :: d1 :: d2 :: d3 :: d4 :: rest) := by
        simp only [subUni, if_neg hc]
      rw [hstep, List.cons.injEq] at h
      have hrec := uniFree_of_subUni
        (b :: x :: d1 :: d2 :: d3 :: d4 :: rest) h.2
      have hwf : uniWin (a :: b :: x :: d1 :: d2 :: d3 :: d4 :: rest)
          = false := by
        simp only [uniWin, decide_eq_false_iff_not]
        exact hc
      rw [show uniFree (a :: b :: x :: d1 :: d2 :: d3 :: d4 :: rest)
          = (!uniWin (a :: b :: x :: d1 :: d2 :: d3 :: d4 :: rest)
             && uniFree (b :: x :: d1 :: d2 :: d3 :: d4 :: rest)) from rfl,
        hwf, hrec]
      rfl
  | [], _ => rfl
  | [a], _ => rfl
  | [a, b], _ => by simp [uniFree, uniWin]
  | [a, b, x], _ => by simp [uniFree, uniWin]
  | [a, b, x, d], _ => by simp [uniFree, uniWin]
  | [a, b, x, d, e], _ => by simp [uniFree, uniWin]
  | [a, b, x, d, e, f], _ => by simp [uniFree, uniWin]

theorem subHex_len_eq : ∀ s : List Char,
    (subHex s).length = s.length → subHex s = s
  | a :: b :: x :: d1 :: d2 :: rest, h => by
    by_cases hc : a = '\\' ∧ b = '\\' ∧ x = 'x' ∧ isHexDigit d1 = true ∧
        isHexDigit d2 = true
    · exfalso
      rw [show subHex (a :: b :: x :: d1 :: d2 :: rest) = subHex rest from by
        simp only [subHex, if_pos hc]] at h
      have h1 := subHex_length rest
      simp only [List.length_cons] at h
      omega
    · have hstep : subHex (a :: b :: x :: d1 :: d2 :: rest)
          = a :: subHex (b :: x :: d1 :: d2 :: rest) := by
        simp only [subHex, if_neg hc]
      rw [hstep] at h ⊢
      simp only [List.length_cons] at h
      rw [subHex_len_eq (b :: x :: d1 :: d2 :: rest) (by
        simp only [List.length_cons]; omega)]
  | [], _ => rfl
  | [a], _ => rfl
  | [a, b], _ => rfl
  | [a, b, x], _ => rfl
  | [a, b, x, d], _ => rfl

theorem subUni_len_eq : ∀ s : List Char,
    (subUni s).length = s.length → subUni s = s
  | a :: b :: x :: d1 :: d2 :: d3 :: d4 :: rest, h => by
    by_cases hc : a = '\\' ∧ b = '\\' ∧ x = 'u' ∧ isHexDigit d1 = true ∧
        isHexDigit d2 = true ∧ isHexDigit d3 = true ∧ isHexDigit d4 = true
    · exfalso
      rw [show subUni (a :: b :: x :: d1 :: d2 :: d3 :: d4 :: rest)
          = subUni rest from by simp only [subUni, if_pos hc]] at h
      have h1 := subUni_length rest
      simp only [List.length_cons] at h
      omega
    · have hstep : subUni (a :: b :: x :: d1 :: d2 :: d3 :: d4 :: rest)
          = a :: subUni (b :: x :: d1 :: d2 :: d3 :: d4 :: rest) := by
        simp only [subUni, if_neg hc]
      rw [hstep] at h ⊢
      simp only [List.length_cons] at h
      rw [subUni_len_eq (b :: x :: d1 :: d2 :: d3 :: d4 :: rest) (by
        simp only [List.length_cons]; omega)]
  | [], _ => rfl
  | [a], _ => rfl
  | [a, b], _ => rfl
  | [a, b, x], _ => rfl
  | [a, b, x, d], _ => rfl
  | [a, b, x, d, e], _ => rfl
  | [a, b, x, d, e, f], _ => rfl

/-- A line fixed by the residual cleanup is fixed by each of its stages:
the hex-escape removal, the block-character filter, and the
unicode-escape removal. -/
theorem cleanLine_fixed_parts {n : List Char} (h : cleanLine n = n) :
    subHex n = n ∧ (∀ c ∈ n, isBlock c = false) ∧ subUni n = n := by
  unfold cleanLine at h
  have l1 := subUni_length ((subHex n).filter (fun c => !isBlock c))
  have l2 := List.length_filter_le (fun c => !isBlock c) (subHex n)
  have l3 := subHex_length n
  have hlen := congrArg List.length h
  have e3 : (subHex n).length = n.length := by omega
  have hx : subHex n = n := subHex_len_eq n e3
  rw [hx] at h
  have l4 := subUni_length (n.filter (fun c => !isBlock c))
  have l5 := List.length_filter_le (fun c => !isBlock c) n
  have hlen2 := congrArg List.length h
  have hf : n.filter (fun c => !isBlock c) = n := by
    rw [List.filter_eq_self]
    intro c hc
    by_contra hcc
    have hcc2 : isBlock c = true := by
      cases hbk : isBlock c
      · exfalso
        apply hcc
        rw [hbk]
        rfl
      · rfl
    have hnp : ¬((!isBlock c) = true) := by simp [hcc2]
    have := (List.length_filter_lt_length_iff_exists
      (p := fun d => !isBlock d) (l := n)).mpr ⟨c, hc, hnp⟩
    omega
  rw [hf] at h
  refine ⟨hx, ?_, h⟩
  intro c hc
  have := List.filter_eq_self.mp hf c hc
  simpa using this

/-- Fixedness under the residual cleanup passes to any infix of the
line. -/
theorem cleanLine_fixed_infix {a m b : List Char}
    (h : cleanLine (a ++ m ++ b) = a ++ m ++ b) : cleanLine m = m := by
  obtain ⟨hx, hbl, hu⟩ := cleanLine_fixed_parts h
  have hxf : hexFree m = true := by
    have h1 := hexFree_of_subHex _ hx
    rw [List.append_assoc] at h1
    exact hexFree_take (hexFree_drop h1)
  have huf : uniFree m = true := by
    have h1 := uniFree_of_subUni _ hu
    rw [List.append_assoc] at h1
    exact uniFree_take (uniFree_drop h1)
  have hbm : ∀ c ∈ m, isBlock c = false := by
    intro c hc
    exact hbl c (by simp [hc])
  unfold cleanLine
  rw [subHex_of_hexFree m hxf,
    List.filter_eq_self.mpr (fun c hc => by simp [hbm c hc]),
    subUni_of_uniFree m huf]

theorem susp1_append {u : List Char} (h : susp1 u = true) (v : List Char) :
    susp1 (u ++ v) = true := by
  rcases u with _ | ⟨c, _ | ⟨d, _ | ⟨e, _ | ⟨f, r⟩⟩⟩⟩
  · exact absurd h (by simp [susp1])
  · exact absurd h (by simp [susp1])
  · exact absurd h (by simp [susp1])
  · exact absurd h (by simp [susp1])
  · exact h

theorem susp2_append {u : List Char} (h : susp2 u = true) (v : List Char) :
    susp2 (u ++ v) = true := by
  rcases u with _ | ⟨c, _ | ⟨d, r⟩⟩
  · exact absurd h (by simp [susp2])
  · exact absurd h (by simp [susp2])
  · exact h

theorem susp3_append {u : List Char} (h : susp3 u = true) (v : List Char) :
    susp3 (u ++ v) = true := by
  rcases u with _ | ⟨c, _ | ⟨d, r⟩⟩
  · exact absurd h (by simp [susp3])
  · exact absurd h (by simp [susp3])
  · exact h

/-- A line surrounded by whitespace and not matching the suspicious-start
pattern does not match it once the whitespace is removed. -/
theorem suspiciousStart_pad {a m b : List Char}
    (ha : ∀ c ∈ a, pyWS c = true) (hb : ∀ c ∈ b, pyWS c = true)
    (h : suspiciousStart (a ++ m ++ b) = false) :
    suspiciousStart m = false := by
  have hdrop : (a ++ m ++ b).dropWhile pyWS = (m ++ b).dropWhile pyWS := by
    rw [List.append_assoc]
    exact dropWhile_ws_append ha (m ++ b)
  unfold suspiciousStart at h ⊢
  rw [hdrop] at h
  cases hd : m.dropWhile pyWS with
  | nil => simp [susp1, susp2, susp3]
  | cons c d =>
    have hdb : (m ++ b).dropWhile pyWS = (c :: d) ++ b := by
      rw [List.dropWhile_append, hd]
      simp
    rw [hdb] at h
    simp only [Bool.or_eq_false_iff] at h ⊢
    obtain ⟨⟨h1, h2⟩, h3⟩ := h
    refine ⟨⟨?_, ?_⟩, ?_⟩
    · cases hs : susp1 (c :: d)
      · rfl
      · rw [susp1_append hs b] at h1
        exact h1
    · cases hs : susp2 (c :: d)
      · rfl
      · rw [susp2_append hs b] at h2
        exact h2
    · cases hs : susp3 (c :: d)
      · rfl
      · rw [susp3_append hs b] at h3
        exact h3

theorem pyWordsAux_ws {u : List Char} (hu : ∀ c ∈ u, pyWS c = true) :
    ∀ acc : List Char,
      pyWordsAux acc u = if acc = [] then [] else [acc.reverse] := by
  induction u with
  | nil => intro acc; rfl
  | cons c cs ih =>
    intro acc
    have hc := hu c (by simp)
    have ih2 := ih (fun d hd => hu d (List.mem_cons.mpr (Or.inr hd)))
    simp only [pyWordsAux, hc, if_true]
    split
    · rw [ih2 []]
      simp
    · rw [ih2 []]
      simp

theorem pyWordsAux_suffix {b : List Char} (hb : ∀ c ∈ b, pyWS c = true) :
    ∀ (s acc : List Char), pyWordsAux acc (s ++ b) = pyWordsAux acc s := by
  intro s
  induction s with
  | nil =>
    intro acc
    rw [List.nil_append, pyWordsAux_ws hb acc]
    rfl
  | cons c cs ih =>
    intro acc
    simp only [List.cons_append, pyWordsAux, List.append_eq]
    split
    · split
      · exact ih []
      · rw [ih []]
    · exact ih (c :: acc)

theorem pyWords_prefix {a : List Char} (ha : ∀ c ∈ a, pyWS c = true)
    (s : List Char) : pyWords (a ++ s) = pyWords s := by
  unfold pyWords
  induction a with
  | nil => rfl
  | cons c cs ih =>
    have hc := ha c (by simp)
    simp only [List.cons_append, pyWordsAux, hc, if_true, if_pos rfl]
    exact ih (fun d hd => ha d (List.mem_cons.mpr (Or.inr hd)))

theorem pyWords_pad {a b : List Char} (ha : ∀ c ∈ a, pyWS c = true)
    (hb : ∀ c ∈ b, pyWS c = true) (m : List Char) :
    pyWords (a ++ m ++ b) = pyWords m := by
  rw [List.append_assoc, pyWords_prefix ha]
  unfold pyWords
  exact pyWordsAux_suffix hb m []

theorem headerLike_pad {a b : List Char} (ha : ∀ c ∈ a, pyWS c = true)
    (hb : ∀ c ∈ b, pyWS c = true) (m : List Char) :
    headerLike (a ++ m ++ b) = headerLike m := by
  unfold headerLike
  rw [pyStrip_pad ha hb]

theorem saladLineReject_pad {a b : List Char}
    (ha : ∀ c ∈ a, pyWS c = true) (hb : ∀ c ∈ b, pyWS c = true)
    (m : List Char) :
    saladLineReject (a ++ m ++ b) = saladLineReject m := by
  unfold saladLineReject
  rw [pyWords_pad ha hb]

theorem processLine_ws {m : List Char} (h : pyStrip m = []) :
    processLine m = some m := by
  unfold processLine
  rw [if_pos h]

/-- A line kept verbatim by the per-line filter is still kept verbatim
after its surrounding whitespace is stripped. -/
theorem processLine_pad {a m b : List Char}
    (ha : ∀ c ∈ a, pyWS c = true) (hb : ∀ c ∈ b, pyWS c = true)
    (h : processLine (a ++ m ++ b) = some (a ++ m ++ b)) :
    processLine m = some m := by
  have hps : pyStrip (a ++ m ++ b) = pyStrip m := pyStrip_pad ha hb m
  by_cases hp0 : pyStrip m = []
  · exact processLine_ws hp0
  · have hpn : ¬(pyStrip (a ++ m ++ b) = []) := by rw [hps]; exact hp0
    unfold processLine at h
    rw [if_neg hpn] at h
    have hsc : corruptionScore (a ++ m ++ b) = corruptionScore m :=
      corruptionScore_pad ha hb m
    by_cases hdense : 10 < (pyStrip (a ++ m ++ b)).length ∧
        (pyStrip (a ++ m ++ b)).length
          < 5 * corruptionScore (a ++ m ++ b)
    · rw [if_pos hdense] at h
      exact absurd h (by simp)
    · rw [if_neg hdense] at h
      by_cases hsusp : suspiciousStart (a ++ m ++ b) = true
      · rw [if_pos hsusp] at h
        exact absurd h (by simp)
      · rw [if_neg hsusp] at h
        simp only [Option.some.injEq] at h
        have hsuspm : suspiciousStart m = false :=
          suspiciousStart_pad ha hb (by
            cases hscc : suspiciousStart (a ++ m ++ b)
            · rfl
            · exact absurd hscc hsusp)
        have hclm : cleanLine m = m := cleanLine_fixed_infix h
        unfold processLine
        rw [if_neg hp0, if_neg (by rw [← hps, ← hsc]; exact hdense),
          if_neg (by rw [hsuspm]; simp), hclm]

theorem processLine_clean_eq {ℓ m : List Char} (hc : cleanLine ℓ = ℓ)
    (h : processLine ℓ = some m) : m = ℓ := by
  unfold processLine at h
  split at h
  · simp only [Option.some.injEq] at h
    exact h.symm
  · split at h
    · exact absurd h (by simp)
    · split at h
      · exact absurd h (by simp)
      · simp only [Option.some.injEq] at h
        rw [hc] at h
        exact h.symm

/-- C7 (amended): a second sanitization pass is the identity on an accepted
nonempty output `t` provided the first pass did not rewrite any line — every
line of the control-filtered input is already fixed by the residual escape
and block-character cleanup — and every character of `t` is printable.
(Without these provisos a second pass can differ: removing one escape can
splice a new escape together, as the recorded counterexample shows.) -/
theorem claim_C7_amended (x t : List Char)
    (hx : sanitize_ai_content x = some t) (ht : t ≠ [])
    (hclean : ∀ ℓ ∈ splitOn '\n' (x.filter keepChar), cleanLine ℓ = ℓ)
    (hprint : ∀ c ∈ t, printableChar c = true) :
    sanitize_ai_content t = some t := by
  obtain ⟨hxne, htj, hpr1, hsal1⟩ := sanitize_inv hx
  have hLp : ∀ m ∈ (splitOn '\n' (x.filter keepChar)).filterMap processLine,
      processLine m = some m ∧ '\n' ∉ m := by
    intro m hm
    obtain ⟨ℓ, hl, hpl⟩ := List.mem_filterMap.mp hm
    have hme : m = ℓ := processLine_clean_eq (hclean ℓ hl) hpl
    subst hme
    exact ⟨hpl, splitOn_sep_not_mem '\n' _ m hl⟩
  have hLne : (splitOn '\n' (x.filter keepChar)).filterMap processLine
      ≠ [] := by
    intro he
    rw [he] at htj
    exact ht (by rw [htj]; rfl)
  have hJlines : splitOn '\n' (joinSep '\n'
      ((splitOn '\n' (x.filter keepChar)).filterMap processLine))
      = (splitOn '\n' (x.filter keepChar)).filterMap processLine :=
    splitOn_joinSep '\n' _ hLne (fun z hz => (hLp z hz).2)
  have hJoinedLine : ∀ n ∈ splitOn '\n' (collapseNL (joinSep '\n'
      ((splitOn '\n' (x.filter keepChar)).filterMap processLine))),
      n = [] ∨ processLine n = some n := by
    intro n hn
    rcases lines_collapseNL hn with h | h
    · exact Or.inl h
    · rw [hJlines] at h
      exact Or.inr (hLp n h).1
  rw [List.any_eq_false] at hsal1
  have hGate1 : ∀ n ∈ splitOn '\n' (collapseNL (joinSep '\n'
      ((splitOn '\n' (x.filter keepChar)).filterMap processLine))),
      (!headerLike n && saladLineReject n) = false := by
    intro n hn
    have hng := hsal1 n hn
    cases hgg : (!headerLike n && saladLineReject n)
    · rfl
    · exact absurd hgg hng
  have hLineT : ∀ m ∈ splitOn '\n' t,
      processLine m = some m ∧
        (!headerLike m && saladLineReject m) = false := by
    intro m hm
    rw [htj] at hm
    obtain ⟨a, b, ha, hb, hmem⟩ := lines_of_strip _ m hm
    rw [← List.append_assoc] at hmem
    rcases hJoinedLine _ hmem with hnil | hfix
    · have hm0 : m = [] :=
        (List.append_eq_nil.mp (List.append_eq_nil.mp hnil).1).2
      subst hm0
      exact ⟨processLine_ws rfl, by decide⟩
    · refine ⟨processLine_pad ha hb hfix, ?_⟩
      have hg := hGate1 _ hmem
      rw [headerLike_pad ha hb, saladLineReject_pad ha hb] at hg
      exact hg
  have hfilter : t.filter keepChar = t :=
    List.filter_eq_self.mpr (sanitize_chars_keep hx)
  have hfm : (splitOn '\n' t).filterMap processLine = splitOn '\n' t :=
    filterMap_fixed (fun m hm => (hLineT m hm).1)
  have htfree : hasTriple t = false := by
    have hjt : hasTriple (collapseNL (joinSep '\n'
        ((splitOn '\n' (x.filter keepChar)).filterMap processLine)))
        = false := by
      rw [collapseNL_eq_spec]
      exact noTriple_spec _
    obtain ⟨w, hw, he⟩ := exists_ws_prefix (collapseNL (joinSep '\n'
      ((splitOn '\n' (x.filter keepChar)).filterMap processLine)))
    rw [he] at hjt
    have h1 := hasTriple_suffix hjt
    obtain ⟨w2, hw2, he2⟩ := exists_ws_suffix
      (List.dropWhile pyWS (collapseNL (joinSep '\n'
        ((splitOn '\n' (x.filter keepChar)).filterMap processLine))))
    rw [he2] at h1
    have h2 := hasTriple_prefix h1
    rw [htj]
    exact h2
  have hcol : collapseNL t = t := by
    rw [collapseNL_eq_spec]
    exact spec_fix t htfree
  have hprintOK : printableOK t = true := by
    unfold printableOK
    split
    · have hcnt : t.countP printableChar = t.length := by
        rw [List.countP_eq_length]
        intro a hat
        exact hprint a hat
      rw [hcnt]
      simp only [decide_eq_true_eq]
      omega
    · rfl
  have hgate2 : (splitOn '\n' t).any
      (fun l => !headerLike l && saladLineReject l) = false := by
    rw [List.any_eq_false]
    intro n hn
    intro hgg
    rw [(hLineT n hn).2] at hgg
    cases hgg
  have hstr : pyStrip t = t := by
    conv_lhs => rw [htj]
    rw [pyStrip_idem, ← htj]
  have hT2 : collapseNL (joinSep '\n'
      ((splitOn '\n' (t.filter keepChar)).filterMap processLine)) = t := by
    rw [hfilter, hfm, joinSep_splitOn, hcol]
  unfold sanitize_ai_content
  rw [if_neg ht]
  simp only
  rw [hT2]
  rw [if_neg (by rw [hprintOK]; simp)]
  rw [if_neg (by rw [hgate2]; simp)]
  rw [hstr]

/-- C7: the claimed unconditional idempotence is false.  The ten-character
input of four backslashes followed by `x41x41` is accepted, producing the
five-character text `\\x41` (two backslashes, `x`, `4`, `1`); sanitizing
that output removes it entirely as a freshly-formed hex escape, returning
the empty text instead of the input. -/
theorem claim_C7_counterexample :
    sanitize_ai_content
        ('\\' :: '\\' :: '\\' :: '\\' :: 'x' :: '4' :: '1' :: 'x' :: '4'
          :: '1' :: [])
      = some ('\\' :: '\\' :: 'x' :: '4' :: '1' :: []) ∧
    ('\\' :: '\\' :: 'x' :: '4' :: '1' :: []) ≠ [] ∧
    sanitize_ai_content ('\\' :: '\\' :: 'x' :: '4' :: '1' :: [])
      = some [] := by
  refine ⟨rfl, by decide, rfl⟩

/-- The amended C7 at a concrete input: `"Hello World"` satisfies every
proviso and is indeed a fixed point of sanitization. -/
theorem claim_C7_amended_witness :
    sanitize_ai_content ("Hello World".toList)
      = some ("Hello World".toList) := by
  have h1 : sanitize_ai_content ("Hello World".toList)
      = some ("Hello World".toList) := rfl
  exact claim_C7_amended ("Hello World".toList) ("Hello World".toList) h1
    (by decide) (by decide) (by decide)

end Sanitize

namespace Strategy
open Sanitize

theorem choiceD_mem {α : Type} (xs : List α) (k : Nat) (d : α)
    (h : xs ≠ []) : choiceD xs k d ∈ xs := by
  unfold choiceD
  have hlt : k % xs.length < xs.length :=
    Nat.mod_lt _ (List.length_pos.mpr h)
  rw [List.getD_eq_getElem xs d hlt]
  exact List.getElem_mem hlt

theorem replGo_ne_nil {pat repl : List Char} (hr : repl ≠ []) :
    ∀ (f : Nat) (s : List Char), s ≠ [] → replGo pat repl f s ≠ []
  | 0, s, hs => hs
  | _ + 1, [], hs => absurd rfl hs
  | f + 1, c :: cs, _ => by
    simp only [replGo]
    cases matchLit pat (c :: cs) with
    | some rest =>
      simp only []
      intro he
      exact hr (List.append_eq_nil.mp he).1
    | none => simp

theorem fillGo_ne_nil (r : Nat → Nat) :
    ∀ (elems : List (List Char × List (List Char))) (i : Nat)
      (tm : List Char), tm ≠ [] →
      (∀ p ∈ elems, p.2 ≠ [] ∧ ∀ o ∈ p.2, o ≠ []) →
      fillGo r i elems tm ≠ []
  | [], _, tm, htm, _ => htm
  | (key, options) :: rest, i, tm, htm, hel => by
    simp only [fillGo]
    have hop := hel (key, options) (List.mem_cons_self _ _)
    have hrep : choiceD options (r i) [] ∈ options :=
      choiceD_mem options (r i) [] hop.1
    have hrne : choiceD options (r i) [] ≠ [] := hop.2 _ hrep
    exact fillGo_ne_nil r rest (i + 1) _
      (replGo_ne_nil hrne _ tm htm)
      (fun p hp => hel p (List.mem_cons.mpr (Or.inr hp)))

theorem dictGet_mem {α : Type} {d : List (List Char × α)} {k : List Char}
    {v : α} (h : dictGet d k = some v) : v ∈ d.map Prod.snd := by
  unfold dictGet at h
  cases hf : d.find? (fun p => p.1 == k) with
  | none => rw [hf] at h; exact absurd h (by simp)
  | some pr =>
    rw [hf] at h
    simp only [Option.map_some', Option.some.injEq] at h
    subst h
    exact List.mem_map.mpr ⟨pr, List.mem_of_find?_eq_some hf, rfl⟩

theorem selectedTemplates_ne_nil (genres : List (List Char)) :
    selectedTemplates genres ≠ [] := by
  simp only [selectedTemplates]
  split
  · simp
  · rename_i hne
    simpa [List.isEmpty_iff] using hne

theorem selectedTemplates_sub (genres : List (List Char)) :
    ∀ td ∈ selectedTemplates genres, td ∈ templateUniverse := by
  have hfold : ∀ (gs : List (List Char)) (acc : List Template),
      (∀ td ∈ acc, td ∈ templateUniverse) →
      ∀ td ∈ gs.foldl (fun acc g =>
        match dictGet PROMPT_TEMPLATES g with
        | some ts => acc ++ ts
        | none => acc) acc, td ∈ templateUniverse := by
    intro gs
    induction gs with
    | nil => exact fun acc h => h
    | cons g gs ih =>
      intro acc hacc
      rw [List.foldl_cons]
      apply ih
      cases hd : dictGet PROMPT_TEMPLATES g with
      | none =>
        simp only [hd]
        exact hacc
      | some ts =>
        simp only [hd]
        intro td htd
        rcases List.mem_append.mp htd with h | h
        · exact hacc td h
        · have hts : ts ∈ PROMPT_TEMPLATES.map Prod.snd := dictGet_mem hd
          exact List.mem_cons.mpr (Or.inr (List.mem_join.mpr ⟨ts, hts, h⟩))
  intro td htd
  simp only [selectedTemplates] at htd
  split at htd
  · rw [List.mem_singleton] at htd
    subst htd
    exact List.mem_cons_self _ _
  · exact hfold genres [] (by simp) td htd

theorem templateUniverse_good : ∀ td ∈ templateUniverse,
    td.title ≠ [] ∧ td.template ≠ [] ∧
    ∀ p ∈ td.elements, p.2 ≠ [] ∧ ∀ o ∈ p.2, o ≠ [] := by
  decide

theorem sound_pools_good :
    (∀ v ∈ sound_templates_technical.map Prod.snd, v ≠ []) ∧
    (∀ v ∈ sound_templates_creative.map Prod.snd, v ≠ []) := by
  constructor <;> decide

theorem soundTemplatesFor_ne_nil (extype synth : List Char) :
    soundTemplatesFor extype synth ≠ [] := by
  unfold soundTemplatesFor
  split
  · cases hd : dictGet sound_templates_technical synth with
    | some ts =>
      simp only [hd]
      exact sound_pools_good.1 ts (dictGet_mem hd)
    | none =>
      simp only [hd]
      decide
  · cases hd : dictGet sound_templates_creative synth with
    | some ts =>
      simp only [hd]
      exact sound_pools_good.2 ts (dictGet_mem hd)
    | none =>
      simp only [hd]
      decide

theorem append_ne_nil_left (a b : List Char) (ha : a ≠ []) :
    a ++ b ≠ [] :=
  fun h => ha (List.append_eq_nil.mp h).1

theorem append_ne_nil_right (a b : List Char) (hb : b ≠ []) :
    a ++ b ≠ [] :=
  fun h => hb (List.append_eq_nil.mp h).2

theorem chordTemplate_fields (semos : List (List Char)) (ed : List Emotion)
    (m : List MidiChord → List Char) :
    (chordTemplate semos ed m).title
      = emotionNames ed ++ " Chord Progression".toList ∧
    (chordTemplate semos ed m).progression ≠ [] ∧
    (chordTemplate semos ed m).explanation ≠ [] ∧
    (chordTemplate semos ed m).emotions = semos ∧
    (chordTemplate semos ed m).difficulty = "Beginner".toList ∧
    (chordTemplate semos ed m).estimatedTime = "10 minutes".toList := by
  refine ⟨rfl, ?_, ?_, rfl, rfl, rfl⟩
  · simp only [chordTemplate]
    split
    · refine append_ne_nil_right _ _ ?_
      decide
    · refine append_ne_nil_left _ _ (append_ne_nil_right _ _ ?_)
      decide
  · simp only [chordTemplate]
    refine append_ne_nil_left _ _ (append_ne_nil_right _ _ ?_)
    decide

theorem drawingTemplateResult_fields (skills : List (List Char))
    (infos : List (List Char × List (List Char)))
    (sampleSubj : List (List Char)) (k1 k2 : Nat) (b : Bool)
    (k3 k4 kt kdiff : Nat) :
    (drawingTemplateResult skills infos sampleSubj k1 k2 b k3 k4 kt
        kdiff).title ≠ [] ∧
    (drawingTemplateResult skills infos sampleSubj k1 k2 b k3 k4 kt
        kdiff).content ≠ [] ∧
    (drawingTemplateResult skills infos sampleSubj k1 k2 b k3 k4 kt
        kdiff).skills = skills ∧
    (drawingTemplateResult skills infos sampleSubj k1 k2 b k3 k4 kt
        kdiff).difficulty ∈ drawing_difficulties ∧
    (drawingTemplateResult skills infos sampleSubj k1 k2 b k3 k4 kt
        kdiff).estimatedTime
      ∈ ["20 minutes".toList, "10 minutes".toList, "1 minute".toList] ∧
    (drawingTemplateResult skills infos sampleSubj k1 k2 b k3 k4 kt
        kdiff).tips.length = 3 ∧
    (drawingTemplateResult skills infos sampleSubj k1 k2 b k3 k4 kt
        kdiff).ai_generated = false := by
  refine ⟨?_, ?_, rfl, ?_, ?_, rfl, rfl⟩
  · simp only [drawingTemplateResult]
    refine append_ne_nil_left _ _ (append_ne_nil_right _ _ ?_)
    decide
  · simp only [drawingTemplateResult]
    have hm := choiceD_mem
      [("Timed Practice".toList,
        drawingTemplate1 skills infos sampleSubj k1),
       ("Focused Study".toList, drawingTemplate2 skills infos k2),
       ("Blind Contour Variation".toList,
        drawingTemplate3 skills infos b k3 k4)]
      kt ("Timed Practice".toList, ([] : List Char))
      (List.cons_ne_nil _ _)
    simp only [List.mem_cons, List.not_mem_nil, or_false] at hm
    rcases hm with h | h | h <;> rw [h]
    · simp only [drawingTemplate1]
      refine append_ne_nil_left _ _ (append_ne_nil_right _ _ ?_)
      decide
    · simp only [drawingTemplate2]
      refine append_ne_nil_right _ _ ?_
      decide
    · simp only [drawingTemplate3]
      refine append_ne_nil_left _ _ (append_ne_nil_right _ _ ?_)
      decide
  · simp only [drawingTemplateResult]
    exact choiceD_mem _ _ _ (by decide)
  · simp only [drawingTemplateResult]
    have hd := choiceD_mem drawing_difficulties kdiff "Beginner".toList
      (by decide)
    set c := choiceD drawing_difficulties kdiff "Beginner".toList with hc
    simp only [drawing_difficulties, List.mem_cons, List.not_mem_nil,
      or_false] at hd
    rcases hd with h | h | h <;> rw [h] <;> decide

/-- C2: when the model backend raises on every call (`Except.error`) or is
not configured (`USE_AI = false`), every generation entry point — writing
prompt, sound design, chord progression and drawing exercise — returns
the TEMPLATE-path result and never surfaces the failure (the embedded
generators are total on the endpoint-validated inputs): the writing
generator returns exactly `generate_prompt_from_template`, whose result
is well-formed — nonempty title and content, a difficulty and word count
from the fixed four-entry table, between one and three tips (here at
least two), and no AI flag; the sound-design generator returns a fallback
template for the requested synthesizer together with the fixed fallback
title and tips; the chord generator on any endpoint-validated emotion
selection returns the same template result on the failing-backend path as
with AI disabled, with the joined emotion-names title, a nonempty
progression and explanation, and the fixed Beginner difficulty and time;
and the drawing generator on any endpoint-validated skill selection
returns the same template result on both paths, with nonempty title and
content, a difficulty from the fixed three-entry table with its mapped
time, exactly three tips and no AI flag. -/
theorem claim_C2 (genres : List (List Char)) (synth extype : List Char)
    (selected_emotions selected_skills : List (List Char)) (u : Unit)
    (kex k0 kw kc kd : Nat) (r : Nat → Nat)
    (sample3 : List (List Char) → List (List Char))
    (midi64 : List MidiChord → List Char) (kdAI : Nat)
    (sampleSubj : List (List Char)) (k1 k2 : Nat) (b : Bool)
    (k3 k4 kt kdiff : Nat) :
    generate_prompt_with_ai genres (Except.error u) kex k0 r kw
      = generate_prompt_from_template genres k0 r kw ∧
    (generate_prompt_from_template genres k0 r kw).title ≠ [] ∧
    (generate_prompt_from_template genres k0 r kw).content ≠ [] ∧
    (generate_prompt_from_template genres k0 r kw).difficulty
      ∈ ["Very Easy".toList, "Easy".toList, "Medium".toList,
         "Hard".toList] ∧
    (generate_prompt_from_template genres k0 r kw).wordCount
      ∈ [250, 500, 750, 1000] ∧
    2 ≤ (generate_prompt_from_template genres k0 r kw).tips.length ∧
    (generate_prompt_from_template genres k0 r kw).tips.length ≤ 3 ∧
    (generate_prompt_from_template genres k0 r kw).ai_generated = false ∧
    (generate_sound_design_prompt synth extype true (Except.error u) kc
        sample3 kd).content ∈ soundTemplatesFor extype synth ∧
    (generate_sound_design_prompt synth extype true (Except.error u) kc
        sample3 kd).title
      = synth ++ " - ".toList ++ capitalize extype
          ++ " Exercise".toList ∧
    (generate_sound_design_prompt synth extype true (Except.error u) kc
        sample3 kd).tips
      = ["Experiment with modulation sources".toList,
         "Layer multiple oscillators".toList,
         "Use effects creatively".toList] ∧
    (generate_sound_design_prompt synth extype false (Except.error u) kc
        sample3 kd).content ∈ soundTemplatesFor extype synth ∧
    (generate_sound_design_prompt synth extype false (Except.error u) kc
        sample3 kd).tips.length ≤ 3 ∧
    (emotionData selected_emotions ≠ [] →
      generate_chord_progression selected_emotions true (Except.error u)
          midi64
        = generate_chord_progression selected_emotions false
          (Except.error u) midi64 ∧
      ∃ res, generate_chord_progression selected_emotions true
          (Except.error u) midi64 = some res ∧
        res.title = emotionNames (emotionData selected_emotions)
          ++ " Chord Progression".toList ∧
        res.progression ≠ [] ∧ res.explanation ≠ [] ∧
        res.emotions = selected_emotions ∧
        res.difficulty = "Beginner".toList ∧
        res.estimatedTime = "10 minutes".toList) ∧
    (selected_skills ≠ [] →
      (selected_skills.mapM (fun s => dictGet SKILL_INFO s)).isSome
        = true →
      generate_drawing_exercise selected_skills true (Except.error u)
          kdAI sampleSubj k1 k2 b k3 k4 kt kdiff
        = generate_drawing_exercise selected_skills false
          (Except.error u) kdAI sampleSubj k1 k2 b k3 k4 kt kdiff ∧
      ∃ res, generate_drawing_exercise selected_skills true
          (Except.error u) kdAI sampleSubj k1 k2 b k3 k4 kt kdiff
          = some res ∧
        res.title ≠ [] ∧ res.content ≠ [] ∧
        res.skills = selected_skills ∧
        res.difficulty ∈ drawing_difficulties ∧
        res.estimatedTime ∈ ["20 minutes".toList, "10 minutes".toList,
          "1 minute".toList] ∧
        res.tips.length = 3 ∧ res.ai_generated = false) := by
  have hmem : choiceD (selectedTemplates genres) k0 defaultTemplate
      ∈ templateUniverse :=
    selectedTemplates_sub genres _
      (choiceD_mem _ _ _ (selectedTemplates_ne_nil genres))
  have hgood := templateUniverse_good _ hmem
  have hw : choiceD wcOptions kw (250, "Very Easy".toList) ∈ wcOptions :=
    choiceD_mem _ _ _ (by decide)
  have hwall : ∀ p ∈ wcOptions,
      p.2 ∈ ["Very Easy".toList, "Easy".toList, "Medium".toList,
        "Hard".toList] ∧ p.1 ∈ [250, 500, 750, 1000] := by decide
  refine ⟨rfl, hgood.1, ?_, (hwall _ hw).1, (hwall _ hw).2, ?_, ?_, rfl,
    ?_, rfl, rfl, ?_, ?_, ?_, ?_⟩
  · show fillGo r 1
        (choiceD (selectedTemplates genres) k0 defaultTemplate).elements
        (choiceD (selectedTemplates genres) k0 defaultTemplate).template
      ≠ []
    exact fillGo_ne_nil r _ 1 _ hgood.2.1 hgood.2.2
  · show 2 ≤ (((genres.filterMap (dictGet genre_tips)) ++
      ["Start with a strong opening line that immediately engages the reader.".toList,
       "Show character growth through actions and decisions, not just description.".toList]).take 3).length
    rw [List.length_take, List.length_append]
    simp only [List.length_cons, List.length_nil]
    omega
  · show (((genres.filterMap (dictGet genre_tips)) ++
      ["Start with a strong opening line that immediately engages the reader.".toList,
       "Show character growth through actions and decisions, not just description.".toList]).take 3).length ≤ 3
    rw [List.length_take]
    omega
  · show choiceD (soundTemplatesFor extype synth) kc []
      ∈ soundTemplatesFor extype synth
    exact choiceD_mem _ _ _ (soundTemplatesFor_ne_nil extype synth)
  · show choiceD (soundTemplatesFor extype synth) kc []
      ∈ soundTemplatesFor extype synth
    exact choiceD_mem _ _ _ (soundTemplatesFor_ne_nil extype synth)
  · show ((if extype = "technical".toList then
        ["Start with initializing the synth to hear your changes clearly".toList,
         "Use your ears - trust what sounds good rather than just visual feedback".toList,
         "Save variations as you go to compare different approaches".toList]
      else sample3 creativeTipPool).take 3).length ≤ 3
    exact List.length_take_le 3 _
  · intro hemo
    cases hed : emotionData selected_emotions with
    | nil => exact absurd hed hemo
    | cons e0 es =>
      have hfields := chordTemplate_fields selected_emotions (e0 :: es)
        midi64
      have hget : generate_chord_progression selected_emotions true
          (Except.error u) midi64
          = some (chordTemplate selected_emotions (e0 :: es) midi64) := by
        simp only [generate_chord_progression, hed]
      have hgef : generate_chord_progression selected_emotions false
          (Except.error u) midi64
          = some (chordTemplate selected_emotions (e0 :: es) midi64) := by
        simp only [generate_chord_progression, hed]
      refine ⟨hget.trans hgef.symm, _, hget, ?_, hfields.2.1,
        hfields.2.2.1, hfields.2.2.2.1, hfields.2.2.2.2.1,
        hfields.2.2.2.2.2⟩
      exact hfields.1
  · intro hne hsome
    obtain ⟨infos, hinfos⟩ := Option.isSome_iff_exists.mp hsome
    cases hsk : selected_skills with
    | nil => exact absurd hsk hne
    | cons s0 ss =>
      rw [hsk] at hinfos
      have hgen : ∀ ua : Bool,
          generate_drawing_exercise (s0 :: ss) ua (Except.error u) kdAI
            sampleSubj k1 k2 b k3 k4 kt kdiff
          = some (drawingTemplateResult (s0 :: ss) infos sampleSubj k1
              k2 b k3 k4 kt kdiff) := by
        intro ua
        have hinfos2 : List.mapM.loop (fun s => dictGet SKILL_INFO s)
            (s0 :: ss) [] = some infos := hinfos
        cases ua <;>
          simp [generate_drawing_exercise, hinfos, hinfos2]
      exact ⟨(hgen true).trans (hgen false).symm, _, hgen true,
        drawingTemplateResult_fields (s0 :: ss) infos sampleSubj k1 k2 b
          k3 k4 kt kdiff⟩

/-- Witness for C2 at a concrete endpoint-validated input: emotion
`Melancholy` and skill `Gesture`; the chord generator returns the same
template result on the failing-backend and AI-disabled paths, and the
drawing generator returns a template (non-AI) result. -/
theorem claim_C2_witness :
    generate_chord_progression ["Melancholy".toList] true
        (Except.error ()) (fun _ => [])
      = generate_chord_progression ["Melancholy".toList] false
        (Except.error ()) (fun _ => []) ∧
    (∃ res, generate_drawing_exercise ["Gesture".toList] true
        (Except.error ()) 0 [] 0 0 false 0 0 0 0 = some res ∧
      res.ai_generated = false) := by
  have h := claim_C2 ["Fantasy".toList] "Serum".toList
    "technical".toList ["Melancholy".toList] ["Gesture".toList] ()
    0 0 0 0 0 id (fun x => x) (fun _ => []) 0 [] 0 0 false 0 0 0 0
  have hchord :=
    h.2.2.2.2.2.2.2.2.2.2.2.2.2.1 (by decide)
  have hdraw :=
    h.2.2.2.2.2.2.2.2.2.2.2.2.2.2 (by decide) (by decide)
  obtain ⟨res, hres, hprops⟩ := hdraw.2
  exact ⟨hchord.1, res, hres, hprops.2.2.2.2.2.2⟩

end Strategy
